import Mathlib

/-!
# mstpd configuration ingress (`mstpd_conf.c`)

A shallow embedding of the plain-text configuration parser of `mstpd`:
the libc helpers it relies on (`strtoul`, `strcasecmp`, `snprintf("%d")`),
the VID-list codec (`conf_vids_dec`, `conf_vids_enc`), the option handlers,
the functions that apply a parsed configuration, the I/O buffer of
`lib/io_buffer.c` and the line loop of `conf_if_load` that reads it; besides,
the per-VLAN state cache filled by `fill_vlan_table_msg` (`brmon.c`) and
`addattr_l` (`libnetlink.c`).

C strings are lists of characters without the terminating NUL; machine
integers are `Nat`/`Int` with explicit reduction where a store narrows.
-/

namespace Mstpd

/-! ## Constants -/

/-- Modelled from the spec: `MAX_VID` is declared in `mstp.h`, which is not part
of the sources at hand; the spec fixes the largest VID at 4094 and the table at
4096 entries (`vid2mstid[MAX_VID + 2]`). -/
def MAX_VID : Nat := 4094

/-- Modelled from the spec: `MAX_MSTID` is declared in `mstp.h`; the spec gives
`1..4094` as the range of MSTI identifiers. -/
def MAX_MSTID : Nat := 4094

def INT_MAX : Nat := 2147483647
def ULONG_MAX : Nat := 18446744073709551615
def SIZE_MAX : Nat := 18446744073709551615

def MAX_MAX_AGE : Nat := 255
def MAX_FORWARD_DELAY : Nat := 255
def MAX_HOPS : Nat := 255
def MAX_HELLO : Nat := 255
def MAX_TX_HOLD_COUNT : Nat := 255
def MAX_CONFIG_REV : Nat := 65535
def MAX_BR_PRIO : Nat := 65535
def MAX_PRT_PRIO : Nat := 240
def MAX_COST : Nat := 210000000

/-! ## libc helpers -/

/-- C `isspace` in the "C" locale: space, `\t`, `\n`, `\v`, `\f`, `\r`. -/
def isspace (c : Char) : Bool :=
  c.toNat = 32 || (9 ≤ c.toNat && c.toNat ≤ 13)

/-- C `tolower` in the "C" locale. -/
def tolower (c : Char) : Char :=
  if 65 ≤ c.toNat ∧ c.toNat ≤ 90 then Char.ofNat (c.toNat + 32) else c

/-- Value of a character as a digit of `strtoul` (any base up to 36). -/
def digitVal (c : Char) : Option Nat :=
  if 48 ≤ c.toNat ∧ c.toNat ≤ 57 then some (c.toNat - 48)
  else if 97 ≤ c.toNat ∧ c.toNat ≤ 122 then some (c.toNat - 97 + 10)
  else if 65 ≤ c.toNat ∧ c.toNat ≤ 90 then some (c.toNat - 65 + 10)
  else none

/-- The digit loop of `strtoul`: consumes the longest run of digits valid in
`base`, returning the accumulated (unbounded) value and the unread suffix. -/
def strtoul_digits (base : Nat) : List Char → Nat → Nat × List Char
  | [], acc => (acc, [])
  | c :: cs, acc =>
    match digitVal c with
    | some d => if d < base then strtoul_digits base cs (acc * base + d) else (acc, c :: cs)
    | none => (acc, c :: cs)

/-- Skipping of leading white space by `strtoul`. -/
def skip_space : List Char → List Char
  | [] => []
  | c :: cs => if isspace c then skip_space cs else c :: cs

/-- C `strtoul(s, &end, base)` on 64-bit `unsigned long`: the returned pair is
the value and the string `end` points at.  White space is skipped, a sign is
accepted (a minus sign negates modulo 2^64), a `0x` prefix selects base 16 and
a leading `0` base 8 when `base` is 0; without any digit the value is 0 and
`end` is `s` itself (or the `x` of a bare `0x`); an overflowing value saturates
at `ULONG_MAX`. -/
def strtoul (s : List Char) (base : Nat) : Nat × List Char :=
  let s1 := skip_space s
  let neg : Bool := s1.head? = some '-'
  let s2 := if s1.head? = some '-' ∨ s1.head? = some '+' then s1.tail else s1
  let pfx : Bool := (base = 0 ∨ base = 16) ∧ s2.head? = some '0' ∧
    (s2.tail.head? = some 'x' ∨ s2.tail.head? = some 'X')
  let b : Nat :=
    if pfx then 16
    else if base = 0 then (if s2.head? = some '0' then 8 else 10)
    else base
  let save := if pfx then s2.drop 2 else s2
  let dg := strtoul_digits b save 0
  if dg.2.length = save.length then
    (if pfx then (0, s2.drop 1) else (0, s))
  else if dg.1 > ULONG_MAX then (ULONG_MAX, dg.2)
  else if neg then ((ULONG_MAX + 1 - dg.1) % (ULONG_MAX + 1), dg.2)
  else (dg.1, dg.2)

/-- The function `str_getuint`: `some value` when the function returns 0 and stores `value`,
`none` when it returns -1. -/
def str_getuint (s : List Char) : Option Nat :=
  let r := strtoul s 0
  if s = [] ∨ r.2 ≠ [] ∨ r.1 > INT_MAX then none else some r.1

/-- C `strcasecmp`: difference of the first pair of characters that differ
after `tolower` (the end of a string counts as 0). -/
def strcasecmp : List Char → List Char → Int
  | [], [] => 0
  | [], d :: _ => 0 - ((tolower d).toNat : Int)
  | c :: _, [] => ((tolower c).toNat : Int)
  | c :: cs, d :: ds =>
    if tolower c = tolower d then strcasecmp cs ds
    else ((tolower c).toNat : Int) - ((tolower d).toNat : Int)

/-- Decimal digits of `n`, most significant first, pushed in front of `acc`
(the conversion `%d` of `snprintf` for a non-negative `int`). -/
def fmt_d_core : Nat → Nat → List Char → List Char
  | 0, _, acc => acc
  | fuel + 1, n, acc =>
    if n / 10 = 0 then Char.ofNat (n % 10 + 48) :: acc
    else fmt_d_core fuel (n / 10) (Char.ofNat (n % 10 + 48) :: acc)

/-- What `snprintf(.., "%d", n)` formats for `n ≥ 0`. -/
def fmt_d (n : Nat) : List Char := fmt_d_core (n + 1) n []

/-! ## The VID → MSTID table and the VID-list codec -/

/-- The table `__u16 vid2mstid[MAX_VID + 2]`, read as a map from index to MSTID. -/
abbrev vid_table := Nat → Nat

/-- The store `vid2mstid[i] = x`. -/
def tbl_set (t : vid_table) (i x : Nat) : vid_table :=
  fun j => if j = i then x else t j

/-- The loop `for (; aval <= bval; aval++) vid2mstid[aval] = mstid;` with
`cnt` iterations left. -/
def vids_fill (mstid : Nat) : vid_table → Nat → Nat → vid_table
  | t, _, 0 => t
  | t, aval, cnt + 1 => vids_fill mstid (tbl_set t aval mstid) (aval + 1) cnt

/-- The two stores at the end of the loop body of `conf_vids_dec`: the range
`aval..bval` when `bval >= 0`, the single entry `aval` otherwise. -/
def vids_store (mstid : Nat) (t : vid_table) (aval : Nat) (bval : Int) : vid_table :=
  if bval ≥ 0 then vids_fill mstid t aval (bval.toNat + 1 - aval)
  else tbl_set t aval mstid

/-- One turn of the `while (*s != 0)` loop of `conf_vids_dec` on a non-empty
`s`: `(some r, t, _)` when the body returns `r`, `(none, t', s')` when the loop
goes on with table `t'` and string `s'`. -/
def conf_vids_dec_body (mstid : Nat) (t : vid_table) (s : List Char) :
    Option Int × vid_table × List Char :=
  let r1 := strtoul s 10
  let aval : Nat := if r1.1 ≤ MAX_VID then r1.1 else MAX_VID
  let dash : Bool := r1.2.head? = some '-'
  let r2 := strtoul r1.2.tail 10
  let bval : Int := if dash then (if r2.1 ≤ MAX_VID then (r2.1 : Int) else (MAX_VID : Int)) else -1
  let send := if dash then r2.2 else r1.2
  if dash ∧ (aval : Int) > bval then (some (-1), t, send)
  else if send.head? = some ',' then (none, vids_store mstid t aval bval, send.tail)
  else if send ≠ [] then (some (-1), t, send)
  else (none, vids_store mstid t aval bval, send)

/-- The `while (*s != 0)` loop of `conf_vids_dec`; `none` only when the fuel
runs out. The result is the return value and the table as left behind. -/
def conf_vids_dec_loop (mstid : Nat) : Nat → vid_table → List Char → Option (Int × vid_table)
  | 0, _, _ => none
  | fuel + 1, t, s =>
    if s = [] then some (0, t)
    else
      match conf_vids_dec_body mstid t s with
      | (some r, t', _) => some (r, t')
      | (none, t', s') => conf_vids_dec_loop mstid fuel t' s'

/-- The call `conf_vids_dec(vid2mstid, s, mstid)`: every turn of the loop but the last
consumes at least the separating comma, so `|s| + 1` turns suffice. -/
def conf_vids_dec (t : vid_table) (s : List Char) (mstid : Nat) : Option (Int × vid_table) :=
  conf_vids_dec_loop mstid (s.length + 1) t s

/-- The inner loop of `conf_vids_enc`:
`while (end + 1 <= MAX_VID) { if (vid2mstid[end + 1] == mstid) end++; else break; }`. -/
def enc_run_end (t : vid_table) (mstid : Nat) : Nat → Nat → Nat
  | 0, e => e
  | fuel + 1, e =>
    if e + 1 ≤ MAX_VID then
      (if t (e + 1) = mstid then enc_run_end t mstid fuel (e + 1) else e)
    else e

/-- Memory seen from the address `out` that `conf_vids_enc` is given: byte `i`
is `out[i]`; the buffer proper is the first `max_len` bytes. -/
abbrev char_buf := Nat → Char

/-- The NUL byte. -/
def NUL : Char := Char.ofNat 0

/-- The store `out[i] = c`. -/
def buf_write (b : char_buf) (i : Nat) (c : Char) : char_buf :=
  fun j => if j = i then c else b j

/-- A sequence of stores `(index, byte)`, carried out in order. -/
def buf_apply (b : char_buf) : List (Nat × Char) → char_buf
  | [] => b
  | w :: ws => buf_apply (buf_write b w.1 w.2) ws

/-- The stores that copy `txt` to the indices from `off` on. -/
def text_writes : Nat → List Char → List (Nat × Char)
  | _, [] => []
  | off, c :: cs => (off, c) :: text_writes (off + 1) cs

/-- The stores of `snprintf(out + off, size, fmt, ...)` when the formatted text
is `txt`: at most `size - 1` characters of it and a terminating NUL, nothing at
all when `size` is 0. -/
def snprintf_writes (off size : Nat) (txt : List Char) : List (Nat × Char) :=
  if size = 0 then []
  else text_writes off (txt.take (size - 1)) ++ [(off + min txt.length (size - 1), NUL)]

/-- The C string found at index `i`: the bytes before the first NUL, `limit`
bytes being looked at. -/
def buf_cstr (b : char_buf) : Nat → Nat → List Char
  | 0, _ => []
  | limit + 1, i => if b i = NUL then [] else b i :: buf_cstr b limit (i + 1)

/-- The `for (pos = 0; pos <= MAX_VID; pos++)` loop of `conf_vids_enc`: `off`
is how far `out` has been advanced, `rem_len` is the variable of that name.
The result is the return value and the stores made into `out[]`, in order;
`none` only when the fuel runs out. -/
def conf_vids_enc_loop (t : vid_table) (mstid : Nat) (max_len : Nat) :
    Nat → Nat → Nat → Nat → Nat → Option (Int × List (Nat × Char))
  | 0, _, _, _, _ => none
  | fuel + 1, pos, cnt, off, rem_len =>
    if pos ≤ MAX_VID then
      if t pos = mstid then
        let begin_ := pos
        let end_ := enc_run_end t mstid (MAX_VID - begin_) begin_
        if cnt > 0 ∧ rem_len < 1 then some (-1, [(off + rem_len, NUL)])
        else
          let sep : List (Nat × Char) := if cnt > 0 then [(off, ',')] else []
          let off1 := if cnt > 0 then off + 1 else off
          let rem1 := if cnt > 0 then rem_len - 1 else rem_len
          let txt := if begin_ ≠ end_ then fmt_d begin_ ++ '-' :: fmt_d end_ else fmt_d begin_
          let ret := txt.length
          let prt := snprintf_writes off1 ((rem1 + 1) % (SIZE_MAX + 1)) txt
          if ret ≥ rem1 then
            some (-1, sep ++ prt ++ [(off1 + (max_len + SIZE_MAX) % (SIZE_MAX + 1), NUL)])
          else
            match conf_vids_enc_loop t mstid max_len fuel (end_ + 1) (cnt + 1) (off1 + ret)
                (rem1 - ret) with
            | some (r, ws) => some (r, sep ++ prt ++ ws)
            | none => none
      else conf_vids_enc_loop t mstid max_len fuel (pos + 1) cnt off rem_len
    else some (0, [(off + rem_len, NUL)])

/-- The call `conf_vids_enc(out, max_len, vid2mstid, mstid)`: the return value and the
stores made into `out[]`; `rem_len = max_len - 1` in `size_t`. -/
def conf_vids_enc (max_len : Nat) (t : vid_table) (mstid : Nat) :
    Option (Int × List (Nat × Char)) :=
  conf_vids_enc_loop t mstid max_len (MAX_VID + 2) 0 0 0 ((max_len + SIZE_MAX) % (SIZE_MAX + 1))

/-! ## Parsed configuration -/

/-- Modelled from the spec: `protocol_version_t` is declared in `mstp.h`; the
spec lists the protocol versions STP, RSTP and MSTP (wire values 0, 2, 3), so
the all-zero value written by `memset` is `protoSTP`. -/
inductive protocol_version_t where
  | protoSTP
  | protoRSTP
  | protoMSTP
deriving DecidableEq

/-- Modelled from the spec: `admin_p2p_t` is declared in `mstp.h`; the spec
lists adminP2P as one of ForceTrue, ForceFalse, Auto.  The enumerators are taken
in the order in which `conf_p2p_to_str` switches over them. -/
inductive admin_p2p_t where
  | p2pAuto
  | p2pForceTrue
  | p2pForceFalse
deriving DecidableEq

/-- The C type `struct conf_br_mstid`. -/
structure conf_br_mstid where
  id : Nat
  set : Bool
  prio : Nat
  prio_set : Bool
deriving DecidableEq

/-- The C type `struct conf_prt_mstid`. -/
structure conf_prt_mstid where
  id : Nat
  set : Bool
  prio : Nat
  prio_set : Bool
  int_cost : Nat
  int_cost_set : Bool
deriving DecidableEq

/-- The C type `struct conf_br`; `mstids` holds the first `mstids_cnt` entries of the
array of that name, `mstids_sz` is the byte size of its allocation. -/
structure conf_br where
  mode : protocol_version_t
  mode_set : Bool
  max_age : Nat
  max_age_set : Bool
  forward_delay : Nat
  forward_delay_set : Bool
  max_hops : Nat
  max_hops_set : Bool
  hello : Nat
  hello_set : Bool
  ageing : Nat
  ageing_set : Bool
  tx_hold_count : Nat
  tx_hold_count_set : Bool
  confid_rev : Nat
  confid_set : Bool
  confid_name : List Char
  prio : Nat
  prio_set : Bool
  mstids : List conf_br_mstid
  mstids_sz : Nat
  vid2mstid : vid_table
  vid2mstid_set : Bool

/-- The C type `struct conf_prt`; `mstids` and `mstids_sz` as in `conf_br`. -/
structure conf_prt where
  admin_edge : Bool
  admin_edge_set : Bool
  auto_edge : Bool
  auto_edge_set : Bool
  p2p : admin_p2p_t
  p2p_set : Bool
  rest_role : Bool
  rest_role_set : Bool
  rest_tcn : Bool
  rest_tcn_set : Bool
  bpdu_guard : Bool
  bpdu_guard_set : Bool
  network : Bool
  network_set : Bool
  dont_txmt : Bool
  dont_txmt_set : Bool
  bpdu_filter : Bool
  bpdu_filter_set : Bool
  prio : Nat
  prio_set : Bool
  int_cost : Nat
  int_cost_set : Bool
  ext_cost : Nat
  ext_cost_set : Bool
  mstids : List conf_prt_mstid
  mstids_sz : Nat

/-- The C type `struct conf_ctx`, with the structure being filled (`ctx->br` or
`ctx->prt`) held in `cif`; the fields used for logging only (`filename`,
`optname`) are left out. -/
structure conf_ctx (α : Type) where
  cif : α
  line : Nat
  mstid : Int
  argv : List (List Char)
  argc : Int

/-- What the C library and the heap contribute to one handler call: whether a
`realloc` succeeds, and the bytes found in memory that `realloc` hands out and
the handler does not initialise. -/
structure heap_env where
  realloc_ok : Bool
  junk_prio : Nat
  junk_prio_set : Bool

/-- The C type `struct conf_opt`. -/
structure conf_opt (α : Type) where
  name : List Char
  argc_min : Int
  argc_max : Int
  func : heap_env → conf_ctx α → Int × conf_ctx α

def CONFIGURATION_NAME_LEN : Nat := 32
def MSTID_PAGE_SIZE : Nat := 128

def conf_opt_mode : List (List Char) := ["stp".toList, "rstp".toList, "mstp".toList]
def conf_opt_yesno : List (List Char) := ["no".toList, "yes".toList]
def conf_opt_yesnoauto : List (List Char) := ["no".toList, "yes".toList, "auto".toList]

/-- The argument `ctx->argv[i]`. -/
def conf_ctx.arg {α : Type} (ctx : conf_ctx α) (i : Nat) : List Char := ctx.argv.getD i []

/-- The function `str_getenum`, counting from index `i`: the index of the first keyword
equal to `s` up to case, or -1. -/
def str_getenum_from (s : List Char) : List (List Char) → Int → Int
  | [], _ => -1
  | o :: os, i => if strcasecmp s o = 0 then i else str_getenum_from s os (i + 1)

def str_getenum (s : List Char) (opt : List (List Char)) : Int := str_getenum_from s opt 0

def str_getyesno (s yes no : List Char) : Int :=
  if strcasecmp s yes = 0 then 1
  else if strcasecmp s no = 0 then 0
  else -1

/-! ## Option handlers -/

/-- The macro `CONF_FN_OPT_UINT`: `store` is the pair of assignments
`ctx->_tgt_var = value; ctx->_tgt_var_set = true;`. -/
def CONF_FN_OPT_UINT {α : Type} (store : α → Nat → α) :
    heap_env → conf_ctx α → Int × conf_ctx α :=
  fun _ ctx =>
    match str_getuint (ctx.arg 0) with
    | none => (-1, ctx)
    | some value => (0, { ctx with cif := store ctx.cif value })

/-- The macro `CONF_FN_OPT_UINTX`. -/
def CONF_FN_OPT_UINTX {α : Type} (store : α → Nat → α) (max_val : Nat) :
    heap_env → conf_ctx α → Int × conf_ctx α :=
  fun _ ctx =>
    match str_getuint (ctx.arg 0) with
    | none => (-1, ctx)
    | some value =>
      let value := if value > max_val then max_val else value
      (0, { ctx with cif := store ctx.cif value })

/-- The macro `CONF_FN_OPT_YESNO`. -/
def CONF_FN_OPT_YESNO {α : Type} (store : α → Bool → α) :
    heap_env → conf_ctx α → Int × conf_ctx α :=
  fun _ ctx =>
    let value := str_getyesno (ctx.arg 0) "yes".toList "no".toList
    if value < 0 then (-1, ctx)
    else (0, { ctx with cif := store ctx.cif (decide (value ≠ 0)) })

/-- The loops `for (pos = 0; pos < cnt; pos++) if (p(mstids[pos])) { f; return; }`:
the list with `f` applied to the first entry satisfying `p`, or `none` when the
loop falls through. -/
def mstids_update {β : Type} (p : β → Bool) (f : β → β) : List β → Option (List β)
  | [] => none
  | e :: es =>
    if p e then some (f e :: es)
    else
      match mstids_update p f es with
      | some es' => some (e :: es')
      | none => none

def conf_opt_br_mode : heap_env → conf_ctx conf_br → Int × conf_ctx conf_br :=
  fun _ ctx =>
    let ret := str_getenum (ctx.arg 0) conf_opt_mode
    if ret < 0 then (-1, ctx)
    else
      let vals := [protocol_version_t.protoSTP, protocol_version_t.protoRSTP,
        protocol_version_t.protoMSTP]
      (0, { ctx with cif := { ctx.cif with
        mode := vals.getD ret.toNat protocol_version_t.protoSTP, mode_set := true } })

def conf_opt_br_max_age : heap_env → conf_ctx conf_br → Int × conf_ctx conf_br :=
  CONF_FN_OPT_UINTX (fun br v => { br with max_age := v % 256, max_age_set := true }) MAX_MAX_AGE

def conf_opt_br_forward_delay : heap_env → conf_ctx conf_br → Int × conf_ctx conf_br :=
  CONF_FN_OPT_UINTX (fun br v => { br with forward_delay := v % 256, forward_delay_set := true })
    MAX_FORWARD_DELAY

def conf_opt_br_max_hops : heap_env → conf_ctx conf_br → Int × conf_ctx conf_br :=
  CONF_FN_OPT_UINTX (fun br v => { br with max_hops := v % 256, max_hops_set := true }) MAX_HOPS

def conf_opt_br_hello : heap_env → conf_ctx conf_br → Int × conf_ctx conf_br :=
  CONF_FN_OPT_UINTX (fun br v => { br with hello := v % 256, hello_set := true }) MAX_HELLO

def conf_opt_br_ageing : heap_env → conf_ctx conf_br → Int × conf_ctx conf_br :=
  CONF_FN_OPT_UINT (fun br v => { br with ageing := v % 4294967296, ageing_set := true })

def conf_opt_br_tx_hold_count : heap_env → conf_ctx conf_br → Int × conf_ctx conf_br :=
  CONF_FN_OPT_UINTX
    (fun br v => { br with tx_hold_count := v % 4294967296, tx_hold_count_set := true })
    MAX_TX_HOLD_COUNT

def conf_opt_br_confid : heap_env → conf_ctx conf_br → Int × conf_ctx conf_br :=
  fun _ ctx =>
    match str_getuint (ctx.arg 0) with
    | none => (-1, ctx)
    | some rev =>
      let rev := if rev > MAX_CONFIG_REV then MAX_CONFIG_REV else rev
      let nlen := (ctx.arg 1).length
      let nlen := if nlen + 1 > CONFIGURATION_NAME_LEN then CONFIGURATION_NAME_LEN - 1 else nlen
      (0, { ctx with cif := { ctx.cif with
        confid_rev := rev % 65536, confid_set := true,
        confid_name := (ctx.arg 1).take nlen ++
          List.replicate (CONFIGURATION_NAME_LEN - nlen) (Char.ofNat 0) } })

/-- The handler `conf_opt_br_mstid`; `sizeof(struct conf_br_mstid)` is 8.  A new entry gets
`id` and `set` only, its other two fields keep what the allocation held. -/
def conf_opt_br_mstid : heap_env → conf_ctx conf_br → Int × conf_ctx conf_br :=
  fun env ctx =>
    let cbr := ctx.cif
    match str_getuint (ctx.arg 0) with
    | none => (-1, ctx)
    | some value =>
      let value := if value > MAX_MSTID then MAX_MSTID else value
      if value = 0 then (0, { ctx with mstid := 0 })
      else
        match mstids_update (fun e => decide (value = e.id)) (fun e => { e with set := true })
            cbr.mstids with
        | some ms => (0, { ctx with cif := { cbr with mstids := ms }, mstid := (value : Int) })
        | none =>
          let grow : Bool := (cbr.mstids.length + 1) * 8 > cbr.mstids_sz
          if grow ∧ env.realloc_ok = false then (-1, ctx)
          else
            let nsz := ((cbr.mstids.length + 1 + (MSTID_PAGE_SIZE - 1)) / MSTID_PAGE_SIZE)
              * MSTID_PAGE_SIZE
            let e : conf_br_mstid :=
              { id := value % 65536, set := true,
                prio := env.junk_prio, prio_set := env.junk_prio_set }
            (0, { ctx with
              cif := { cbr with
                mstids := cbr.mstids ++ [e],
                mstids_sz := if grow then nsz else cbr.mstids_sz },
              mstid := (value : Int) })

def conf_opt_br_prio : heap_env → conf_ctx conf_br → Int × conf_ctx conf_br :=
  fun _ ctx =>
    let cbr := ctx.cif
    match str_getuint (ctx.arg 0) with
    | none => (-1, ctx)
    | some value =>
      let value := if value > MAX_BR_PRIO then MAX_BR_PRIO else value
      let value := (value + 4095) / 4096
      if ctx.mstid < 0 then (0, ctx)
      else if ctx.mstid = 0 then
        (0, { ctx with cif := { cbr with prio := value % 65536, prio_set := true } })
      else
        match mstids_update (fun e => decide (ctx.mstid = (e.id : Int)))
            (fun e => { e with prio := value % 65536, prio_set := true }) cbr.mstids with
        | some ms => (0, { ctx with cif := { cbr with mstids := ms } })
        | none => (0, ctx)

/-- The loop over `ctx->argv` of `conf_opt_br_vids`, on the pair of
`vid2mstid` and `vid2mstid_set`. -/
def conf_opt_br_vids_args (mstid : Nat) : List (List Char) → vid_table × Bool → vid_table × Bool
  | [], st => st
  | a :: as, st =>
    match conf_vids_dec st.1 a mstid with
    | some (ret, t) => conf_opt_br_vids_args mstid as (t, if ret = 0 then true else st.2)
    | none => conf_opt_br_vids_args mstid as st

def conf_opt_br_vids : heap_env → conf_ctx conf_br → Int × conf_ctx conf_br :=
  fun _ ctx =>
    let cbr := ctx.cif
    if ctx.mstid = 0 then (0, ctx)
    else if cbr.mstids.any (fun e => decide (ctx.mstid = (e.id : Int))) then
      let st := conf_opt_br_vids_args (ctx.mstid.toNat % 65536)
        (ctx.argv.take ctx.argc.toNat) (cbr.vid2mstid, cbr.vid2mstid_set)
      (0, { ctx with cif := { cbr with vid2mstid := st.1, vid2mstid_set := st.2 } })
    else (0, ctx)

def conf_opts_br : List (conf_opt conf_br) :=
  [ { name := "mode".toList, argc_min := 1, argc_max := 1, func := conf_opt_br_mode },
    { name := "max-age".toList, argc_min := 1, argc_max := 1, func := conf_opt_br_max_age },
    { name := "forward-delay".toList, argc_min := 1, argc_max := 1,
      func := conf_opt_br_forward_delay },
    { name := "max-hops".toList, argc_min := 1, argc_max := 1, func := conf_opt_br_max_hops },
    { name := "hello".toList, argc_min := 1, argc_max := 1, func := conf_opt_br_hello },
    { name := "ageing".toList, argc_min := 1, argc_max := 1, func := conf_opt_br_ageing },
    { name := "tx-hold-count".toList, argc_min := 1, argc_max := 1,
      func := conf_opt_br_tx_hold_count },
    { name := "confid".toList, argc_min := 2, argc_max := 2, func := conf_opt_br_confid },
    { name := "mstid".toList, argc_min := 1, argc_max := 1, func := conf_opt_br_mstid },
    { name := "prio".toList, argc_min := 1, argc_max := 1, func := conf_opt_br_prio },
    { name := "vids".toList, argc_min := 1, argc_max := 0, func := conf_opt_br_vids } ]

/-- The function `conf_prt_add_mstid`; `sizeof(struct conf_prt_mstid)` is 16.  The new entry
is zeroed by `memset` before its `id` is stored. -/
def conf_prt_add_mstid (env : heap_env) (cprt : conf_prt) (mstid : Nat) : Int × conf_prt :=
  if mstid = 0 then (0, cprt)
  else if cprt.mstids.any (fun e => decide (mstid = e.id)) then (0, cprt)
  else
    let grow : Bool := (cprt.mstids.length + 1) * 16 > cprt.mstids_sz
    if grow ∧ env.realloc_ok = false then (-2, cprt)
    else
      let nsz := ((cprt.mstids.length + 1 + (MSTID_PAGE_SIZE - 1)) / MSTID_PAGE_SIZE)
        * MSTID_PAGE_SIZE
      let e : conf_prt_mstid :=
        { id := mstid, set := false, prio := 0, prio_set := false,
          int_cost := 0, int_cost_set := false }
      (0, { cprt with
        mstids := cprt.mstids ++ [e],
        mstids_sz := if grow then nsz else cprt.mstids_sz })

def conf_opt_prt_admin_edge : heap_env → conf_ctx conf_prt → Int × conf_ctx conf_prt :=
  CONF_FN_OPT_YESNO (fun prt v => { prt with admin_edge := v, admin_edge_set := true })

def conf_opt_prt_auto_edge : heap_env → conf_ctx conf_prt → Int × conf_ctx conf_prt :=
  CONF_FN_OPT_YESNO (fun prt v => { prt with auto_edge := v, auto_edge_set := true })

def conf_opt_prt_p2p : heap_env → conf_ctx conf_prt → Int × conf_ctx conf_prt :=
  fun _ ctx =>
    let value := str_getenum (ctx.arg 0) conf_opt_yesnoauto
    if value < 0 then (-1, ctx)
    else
      let vals := [admin_p2p_t.p2pForceFalse, admin_p2p_t.p2pForceTrue, admin_p2p_t.p2pAuto]
      (0, { ctx with cif := { ctx.cif with
        p2p := vals.getD value.toNat admin_p2p_t.p2pAuto, p2p_set := true } })

def conf_opt_prt_rest_role : heap_env → conf_ctx conf_prt → Int × conf_ctx conf_prt :=
  CONF_FN_OPT_YESNO (fun prt v => { prt with rest_role := v, rest_role_set := true })

def conf_opt_prt_rest_tcn : heap_env → conf_ctx conf_prt → Int × conf_ctx conf_prt :=
  CONF_FN_OPT_YESNO (fun prt v => { prt with rest_tcn := v, rest_tcn_set := true })

def conf_opt_prt_bpdu_guard : heap_env → conf_ctx conf_prt → Int × conf_ctx conf_prt :=
  CONF_FN_OPT_YESNO (fun prt v => { prt with bpdu_guard := v, bpdu_guard_set := true })

def conf_opt_prt_network : heap_env → conf_ctx conf_prt → Int × conf_ctx conf_prt :=
  CONF_FN_OPT_YESNO (fun prt v => { prt with network := v, network_set := true })

def conf_opt_prt_dont_txmt : heap_env → conf_ctx conf_prt → Int × conf_ctx conf_prt :=
  CONF_FN_OPT_YESNO (fun prt v => { prt with dont_txmt := v, dont_txmt_set := true })

def conf_opt_prt_bpdu_filter : heap_env → conf_ctx conf_prt → Int × conf_ctx conf_prt :=
  CONF_FN_OPT_YESNO (fun prt v => { prt with bpdu_filter := v, bpdu_filter_set := true })

def conf_opt_prt_mstid : heap_env → conf_ctx conf_prt → Int × conf_ctx conf_prt :=
  fun _ ctx =>
    let cprt := ctx.cif
    match str_getuint (ctx.arg 0) with
    | none => (-1, ctx)
    | some value =>
      let value := if value > MAX_MSTID then MAX_MSTID else value
      if value = 0 then (0, { ctx with mstid := 0 })
      else
        match mstids_update (fun e => decide (value = e.id)) (fun e => { e with set := true })
            cprt.mstids with
        | some ms => (0, { ctx with cif := { cprt with mstids := ms }, mstid := (value : Int) })
        | none => (0, { ctx with mstid := (value : Int) })

def conf_opt_prt_prio : heap_env → conf_ctx conf_prt → Int × conf_ctx conf_prt :=
  fun _ ctx =>
    let cprt := ctx.cif
    match str_getuint (ctx.arg 0) with
    | none => (-1, ctx)
    | some value =>
      let value := if value > MAX_PRT_PRIO then MAX_PRT_PRIO else value
      let value := (value + 15) / 16
      if ctx.mstid = 0 then
        (0, { ctx with cif := { cprt with prio := value % 65536, prio_set := true } })
      else
        match mstids_update (fun e => decide (ctx.mstid = (e.id : Int)))
            (fun e => { e with prio := value % 65536, prio_set := true }) cprt.mstids with
        | some ms => (0, { ctx with cif := { cprt with mstids := ms } })
        | none => (-1, ctx)

def conf_opt_prt_int_cost : heap_env → conf_ctx conf_prt → Int × conf_ctx conf_prt :=
  fun _ ctx =>
    let cprt := ctx.cif
    match str_getuint (ctx.arg 0) with
    | none => (-1, ctx)
    | some value =>
      let value := if value > MAX_COST then MAX_COST else value
      if ctx.mstid = 0 then
        (0, { ctx with cif := { cprt with int_cost := value % 4294967296, int_cost_set := true } })
      else
        match mstids_update (fun e => decide (ctx.mstid = (e.id : Int)))
            (fun e => { e with int_cost := value % 4294967296, int_cost_set := true })
            cprt.mstids with
        | some ms => (0, { ctx with cif := { cprt with mstids := ms } })
        | none => (-1, ctx)

def conf_opt_prt_ext_cost : heap_env → conf_ctx conf_prt → Int × conf_ctx conf_prt :=
  fun _ ctx =>
    match str_getuint (ctx.arg 0) with
    | none => (-1, ctx)
    | some value =>
      let value := if value > MAX_COST then MAX_COST else value
      (0, { ctx with cif := { ctx.cif with
        ext_cost := value % 4294967296, ext_cost_set := true } })

def conf_opts_prt : List (conf_opt conf_prt) :=
  [ { name := "admin-edge".toList, argc_min := 1, argc_max := 1, func := conf_opt_prt_admin_edge },
    { name := "auto-edge".toList, argc_min := 1, argc_max := 1, func := conf_opt_prt_auto_edge },
    { name := "p2p".toList, argc_min := 1, argc_max := 1, func := conf_opt_prt_p2p },
    { name := "rest-role".toList, argc_min := 1, argc_max := 1, func := conf_opt_prt_rest_role },
    { name := "rest-tcn".toList, argc_min := 1, argc_max := 1, func := conf_opt_prt_rest_tcn },
    { name := "bpdu-guard".toList, argc_min := 1, argc_max := 1, func := conf_opt_prt_bpdu_guard },
    { name := "network".toList, argc_min := 1, argc_max := 1, func := conf_opt_prt_network },
    { name := "dont-txmt".toList, argc_min := 1, argc_max := 1, func := conf_opt_prt_dont_txmt },
    { name := "bpdu-filter".toList, argc_min := 1, argc_max := 1,
      func := conf_opt_prt_bpdu_filter },
    { name := "mstid".toList, argc_min := 1, argc_max := 1, func := conf_opt_prt_mstid },
    { name := "prio".toList, argc_min := 1, argc_max := 1, func := conf_opt_prt_prio },
    { name := "int-cost".toList, argc_min := 1, argc_max := 1, func := conf_opt_prt_int_cost },
    { name := "ext-cost".toList, argc_min := 1, argc_max := 1, func := conf_opt_prt_ext_cost } ]

/-! ## Loading -/

/-- The result of `conf_br_init`: every byte zero. -/
def conf_br_init : conf_br :=
  { mode := protocol_version_t.protoSTP, mode_set := false,
    max_age := 0, max_age_set := false,
    forward_delay := 0, forward_delay_set := false,
    max_hops := 0, max_hops_set := false,
    hello := 0, hello_set := false,
    ageing := 0, ageing_set := false,
    tx_hold_count := 0, tx_hold_count_set := false,
    confid_rev := 0, confid_set := false,
    confid_name := List.replicate CONFIGURATION_NAME_LEN (Char.ofNat 0),
    prio := 0, prio_set := false,
    mstids := [], mstids_sz := 0,
    vid2mstid := fun _ => 0, vid2mstid_set := false }

/-- The result of `conf_prt_init`: every byte zero. -/
def conf_prt_init : conf_prt :=
  { admin_edge := false, admin_edge_set := false,
    auto_edge := false, auto_edge_set := false,
    p2p := admin_p2p_t.p2pAuto, p2p_set := false,
    rest_role := false, rest_role_set := false,
    rest_tcn := false, rest_tcn_set := false,
    bpdu_guard := false, bpdu_guard_set := false,
    network := false, network_set := false,
    dont_txmt := false, dont_txmt_set := false,
    bpdu_filter := false, bpdu_filter_set := false,
    prio := 0, prio_set := false,
    int_cost := 0, int_cost_set := false,
    ext_cost := 0, ext_cost_set := false,
    mstids := [], mstids_sz := 0 }

/-- The context as `mstpd_conf_load_br` and `mstpd_conf_load_prt` set it up
before `conf_if_load`. -/
def conf_ctx_init {α : Type} (cif : α) : conf_ctx α :=
  { cif := cif, line := 1, mstid := 0, argv := [], argc := 0 }

def conf_opt_get {α : Type} (name : List Char) (opts : List (conf_opt α)) :
    Option (conf_opt α) :=
  opts.find? (fun o => decide (strcasecmp name o.name = 0))

/-- The part of the body of the line loop of `conf_if_load` that follows
`conf_split_line`: `argv` are the tokens of the line, `argc` their number.  The
result is the value of `ret` (0 when no handler is called) and the context. -/
def conf_if_load_opt {α : Type} (opts : List (conf_opt α)) (env : heap_env)
    (ctx : conf_ctx α) (argv : List (List Char)) (argc : Int) : Int × conf_ctx α :=
  match conf_opt_get (argv.getD 0 []) opts with
  | some opt =>
    let argc := argc - 1
    if opt.argc_min > argc then (0, ctx)
    else if opt.argc_max ≠ 0 ∧ opt.argc_max < argc then (0, ctx)
    else opt.func env { ctx with argv := argv.drop 1, argc := argc }
  | none => (0, ctx)

/-- The line loop of `conf_if_load` over lines already split into tokens (the
at most eight tokens that `conf_split_line` delivers for a line), each
paired with what the heap contributes while it is handled: the loop ends early
with `fnret = ret` when a handler returns less than -1. The result is `fnret`
and the context (whose `line` is left to the line reader). -/
def conf_if_load_opts {α : Type} (opts : List (conf_opt α)) :
    List (heap_env × List (List Char)) → conf_ctx α → Int × conf_ctx α
  | [], ctx => (0, ctx)
  | (env, argv) :: rest, ctx =>
    let r := conf_if_load_opt opts env ctx argv (argv.length : Int)
    if r.1 < -1 then (r.1, r.2)
    else conf_if_load_opts opts rest r.2

/-- The function `mstpd_conf_prepare_prt`: one `conf_prt_add_mstid` per tree of the bridge
with a non-zero MSTID (results ignored). -/
def mstpd_conf_prepare_prt : List (heap_env × Nat) → conf_prt → conf_prt
  | [], cprt => cprt
  | (env, mstid) :: rest, cprt =>
    if mstid ≠ 0 then mstpd_conf_prepare_prt rest (conf_prt_add_mstid env cprt mstid).2
    else mstpd_conf_prepare_prt rest cprt

/-! ## Applying a parsed configuration -/

/-- Modelled from the spec: `CIST_BridgeConfig` is declared in `mstp.h`; these
are the fields `mstpd_conf_apply_br` assigns, each with its "set" flag. -/
structure CIST_BridgeConfig where
  protocol_version : protocol_version_t
  set_protocol_version : Bool
  bridge_max_age : Nat
  set_bridge_max_age : Bool
  bridge_forward_delay : Nat
  set_bridge_forward_delay : Bool
  max_hops : Nat
  set_max_hops : Bool
  bridge_hello_time : Nat
  set_bridge_hello_time : Bool
  bridge_ageing_time : Nat
  set_bridge_ageing_time : Bool
  tx_hold_count : Nat
  set_tx_hold_count : Bool

/-- Modelled from the spec: `CIST_PortConfig` is declared in `mstp.h`; these are
the fields `mstpd_conf_apply_prt` assigns, each with its "set" flag. -/
structure CIST_PortConfig where
  admin_edge_port : Bool
  set_admin_edge_port : Bool
  auto_edge_port : Bool
  set_auto_edge_port : Bool
  admin_p2p : admin_p2p_t
  set_admin_p2p : Bool
  restricted_role : Bool
  set_restricted_role : Bool
  restricted_tcn : Bool
  set_restricted_tcn : Bool
  bpdu_guard_port : Bool
  set_bpdu_guard_port : Bool
  network_port : Bool
  set_network_port : Bool
  dont_txmt : Bool
  set_dont_txmt : Bool
  bpdu_filter_port : Bool
  set_bpdu_filter_port : Bool
  admin_external_port_path_cost : Nat
  set_admin_external_port_path_cost : Bool

/-- Modelled from the spec: `MSTI_PortConfig` is declared in `mstp.h`; these are
the fields `mstpd_conf_apply_prt` assigns, each with its "set" flag. -/
structure MSTI_PortConfig where
  port_priority : Nat
  set_port_priority : Bool
  admin_internal_port_path_cost : Nat
  set_admin_internal_port_path_cost : Bool
deriving DecidableEq

/-- The calls into the protocol engine made while a configuration is applied;
a tree or per-tree port is named by its MSTID (0 for the CIST). -/
inductive MSTP_IN_call where
  | set_cist_bridge_config (cfg : CIST_BridgeConfig)
  | set_mst_config_id (rev : Nat) (name : List Char)
  | set_msti_bridge_config (mstid : Nat) (bridge_priority : Nat)
  | create_msti (mstid : Nat)
  | set_all_vids2mstids (tbl : vid_table)
  | set_cist_port_config (cfg : CIST_PortConfig)
  | set_msti_port_config (mstid : Nat) (cfg : MSTI_PortConfig)

/-- The structure `ccfg` that `mstpd_conf_apply_br` builds. -/
def apply_br_ccfg (cbr : conf_br) : CIST_BridgeConfig :=
  { protocol_version := if cbr.mode_set then cbr.mode else protocol_version_t.protoSTP,
    set_protocol_version := cbr.mode_set,
    bridge_max_age := if cbr.max_age_set then cbr.max_age else 0,
    set_bridge_max_age := cbr.max_age_set,
    bridge_forward_delay := if cbr.forward_delay_set then cbr.forward_delay else 0,
    set_bridge_forward_delay := cbr.forward_delay_set,
    max_hops := if cbr.max_hops_set then cbr.max_hops else 0,
    set_max_hops := cbr.max_hops_set,
    bridge_hello_time := if cbr.hello_set then cbr.hello else 0,
    set_bridge_hello_time := cbr.hello_set,
    bridge_ageing_time := if cbr.ageing_set then cbr.ageing else 0,
    set_bridge_ageing_time := cbr.ageing_set,
    tx_hold_count := if cbr.tx_hold_count_set then cbr.tx_hold_count else 0,
    set_tx_hold_count := cbr.tx_hold_count_set }

/-- The loop over `cbr->mstids` of `mstpd_conf_apply_br`; `created id` tells
whether `MSTP_IN_create_msti` returns a tree for `id`. -/
def apply_br_mstids (created : Nat → Bool) : List conf_br_mstid → List MSTP_IN_call
  | [] => []
  | e :: es =>
    (MSTP_IN_call.create_msti e.id ::
      (if created e.id ∧ e.prio_set then [MSTP_IN_call.set_msti_bridge_config e.id (e.prio * 4096)]
       else [])) ++ apply_br_mstids created es

/-- The function `mstpd_conf_apply_br`, as the sequence of calls it makes. -/
def mstpd_conf_apply_br (created : Nat → Bool) (cbr : conf_br) : List MSTP_IN_call :=
  let ccfg := apply_br_ccfg cbr
  let ccfg_apply : Bool := cbr.mode_set || cbr.max_age_set || cbr.forward_delay_set ||
    cbr.max_hops_set || cbr.hello_set || cbr.ageing_set || cbr.tx_hold_count_set
  (if ccfg_apply then [MSTP_IN_call.set_cist_bridge_config ccfg] else []) ++
  (if cbr.confid_set then [MSTP_IN_call.set_mst_config_id cbr.confid_rev cbr.confid_name]
   else []) ++
  (if cbr.prio_set then [MSTP_IN_call.set_msti_bridge_config 0 (cbr.prio * 4096)] else []) ++
  apply_br_mstids created cbr.mstids ++
  (if cbr.vid2mstid_set then [MSTP_IN_call.set_all_vids2mstids cbr.vid2mstid] else [])

/-- What `mstpd_conf_load_br` hands to `mstpd_conf_apply_br`: the bridge
configuration after `conf_br_init` and `conf_if_load` over the given lines. -/
def conf_br_load (lines : List (heap_env × List (List Char))) : Int × conf_ctx conf_br :=
  conf_if_load_opts conf_opts_br lines (conf_ctx_init conf_br_init)

/-- Equality of two strings up to the case of ASCII letters. -/
def eq_nocase (s k : List Char) : Prop := s.map tolower = k.map tolower

/-- A C string holds no NUL character. -/
def is_cstr (s : List Char) : Prop := ∀ c ∈ s, c.toNat ≠ 0

/-- A heap on which every `realloc` succeeds and fresh memory reads as zero. -/
def heap_env_ok : heap_env := { realloc_ok := true, junk_prio := 0, junk_prio_set := false }

/-- The product `v * q` is the least multiple of `q` that is at least `n`. -/
def rounds_up (q n v : Nat) : Prop := n ≤ v * q ∧ v * q < n + q

/-- A bridge context whose current line carries the single argument `a`. -/
def br_ctx_arg (a : List Char) : conf_ctx conf_br :=
  { conf_ctx_init conf_br_init with argv := [a], argc := 1 }

/-- A decimal digit. -/
def is_digit (c : Char) : Bool := 48 ≤ c.toNat && c.toNat ≤ 57

/-- A decimal numeral: a non-empty string of decimal digits. -/
def is_numeral (ds : List Char) : Bool := !ds.isEmpty && ds.all is_digit

/-- The number a decimal numeral denotes. -/
def numeral_val (ds : List Char) : Nat := ds.foldl (fun a c => a * 10 + (c.toNat - 48)) 0

/-- An item of a VID list: the numeral `N`, or the numerals `N` and `M` of a
range `N-M`. -/
structure vid_item where
  lo : List Char
  hi : Option (List Char)

/-- The text of an item: `N` or `N-M`. -/
def vid_item.str (i : vid_item) : List Char :=
  match i.hi with
  | none => i.lo
  | some h => i.lo ++ '-' :: h

/-- The upper end of an item as `conf_vids_dec` holds it in `bval`: -1 for a
single VID. -/
def vid_item.bval (i : vid_item) : Int :=
  match i.hi with
  | none => -1
  | some h => (numeral_val h : Int)

/-- A well-formed item: decimal numerals with `N ≤ 4094`, and `N ≤ M ≤ 4094`
for a range. -/
def vid_item.wf (i : vid_item) : Bool :=
  is_numeral i.lo && decide (numeral_val i.lo ≤ 4094) &&
  match i.hi with
  | none => true
  | some h => is_numeral h && decide (numeral_val i.lo ≤ numeral_val h) &&
      decide (numeral_val h ≤ 4094)

/-- The VIDs an item names. -/
def vid_item.covers (i : vid_item) (v : Nat) : Prop :=
  match i.hi with
  | none => v = numeral_val i.lo
  | some h => numeral_val i.lo ≤ v ∧ v ≤ numeral_val h

/-- The items joined by commas. -/
def vid_list_str : List vid_item → List Char
  | [] => []
  | [i] => i.str
  | i :: j :: rest => i.str ++ ',' :: vid_list_str (j :: rest)

/-- The bytes of `s` stand in `b` from index `i` on. -/
def buf_has (b : char_buf) : Nat → List Char → Prop
  | _, [] => True
  | i, c :: cs => b i = c ∧ buf_has b (i + 1) cs

/-- The table that maps the even VIDs 1000, 1002, ..., 1408 to MSTI 1 and every
other VID to the CIST. -/
def even_vid_table : vid_table :=
  fun v => if 1000 ≤ v ∧ v ≤ 1408 ∧ v % 2 = 0 then 1 else 0

def IO_PAGE_SIZE : Nat := 4096

/-- The `errno` value `ENOMEM` of Linux. -/
def ENOMEM : Int := 12

/-- The line feed, 0x0A. -/
def LF : Char := Char.ofNat 10

/-- The carriage return, 0x0D. -/
def CR : Char := Char.ofNat 13

/-- The horizontal tab, 0x09. -/
def TAB : Char := Char.ofNat 9

/-- The space, 0x20. -/
def SPACE : Char := Char.ofNat 32

/-- Conversion of an integer to `size_t` (64 bits): reduction modulo 2^64. -/
def to_size_t (x : Int) : Nat := (x % ((SIZE_MAX : Int) + 1)).toNat

/-- Conversion of a `size_t` value to `int` (32 bits, two's complement): the
value itself up to `INT_MAX`, reduced modulo 2^32 into the range of `int`
beyond. -/
def to_int (n : Nat) : Int :=
  if n % 4294967296 ≤ INT_MAX then ((n % 4294967296 : Nat) : Int)
  else ((n % 4294967296 : Nat) : Int) - 4294967296

/-- The C type `struct iobuf`; `data` is the memory seen from the pointer of that
name, of which the first `cap` bytes are allocated. -/
structure iobuf where
  size : Nat
  pos : Nat
  cap : Nat
  data : char_buf

/-- What `realloc(ptr, n)` does, by the number of bytes `n` asked for: `none`
when it fails, `some fresh` when it succeeds and the bytes beyond the old
allocation read as `fresh`. -/
abbrev heap_fn := Nat → Option char_buf

/-- The result of `iobuf_init`; `mem` is what reading through the NULL pointer
would give and is never looked at. -/
def iobuf_init (mem : char_buf) : iobuf := { size := 0, pos := 0, cap := 0, data := mem }

/-- The function `iobuf_resize`: the return value and the buffer. -/
def iobuf_resize (heap : heap_fn) (buffer : iobuf) (new_size : Nat) : Int × iobuf :=
  if buffer.size ≥ new_size then (0, buffer)
  else
    let new_cap := ((new_size + (IO_PAGE_SIZE - 1)) % (SIZE_MAX + 1) / IO_PAGE_SIZE)
      * IO_PAGE_SIZE
    match heap new_cap with
    | none => (ENOMEM, buffer)
    | some fresh =>
      (0, { buffer with
        data := fun i => if i < buffer.cap then buffer.data i else fresh i,
        cap := new_cap })

/-- A descriptor open for reading: the bytes of the file not yet delivered, and
for the calls of `read` to come whether the call fails (`none`, the call
returns -1) or delivers at most `k + 1` bytes (`some k`); once the plan is used
up every call delivers as much as is asked for. -/
structure fdesc where
  rest : List Char
  plan : List (Option Nat)

/-- The system call `read(fd, buf, n)`: the return value, the bytes stored at
`buf`, and the descriptor afterwards.  At the end of the file the call
returns 0. -/
def sys_read (fd : fdesc) (n : Nat) : Int × List Char × fdesc :=
  match fd.plan with
  | none :: p => (-1, [], { fd with plan := p })
  | some k :: p =>
    ((fd.rest.take (min n (k + 1))).length, fd.rest.take (min n (k + 1)),
      { rest := fd.rest.drop (min n (k + 1)), plan := p })
  | [] => ((fd.rest.take n).length, fd.rest.take n, { rest := fd.rest.drop n, plan := [] })

/-- The `for (;;)` loop of `iobuf_read_from_fd`: the return value, the buffer
and the descriptor; `none` only when the fuel runs out.  The variable `rd` is a
`size_t`, so the value -1 of a failed `read` is held as `SIZE_MAX`. -/
def iobuf_read_from_fd_loop (heap : heap_fn) : Nat → iobuf → fdesc → Option (Int × iobuf × fdesc)
  | 0, _, _ => none
  | fuel + 1, buffer, fd =>
    let bfree := to_size_t ((buffer.cap : Int) - (buffer.size : Int))
    let rs := if bfree < 1024 then
        iobuf_resize heap buffer ((buffer.cap + 4096) % (SIZE_MAX + 1))
      else (0, buffer)
    if rs.1 ≠ 0 then some (ENOMEM, rs.2, fd)
    else
      let buffer := rs.2
      let bfree := to_size_t ((buffer.cap : Int) - (buffer.size : Int))
      let r := sys_read fd bfree
      let rd : Nat := to_size_t r.1
      let buffer := { buffer with data := buf_apply buffer.data (text_writes 0 r.2.1) }
      if rd > 0 then
        iobuf_read_from_fd_loop heap fuel
          { buffer with size := (buffer.size + rd) % (SIZE_MAX + 1) } r.2.2
      else if rd = 0 then some (0, buffer, r.2.2)
      else some (-1, buffer, r.2.2)

/-- The function `iobuf_read_from_fd`: every turn of the loop that does not return uses up an
entry of the plan or at least one byte of the file, and a call of `read` for
zero bytes returns 0. -/
def iobuf_read_from_fd (heap : heap_fn) (buffer : iobuf) (fd : fdesc) :
    Option (Int × iobuf × fdesc) :=
  iobuf_read_from_fd_loop heap (fd.rest.length + fd.plan.length + 1) buffer fd

/-- A descriptor open for writing: the return values of the calls of `write`
to come (a count of bytes accepted, or -1); once the plan is used up every
call accepts all the bytes offered. -/
abbrev wdesc := List Int

/-- The system call `write(fd, buf, n)`: the return value and the descriptor
afterwards. -/
def sys_write (fd : wdesc) (n : Nat) : Int × wdesc :=
  match fd with
  | r :: p => (r, p)
  | [] => ((n : Int), [])

/-- The `for (;;)` loop of `iobuf_write_to_fd`: the return value and the calls
of `write` made, each as the pair of the index `pos` of the first byte offered
and the number `wsize` of bytes offered; `none` when the fuel runs out.  The
variable `wr` is a `size_t`. -/
def iobuf_write_to_fd_loop : Nat → wdesc → iobuf → Option (Int × List (Nat × Nat))
  | 0, _, _ => none
  | fuel + 1, fd, buffer =>
    let wsize := to_size_t ((buffer.size : Int) - (buffer.pos : Int))
    if wsize = 0 then some (0, [])
    else
      let wsize := if wsize > 65536 then 65536 else wsize
      let w := sys_write fd wsize
      let wr : Nat := to_size_t w.1
      if wr < 0 then some (-1, [(buffer.pos, wsize)])
      else
        match iobuf_write_to_fd_loop fuel w.2 buffer with
        | some (ret, calls) => some (ret, (buffer.pos, wsize) :: calls)
        | none => none

/-- The `n` bytes `data[a]`, ..., `data[a + n - 1]`. -/
def buf_bytes (data : char_buf) (a n : Nat) : List Char :=
  (List.range n).map (fun i => data (a + i))

/-- The first loop of `iobuf_readcleanline`,
`for (; bpos < bsize; bpos++) if (data[bpos] == 0x0A) break;`, with `fuel`
turns left: the final `bpos`. -/
def line_end_loop (data : char_buf) (bsize : Nat) : Nat → Nat → Nat
  | 0, bpos => bpos
  | fuel + 1, bpos =>
    if bpos < bsize then
      (if data bpos = LF then bpos else line_end_loop data bsize fuel (bpos + 1))
    else bpos

/-- The second loop of `iobuf_readcleanline`,
`for (; bpos > bbegin; bpos--) if (data[bpos - 1] is none of CR, TAB, SPACE) break;`:
the final `bpos`. -/
def clean_end (data : char_buf) (bbegin : Nat) : Nat → Nat
  | 0 => 0
  | bpos + 1 =>
    if bpos + 1 > bbegin then
      (if data bpos ≠ CR ∧ data bpos ≠ TAB ∧ data bpos ≠ SPACE then bpos + 1
       else clean_end data bbegin bpos)
    else bpos + 1

/-- The function `iobuf_readcleanline`: the return value (an `int`), the index in `data` that
`*begin` is made to point at (kept as it was, here `none`, when the function
returns -1), and the buffer. -/
def iobuf_readcleanline (buffer : iobuf) : Int × Option Nat × iobuf :=
  if buffer.pos ≥ buffer.size then (-1, none, buffer)
  else
    let bbegin := buffer.pos
    let bpos := line_end_loop buffer.data buffer.size (buffer.size - buffer.pos) buffer.pos
    let buffer1 := { buffer with pos := if bpos < buffer.size then bpos + 1 else bpos }
    let bpos := clean_end buffer.data bbegin bpos
    let blen := bpos - bbegin
    (to_int (blen + 1), some bbegin, buffer1)


/-! ## Keywords of the enumerations, printed -/

/-- The function `conf_mode_to_str`; the three enumerators of `protocol_version_t` are all
there is in this model, so the `return fail` after the `switch` is not met. -/
def conf_mode_to_str (mode : protocol_version_t) (_fail : List Char) : List Char :=
  match mode with
  | protocol_version_t.protoSTP => "stp".toList
  | protocol_version_t.protoRSTP => "rstp".toList
  | protocol_version_t.protoMSTP => "mstp".toList

/-- The function `conf_p2p_to_str`; as for `conf_mode_to_str`, `fail` is not met. -/
def conf_p2p_to_str (p2p : admin_p2p_t) (_fail : List Char) : List Char :=
  match p2p with
  | admin_p2p_t.p2pAuto => "auto".toList
  | admin_p2p_t.p2pForceTrue => "yes".toList
  | admin_p2p_t.p2pForceFalse => "no".toList

/-! ## Splitting a line into tokens -/

/-- The loop `for (; line[pos] != 0; pos++) if (line[pos] is TAB or SPACE) break;`
of `conf_split_line` on the bytes from `line[pos]` on: how far `pos` is advanced. -/
def word_len : List Char → Nat
  | [] => 0
  | c :: cs => if c ≠ NUL then (if c = TAB ∨ c = SPACE then 0 else word_len cs + 1) else 0

/-- The loop `while (line[pos] is TAB or SPACE) pos++;` of `conf_split_line` on
the bytes from `line[pos]` on: how far `pos` is advanced. -/
def blank_len : List Char → Nat
  | [] => 0
  | c :: cs => if c = TAB ∨ c = SPACE then blank_len cs + 1 else 0

/-- The C string that starts at `line[off]`. -/
def cstr_at (line : List Char) (off : Nat) : List Char :=
  (line.drop off).takeWhile (fun c => decide (c ≠ NUL))

/-- The `while (argc < argc_max)` loop of `conf_split_line`.  The line is the list
of its bytes, the terminating NUL bytes included (a byte beyond the list reads
as NUL); `argv` holds the offsets stored in `argv[0]`, `argv[1]`, ... so far.
The result is the line, `argv`, `argc` and `pos` when the loop ends; `none`
only when the fuel runs out. -/
def conf_split_line_loop (argc_max : Int) :
    Nat → List Char → List Nat → Nat → Nat → Option (List Char × List Nat × Nat × Nat)
  | 0, _, _, _, _ => none
  | fuel + 1, line, argv, argc, pos =>
    if (argc : Int) < argc_max then
      let argv := argv.take argc ++ [pos]
      let lb := pos
      let pos := pos + word_len (line.drop pos)
      let le := pos
      let pos := pos + blank_len (line.drop pos)
      let line := line.set le NUL
      let argc := if le - lb > 0 then argc + 1 else argc
      if line.getD pos NUL = NUL then some (line, argv, argc, pos)
      else conf_split_line_loop argc_max fuel line argv argc pos
    else some (line, argv, argc, pos)

/-- The function `conf_split_line`: the return value `argc`, the strings that the entries of
`argv` written by the function point at when it returns, and the line as it is
left.  Every turn of the loop but the last advances `pos`. -/
def conf_split_line (argc_max : Int) (line : List Char) :
    Option (Nat × List (List Char) × List Char) :=
  match conf_split_line_loop argc_max (line.length + 1) line [] 0 0 with
  | some (line, argv, argc, pos) =>
    some (argc, argv.map (cstr_at (line.set (pos + 1) NUL)), line.set (pos + 1) NUL)
  | none => none

/-! ## The line loop of `conf_if_load` on a buffer -/

def LINE_PAGE_SIZE : Nat := 128

/-- What the heap contributes while one line is handled: whether the `realloc`
of the line buffer succeeds (should it be called), and what the option handler
meets. -/
structure line_env where
  line_ok : Bool
  heap : heap_env

/-- A call `opt->func(ctx)` made by `conf_if_load`: the option, `ctx->argv` and
`ctx->argc`. -/
structure opt_call where
  optname : List Char
  argv : List (List Char)
  argc : Int
deriving DecidableEq

/-- The loop `for (; len > 0; begin++, len--) if (*begin is neither TAB nor SPACE) break;`
of `conf_if_load`: the final `begin` (an index into `data`) and `len`. -/
def skip_blank (data : char_buf) : Nat → Nat → Nat × Nat
  | 0, b => (b, 0)
  | len + 1, b =>
    if data b ≠ TAB ∧ data b ≠ SPACE then (b, len + 1) else skip_blank data len (b + 1)

/-- The handler that `conf_if_load` calls for a line split into `argv`, with
its arguments: `none` when the option is unknown or the number of arguments is
out of the bounds of the option (`conf_if_load_opt` tells what the call
returns). -/
def conf_if_load_call {α : Type} (opts : List (conf_opt α)) (argv : List (List Char))
    (argc : Int) : Option opt_call :=
  match conf_opt_get (argv.getD 0 []) opts with
  | some opt =>
    let argc := argc - 1
    if opt.argc_min > argc then none
    else if opt.argc_max ≠ 0 ∧ opt.argc_max < argc then none
    else some { optname := opt.name, argv := argv.drop 1, argc := argc }
  | none => none

/-- How one turn of the line loop of `conf_if_load` ends: the loop is left
(`break`) with a value of `fnret`, or goes on (`continue`, or the end of the
body) to the next line.  Either way with the context, the buffer and the
handler called in this turn, if any; `line_size` is the variable of that
name. -/
inductive line_step (α : Type) where
  | stop (fnret : Int) (ctx : conf_ctx α) (iob : iobuf) (calls : List opt_call)
  | next (ctx : conf_ctx α) (iob : iobuf) (line_size : Nat) (calls : List opt_call)

/-- The body of the `for (ctx->line = 1;; ctx->line++)` loop of `conf_if_load`:
`envs n` is what the heap contributes while line `n` is handled; `none` only
when `conf_split_line` runs out of fuel.  The sum `len + 2` is taken without
wrap-around (in C it overflows `int` for the one length `INT_MAX - 1`). -/
def conf_if_load_line {α : Type} (opts : List (conf_opt α)) (envs : Nat → line_env)
    (ctx : conf_ctx α) (iob : iobuf) (line_size : Nat) : Option (line_step α) :=
  let r := iobuf_readcleanline iob
  if r.1 < 1 then some (line_step.stop 0 ctx r.2.2 [])
  else
    let sk := skip_blank r.2.2.data (r.1 - 1).toNat (r.2.1.getD 0)
    if sk.2 = 0 then some (line_step.next ctx r.2.2 line_size [])
    else if r.2.2.data sk.1 = '#' then some (line_step.next ctx r.2.2 line_size [])
    else
      let grow : Bool := sk.2 + 2 > line_size
      if grow ∧ (envs ctx.line).line_ok = false then some (line_step.stop (-2) ctx r.2.2 [])
      else
        let line_size := if grow then
            ((sk.2 + 2 + (LINE_PAGE_SIZE - 1)) / LINE_PAGE_SIZE) * LINE_PAGE_SIZE
          else line_size
        let line := buf_bytes r.2.2.data sk.1 sk.2 ++ [NUL, NUL]
        match conf_split_line 8 line with
        | none => none
        | some (argc, argv, _) =>
          let call := conf_if_load_call opts argv (argc : Int)
          let h := conf_if_load_opt opts (envs ctx.line).heap ctx argv (argc : Int)
          if h.1 < -1 then some (line_step.stop h.1 h.2 r.2.2 call.toList)
          else some (line_step.next h.2 r.2.2 line_size call.toList)

/-- The `for (ctx->line = 1;; ctx->line++)` loop of `conf_if_load`, turn after
turn.  The result is `fnret`, the context, the buffer and the handlers called,
in order; `none` only when the fuel runs out. -/
def conf_if_load_loop {α : Type} (opts : List (conf_opt α)) (envs : Nat → line_env) :
    Nat → conf_ctx α → iobuf → Nat → Option (Int × conf_ctx α × iobuf × List opt_call)
  | 0, _, _, _ => none
  | fuel + 1, ctx, iob, line_size =>
    match conf_if_load_line opts envs ctx iob line_size with
    | none => none
    | some (line_step.stop fnret ctx1 iob1 calls) => some (fnret, ctx1, iob1, calls)
    | some (line_step.next ctx1 iob1 line_size1 calls) =>
      match conf_if_load_loop opts envs fuel { ctx1 with line := ctx1.line + 1 } iob1
          line_size1 with
      | some (ret, ctx2, iob2, calls2) => some (ret, ctx2, iob2, calls ++ calls2)
      | none => none

/-- The loop of `conf_if_load` entered in a given state: every turn that does
not end the loop moves `pos` forward, so `size - pos + 1` turns suffice. -/
def conf_if_load_from {α : Type} (opts : List (conf_opt α)) (envs : Nat → line_env)
    (ctx : conf_ctx α) (iob : iobuf) (line_size : Nat) :
    Option (Int × conf_ctx α × iobuf × List opt_call) :=
  conf_if_load_loop opts envs (iob.size - iob.pos + 1) ctx iob line_size

/-- The function `conf_if_load`: the loop entered with `ctx->line = 1` and no line buffer. -/
def conf_if_load {α : Type} (opts : List (conf_opt α)) (envs : Nat → line_env)
    (ctx : conf_ctx α) (iob : iobuf) : Option (Int × conf_ctx α × iobuf × List opt_call) :=
  conf_if_load_from opts envs { ctx with line := 1 } iob 0

/-! ## Loading a bridge file -/

/-- The function `conf_loadfile`; `fd` is what `open` gives, `none` when it fails. -/
def conf_loadfile (heap : heap_fn) (iob : iobuf) (fd : Option fdesc) : Option (Int × iobuf) :=
  match fd with
  | none => some (-1, iob)
  | some d =>
    match iobuf_read_from_fd heap iob d with
    | some (ret, iob1, _) => if ret < 0 then some (-1, iob1) else some (0, iob1)
    | none => none

/-- What the system contributes to `mstpd_conf_load_br`: whether `access` finds
the file readable, what `open` gives, the heap of the I/O buffer and the memory
behind its NULL pointer, the heap line by line, and for which MSTIDs
`MSTP_IN_create_msti` returns a tree. -/
structure load_env where
  access_ok : Bool
  fd : Option fdesc
  heap : heap_fn
  mem : char_buf
  lines : Nat → line_env
  created : Nat → Bool

/-- The function `mstpd_conf_load_br`: the return value and the calls into the protocol
engine, in order. -/
def mstpd_conf_load_br (env : load_env) : Option (Bool × List MSTP_IN_call) :=
  if env.access_ok = false then some (true, [])
  else
    match conf_loadfile env.heap (iobuf_init env.mem) env.fd with
    | none => none
    | some (ret, iob) =>
      if ret < 0 then some (false, [])
      else
        match conf_if_load conf_opts_br env.lines (conf_ctx_init conf_br_init) iob with
        | none => none
        | some (ret, ctx, _, _) =>
          if ret ≥ 0 then some (decide (ret = 0), mstpd_conf_apply_br env.created ctx.cif)
          else some (false, [])

/-! ## The key of the configuration digest (`lib/hmac_md5.h`) -/

/-- The initialiser `HMAC_KEY`, byte by byte. -/
def HMAC_KEY : List Nat :=
  [0x13, 0xAC, 0x06, 0xA6, 0x2E, 0x47, 0xFD, 0x51,
   0xF9, 0x5D, 0x2B, 0xA2, 0x43, 0xCD, 0x03, 0x46]


/-! ## Notions used to state the properties of the line reader -/

/-- The bytes of a buffer not yet read, `data[pos]`, ..., `data[size - 1]`. -/
def iobuf.unread (b : iobuf) : List Char := buf_bytes b.data b.pos (b.size - b.pos)

/-- One of the bytes CR, TAB, SPACE. -/
def is_blank_cr (c : Char) : Bool := decide (c = CR) || decide (c = TAB) || decide (c = SPACE)

/-- One of the bytes TAB, SPACE. -/
def is_blank (c : Char) : Bool := decide (c = TAB) || decide (c = SPACE)

/-- The bytes of `s` up to (not including) the first LF, all of `s` when it
holds none. -/
def raw_line (s : List Char) : List Char := s.takeWhile (fun c => decide (c ≠ LF))

/-- The first line of `s` after its trailing CR, TAB and SPACE bytes are
removed. -/
def clean_line (s : List Char) : List Char := (raw_line s).rdropWhile is_blank_cr

/-- Where the line after the first line of the unread bytes starts: just past
the first LF, or at `size` when there is none. -/
def iobuf.next_pos (b : iobuf) : Nat :=
  if (raw_line b.unread).length < b.unread.length then b.pos + (raw_line b.unread).length + 1
  else b.size

/-- The words of a line, left to right, with `cur` the bytes (last first) of
the word being read: the maximal runs of bytes other than TAB and SPACE, up to
the first NUL or the end of the line. -/
def words_go : List Char → List Char → List (List Char)
  | [], cur => if cur = [] then [] else [cur.reverse]
  | c :: cs, cur =>
    if c = NUL then (if cur = [] then [] else [cur.reverse])
    else if c = TAB ∨ c = SPACE then
      (if cur = [] then words_go cs [] else cur.reverse :: words_go cs [])
    else words_go cs (c :: cur)

/-- The words of a line: whitespace separates tokens. -/
def line_words (s : List Char) : List (List Char) := words_go s []

/-- The line starts with a byte of a word: none of NUL, TAB, SPACE. -/
def starts_word (s : List Char) : Prop :=
  ∃ c cs, s = c :: cs ∧ c ≠ NUL ∧ c ≠ TAB ∧ c ≠ SPACE

/-- The text of the first unread line as `conf_if_load` takes it up: without
the TAB and SPACE bytes at its start and without the CR, TAB and SPACE bytes at
its end. -/
def iobuf.line_text (b : iobuf) : List Char := (clean_line b.unread).dropWhile is_blank

/-- The buffer with the first unread line read. -/
def iobuf.advance (b : iobuf) : iobuf := { b with pos := b.next_pos }

/-- A buffer that holds the bytes of `s`, none of them read yet. -/
def str_iobuf (s : List Char) : iobuf :=
  { size := s.length, pos := 0, cap := s.length, data := fun i => s.getD i NUL }

/-- A heap on which every `realloc` succeeds, line after line. -/
def line_envs_ok : Nat → line_env := fun _ => { line_ok := true, heap := heap_env_ok }

/-- A buffer that holds a single line of 2147483647 bytes `a`, without a line
feed. -/
def long_line_buf : iobuf :=
  { size := 2147483647, pos := 0, cap := 2147483648, data := fun _ => 'a' }

/-- A heap on which the `realloc` of the MSTID array fails while line `n` is
handled and every other `realloc` succeeds. -/
def mstid_fail_envs (n : Nat) : Nat → line_env :=
  fun k => { line_ok := true, heap := { heap_env_ok with realloc_ok := decide (k ≠ n) } }

/-- A heap on which the `realloc` of the line buffer fails while line `n` is
handled and every other `realloc` succeeds. -/
def line_fail_envs (n : Nat) : Nat → line_env :=
  fun k => { line_ok := decide (k ≠ n), heap := heap_env_ok }

/-- A heap of the I/O buffer on which every `realloc` succeeds and hands out
memory that reads as `j`. -/
def heap_fn_ok : heap_fn := fun _ => some (fun _ => 'j')

/-- A heap of the I/O buffer on which every `realloc` fails. -/
def heap_fn_fail : heap_fn := fun _ => none

/-- A system in which the file of the bridge is readable and delivers `content`
according to `plan`, and every MSTI can be created. -/
def file_load_env (content : List Char) (plan : List (Option Nat)) (heap : heap_fn)
    (lines : Nat → line_env) : load_env :=
  { access_ok := true, fd := some { rest := content, plan := plan }, heap := heap,
    mem := fun _ => NUL, lines := lines, created := fun _ => true }

/-- The name of the function of the protocol engine that a call goes to. -/
def MSTP_IN_call.fn_name : MSTP_IN_call → List Char
  | MSTP_IN_call.set_cist_bridge_config _ => "MSTP_IN_set_cist_bridge_config".toList
  | MSTP_IN_call.set_mst_config_id _ _ => "MSTP_IN_set_mst_config_id".toList
  | MSTP_IN_call.set_msti_bridge_config _ _ => "MSTP_IN_set_msti_bridge_config".toList
  | MSTP_IN_call.create_msti _ => "MSTP_IN_create_msti".toList
  | MSTP_IN_call.set_all_vids2mstids _ => "MSTP_IN_set_all_vids2mstids".toList
  | MSTP_IN_call.set_cist_port_config _ => "MSTP_IN_set_cist_port_config".toList
  | MSTP_IN_call.set_msti_port_config _ _ => "MSTP_IN_set_msti_port_config".toList

/-- What is seen of a run of `mstpd_conf_load_br`: the value returned and the
names of the functions of the protocol engine called, in order. -/
def load_outcome (r : Option (Bool × List MSTP_IN_call)) : Option (Bool × List (List Char)) :=
  r.map (fun x => (x.1, x.2.map MSTP_IN_call.fn_name))


/-! ## The per-VLAN state cache (`brmon.c`, `bridge_ctl.h`) -/

/-- The value `VLAN_STATE_UNASSIGNED`. -/
def VLAN_STATE_UNASSIGNED : Nat := 0xff

/-- The number of elements of the array `vlan_state` of `sysdep_uni_data_t`. -/
def VLAN_STATE_LEN : Nat := 4095

/-- The mask `NLA_TYPE_MASK` of `linux/netlink.h` applied to a 16-bit attribute type:
the flags `NLA_F_NESTED` (bit 15) and `NLA_F_NET_BYTEORDER` (bit 14) are
cleared. -/
def NLA_TYPE_MASK (rta_type : Nat) : Nat := rta_type % 16384

/-- The attribute type `BRIDGE_VLANDB_ENTRY` of `linux/if_bridge.h`. -/
def BRIDGE_VLANDB_ENTRY : Nat := 1

/-- An attribute of a VLAN dump message as the loop over `RTA_OK`/`RTA_NEXT`
meets it, with what `parse_rtattr_nested` finds inside: `info_vid` is `vid` of
the `struct bridge_vlan_info` under `BRIDGE_VLANDB_ENTRY_INFO`, `state` the byte
under `BRIDGE_VLANDB_ENTRY_STATE`, `range` the 16-bit value under
`BRIDGE_VLANDB_ENTRY_RANGE`; `none` where the nested attribute is absent.  The
type, `info_vid` and `range` are 16-bit values, `state` is a byte. -/
structure vlan_attr where
  rta_type : Nat
  info_vid : Option Nat
  state : Option Nat
  range : Option Nat

/-- The loop `for (uint16_t vid = info->vid; vid <= range; vid++) vlan_state[vid] = state;`
of `fill_vlan_table_msg`: the stores `(index, value)` into `vlan_state`, in
order; `none` only when the fuel runs out.  The increment is that of a
`uint16_t`. -/
def vlan_state_loop (state range : Nat) : Nat → Nat → Option (List (Nat × Nat))
  | 0, _ => none
  | fuel + 1, vid =>
    if vid ≤ range then
      match vlan_state_loop state range fuel ((vid + 1) % 65536) with
      | some ws => some ((vid, state) :: ws)
      | none => none
    else some []

/-- The body of the loop over the attributes of `fill_vlan_table_msg` for one
attribute: the stores into `vlan_state`.  A loop over `uint16_t` values that
comes to an end does so within 65537 turns. -/
def fill_vlan_table_attr (a : vlan_attr) : Option (List (Nat × Nat)) :=
  if NLA_TYPE_MASK a.rta_type ≠ BRIDGE_VLANDB_ENTRY then some []
  else
    let state := a.state.getD VLAN_STATE_UNASSIGNED
    let range := a.range.getD 0
    match a.info_vid with
    | none => some []
    | some vid =>
      let range := if range = 0 then vid else range
      vlan_state_loop state range 65537 vid

/-- The loop over the attributes of `fill_vlan_table_msg`. -/
def fill_vlan_table_attrs : List vlan_attr → Option (List (Nat × Nat))
  | [] => some []
  | a :: rest =>
    match fill_vlan_table_attr a with
    | none => none
    | some ws =>
      match fill_vlan_table_attrs rest with
      | some ws1 => some (ws ++ ws1)
      | none => none

/-- The function `fill_vlan_table_msg`: `ifindex` is `bvm->ifindex`, `if_index` is
`uni_data->if_index`, `attrs` are the attributes that follow the
`struct br_vlan_msg`.  The result is the return value and the stores into
`uni_data->vlan_state`, in order; `none` when a loop does not come to an
end. -/
def fill_vlan_table_msg (ifindex if_index : Int) (attrs : List vlan_attr) :
    Option (Int × List (Nat × Nat)) :=
  if ifindex ≠ if_index then some (0, [])
  else
    match fill_vlan_table_attrs attrs with
    | some ws => some (0, ws)
    | none => none

/-! ## Netlink attributes (`libnetlink.c`) -/

/-- Memory seen from a pointer, byte by byte. -/
abbrev byte_mem := Nat → Nat

/-- A sequence of stores `(offset, byte)`, carried out in order. -/
def mem_store (m : byte_mem) : List (Nat × Nat) → byte_mem
  | [] => m
  | w :: ws => mem_store (fun i => if i = w.1 then w.2 else m i) ws

/-- The stores of a value of `w` bytes at `off`, least significant byte first
(the byte order of the x86-64 and little-endian ARM hosts, on which the
64-bit `size_t` of this model is found). -/
def le_stores : Nat → Nat → Nat → List (Nat × Nat)
  | 0, _, _ => []
  | w + 1, off, v => (off, v % 256) :: le_stores w (off + 1) (v / 256)

/-- The value of `w` bytes read at `off`, least significant byte first. -/
def le_load (m : byte_mem) : Nat → Nat → Nat
  | 0, _ => 0
  | w + 1, off => m off % 256 + 256 * le_load m w (off + 1)

/-- Conversion of an integer to `unsigned int` (32 bits). -/
def to_u32 (x : Int) : Nat := (x % 4294967296).toNat

/-- Conversion of an integer to `unsigned short` (16 bits). -/
def to_u16 (x : Int) : Nat := (x % 65536).toNat

/-- The field `nlmsg_len` of the `struct nlmsghdr` at `n`: a `__u32` at offset 0. -/
def nlmsg_len (n : byte_mem) : Nat := le_load n 4 0

/-- The macro `NLMSG_ALIGN(len)` of `linux/netlink.h`,
`((len) + NLMSG_ALIGNTO - 1) & ~(NLMSG_ALIGNTO - 1)` with `NLMSG_ALIGNTO` the
`unsigned int` 4, on a value of type `unsigned int`. -/
def NLMSG_ALIGN (len : Nat) : Nat := (len + 3) % 4294967296 / 4 * 4

/-- The macro `RTA_ALIGN(len)` of `linux/rtnetlink.h`,
`((len) + RTA_ALIGNTO - 1) & ~(RTA_ALIGNTO - 1)` with `RTA_ALIGNTO` the
`unsigned int` 4, on an `int`: the result is an `unsigned int`. -/
def RTA_ALIGN (len : Int) : Nat := (to_u32 len + 3) % 4294967296 / 4 * 4

/-- The macro `RTA_LENGTH(len)` of `linux/rtnetlink.h`,
`RTA_ALIGN(sizeof(struct rtattr)) + (len)`, on an `int`: the sum is taken in
`size_t`, `sizeof(struct rtattr)` being 4. -/
def RTA_LENGTH (len : Int) : Nat := to_size_t (4 + len)

/-- Modelled from the spec: the macro `NLMSG_TAIL` is defined in `libnetlink.h`,
which is not among the sources; the attribute is written at the offset
`NLMSG_ALIGN(nlmsg_len)` from the start of the message. -/
def NLMSG_TAIL (n : byte_mem) : Nat := NLMSG_ALIGN (nlmsg_len n)

/-- The macro `RTA_DATA(rta)` of `linux/rtnetlink.h`, `rta + RTA_LENGTH(0)`, as an offset. -/
def RTA_DATA (rta : Nat) : Nat := rta + RTA_LENGTH 0

/-- The call `memcpy(m + dst, data, cnt)`, the source being apart from the
destination: the memory seen from `m` afterwards. -/
def memcpy (m : byte_mem) (dst : Nat) (data : byte_mem) (cnt : Nat) : byte_mem :=
  fun i => if dst ≤ i ∧ i < dst + cnt then data (i - dst) % 256 else m i

/-- The function `addattr_l`: the return value and the memory seen from `n` afterwards.
In `struct rtattr` the `unsigned short` fields `rta_len` and `rta_type` lie at
the offsets 0 and 2; `data` is the memory seen from the pointer of that name,
apart from the message. -/
def addattr_l (n : byte_mem) (maxlen : Int) (type : Int) (data : byte_mem) (alen : Int) :
    Int × byte_mem :=
  let len : Int := to_int (RTA_LENGTH alen)
  if (NLMSG_ALIGN (nlmsg_len n) + RTA_ALIGN len) % 4294967296 > to_u32 maxlen then (-1, n)
  else
    let rta := NLMSG_TAIL n
    let n := mem_store n (le_stores 2 (rta + 2) (to_u16 type))
    let n := mem_store n (le_stores 2 rta (to_u16 len))
    let n := if alen ≠ 0 then memcpy n (RTA_DATA rta) data (to_size_t alen)
      else n
    let n := mem_store n
      (le_stores 4 0 ((NLMSG_ALIGN (nlmsg_len n) + RTA_ALIGN len) % 4294967296))
    (0, n)

/-! ## Notions used to state the properties of scopes, arrays and netlink -/

/-- A bridge context whose current line carries the arguments `as`. -/
def br_ctx_args (as : List (List Char)) : conf_ctx conf_br :=
  { conf_ctx_init conf_br_init with argv := as, argc := (as.length : Int) }

/-- A configuration name of 32 letters `a`. -/
def name_32 : List Char := List.replicate 32 'a'

/-- A heap on which every `realloc` succeeds and hands out memory that reads
as priority 3 with the flag `prio_set` raised. -/
def heap_env_junk : heap_env := { realloc_ok := true, junk_prio := 3, junk_prio_set := true }

/-- The heap `heap_env_junk`, line after line. -/
def line_envs_junk : Nat → line_env := fun _ => { line_ok := true, heap := heap_env_junk }

/-- The bridge lines `mstid 1`, ..., `mstid n`, on a heap on which every
`realloc` succeeds. -/
def mstid_lines (n : Nat) : List (heap_env × List (List Char)) :=
  (List.range n).map (fun k => (heap_env_ok, ["mstid".toList, fmt_d (k + 1)]))

/-- The trees with the MSTIDs 1, ..., `n` of a bridge, on a heap on which every
`realloc` succeeds. -/
def msti_trees (n : Nat) : List (heap_env × Nat) :=
  (List.range n).map (fun k => (heap_env_ok, k + 1))

/-- The context after the bridge line `mstid 1`: the scope of the existing
MSTI 1. -/
def msti_1_ctx : conf_ctx conf_br :=
  (conf_br_load [(heap_env_ok, ["mstid".toList, "1".toList])]).2

/-- The tokens `1-3` and `7`. -/
def vids_toks : List (List vid_item) :=
  [[⟨"1".toList, some "3".toList⟩], [⟨"7".toList, none⟩]]

/-- The size of the line buffer after a turn of the line loop that goes on to
the next line. -/
def line_step.line_size {α : Type} : line_step α → Option Nat
  | line_step.stop _ _ _ _ => none
  | line_step.next _ _ ls _ => some ls

/-- The table loaded from the bridge lines `mstid 1`, `vids 10`, `mstid 2`:
VID 10 is mapped to MSTI 1, and MSTI 2 has no VID. -/
def two_msti_table : vid_table :=
  (conf_br_load [(heap_env_ok, ["mstid".toList, "1".toList]),
    (heap_env_ok, ["vids".toList, "10".toList]),
    (heap_env_ok, ["mstid".toList, "2".toList])]).2.cif.vid2mstid

/-- A buffer that holds a single line of 4294967294 bytes `a`, without a line
feed. -/
def huge_line_buf : iobuf :=
  { size := 4294967294, pos := 0, cap := 4294967296, data := fun _ => 'a' }

/-- The state in which the line loop of `conf_if_load` enters its turn number
`k + 1` when it was entered with `ctx`, `iob` and a line buffer of `ls` bytes
and the `k` turns before all went on to the next line: the context (with
`ctx->line` incremented after every turn), the buffer and the size of the line
buffer; `none` when the loop has ended before. -/
def conf_if_load_turn {α : Type} (opts : List (conf_opt α)) (envs : Nat → line_env) :
    Nat → conf_ctx α → iobuf → Nat → Option (conf_ctx α × iobuf × Nat)
  | 0, ctx, iob, ls => some (ctx, iob, ls)
  | k + 1, ctx, iob, ls =>
    match conf_if_load_line opts envs ctx iob ls with
    | some (line_step.next ctx1 iob1 ls1 _) =>
      conf_if_load_turn opts envs k { ctx1 with line := ctx1.line + 1 } iob1 ls1
    | _ => none

/-- A netlink message of `len` bytes in memory that is zero elsewhere: only the
field `nlmsg_len` is set. -/
def nl_msg (len : Nat) : byte_mem := mem_store (fun _ => 0) (le_stores 4 0 len)

theorem toNat_ofNat_small (n : Nat) (h : n < 55296) : (Char.ofNat n).toNat = n := by
  unfold Char.ofNat
  rw [dif_pos (Or.inl h)]
  rfl

theorem char_eq_of_toNat_eq {c d : Char} (h : c.toNat = d.toNat) : c = d := by
  rw [← Char.ofNat_toNat c, ← Char.ofNat_toNat d, h]

theorem tolower_toNat (c : Char) :
    (tolower c).toNat = if 65 ≤ c.toNat ∧ c.toNat ≤ 90 then c.toNat + 32 else c.toNat := by
  unfold tolower
  split
  · rename_i h
    exact toNat_ofNat_small _ (by omega)
  · rfl

theorem tolower_toNat_ne_zero {c : Char} (h : c.toNat ≠ 0) : (tolower c).toNat ≠ 0 := by
  rw [tolower_toNat]
  split <;> omega

theorem strcasecmp_eq_zero (s k : List Char) (hs : is_cstr s) (hk : is_cstr k)
    (h : strcasecmp s k = 0) : eq_nocase s k := by
  induction s generalizing k with
  | nil =>
    cases k with
    | nil => rfl
    | cons d ds =>
      exfalso
      have hd := tolower_toNat_ne_zero (hk d (List.mem_cons_self _ _))
      simp only [strcasecmp] at h
      omega
  | cons c cs ih =>
    cases k with
    | nil =>
      exfalso
      have hc := tolower_toNat_ne_zero (hs c (List.mem_cons_self _ _))
      simp only [strcasecmp] at h
      omega
    | cons d ds =>
      simp only [strcasecmp] at h
      by_cases hcd : tolower c = tolower d
      · rw [if_pos hcd] at h
        have := ih ds (fun x hx => hs x (List.mem_cons_of_mem _ hx))
          (fun x hx => hk x (List.mem_cons_of_mem _ hx)) h
        unfold eq_nocase at this ⊢
        simp only [List.map_cons, hcd, this]
      · rw [if_neg hcd] at h
        exfalso
        apply hcd
        apply char_eq_of_toNat_eq
        omega

theorem str_getenum_from_neg (s : List Char) (opt : List (List Char)) (i : Int)
    (hs : is_cstr s) (hk : ∀ k ∈ opt, is_cstr k) (h : ∀ k ∈ opt, ¬ eq_nocase s k) :
    str_getenum_from s opt i = -1 := by
  induction opt generalizing i with
  | nil => rfl
  | cons o os ih =>
    have ho : strcasecmp s o ≠ 0 := fun h0 =>
      h o (List.mem_cons_self _ _) (strcasecmp_eq_zero s o hs (hk o (List.mem_cons_self _ _)) h0)
    simp only [str_getenum_from, if_neg ho]
    exact ih (i + 1) (fun k hk' => hk k (List.mem_cons_of_mem _ hk'))
      (fun k hk' => h k (List.mem_cons_of_mem _ hk'))

theorem conf_opt_mode_cstr : ∀ k ∈ conf_opt_mode, is_cstr k := by
  unfold conf_opt_mode is_cstr; decide

theorem conf_opt_yesno_cstr : ∀ k ∈ conf_opt_yesno, is_cstr k := by
  unfold conf_opt_yesno is_cstr; decide

theorem conf_opt_yesnoauto_cstr : ∀ k ∈ conf_opt_yesnoauto, is_cstr k := by
  unfold conf_opt_yesnoauto is_cstr; decide

theorem str_getyesno_neg (s : List Char) (hs : is_cstr s)
    (h : ∀ k ∈ conf_opt_yesno, ¬ eq_nocase s k) :
    str_getyesno s "yes".toList "no".toList = -1 := by
  have hy : strcasecmp s "yes".toList ≠ 0 := fun h0 =>
    h _ (by unfold conf_opt_yesno; simp)
      (strcasecmp_eq_zero s _ hs (conf_opt_yesno_cstr _ (by unfold conf_opt_yesno; simp)) h0)
  have hn : strcasecmp s "no".toList ≠ 0 := fun h0 =>
    h _ (by unfold conf_opt_yesno; simp)
      (strcasecmp_eq_zero s _ hs (conf_opt_yesno_cstr _ (by unfold conf_opt_yesno; simp)) h0)
  simp only [str_getyesno, if_neg hy, if_neg hn]

theorem CONF_FN_OPT_YESNO_reject {α : Type} (store : α → Bool → α) (env : heap_env)
    (ctx : conf_ctx α) (hs : is_cstr (ctx.arg 0))
    (h : ∀ k ∈ conf_opt_yesno, ¬ eq_nocase (ctx.arg 0) k) :
    CONF_FN_OPT_YESNO store env ctx = (-1, ctx) := by
  simp only [CONF_FN_OPT_YESNO, str_getyesno_neg _ hs h]
  rfl

/-- C10: an argument that is a C string and is not, up to case, one of the
keywords of the option is rejected: `mode` (stp/rstp/mstp), each of the eight
yes/no port options, and `p2p` (no/yes/auto) return -1 and hand back the
context, hence the target field and its "set" flag, unchanged. -/
theorem enum_values_rejected (env : heap_env) (s : List Char) (hs : is_cstr s) :
    (∀ ctx : conf_ctx conf_br, ctx.arg 0 = s → (∀ k ∈ conf_opt_mode, ¬ eq_nocase s k) →
      conf_opt_br_mode env ctx = (-1, ctx)) ∧
    (∀ ctx : conf_ctx conf_prt, ctx.arg 0 = s → (∀ k ∈ conf_opt_yesno, ¬ eq_nocase s k) →
      conf_opt_prt_admin_edge env ctx = (-1, ctx) ∧
      conf_opt_prt_auto_edge env ctx = (-1, ctx) ∧
      conf_opt_prt_rest_role env ctx = (-1, ctx) ∧
      conf_opt_prt_rest_tcn env ctx = (-1, ctx) ∧
      conf_opt_prt_bpdu_guard env ctx = (-1, ctx) ∧
      conf_opt_prt_network env ctx = (-1, ctx) ∧
      conf_opt_prt_dont_txmt env ctx = (-1, ctx) ∧
      conf_opt_prt_bpdu_filter env ctx = (-1, ctx)) ∧
    (∀ ctx : conf_ctx conf_prt, ctx.arg 0 = s → (∀ k ∈ conf_opt_yesnoauto, ¬ eq_nocase s k) →
      conf_opt_prt_p2p env ctx = (-1, ctx)) := by
  refine ⟨?_, ?_, ?_⟩
  · intro ctx ha h
    have := str_getenum_from_neg s conf_opt_mode 0 hs conf_opt_mode_cstr h
    simp only [conf_opt_br_mode, str_getenum, ha, this]
    rfl
  · intro ctx ha h
    have hs' : is_cstr (ctx.arg 0) := ha ▸ hs
    have h' : ∀ k ∈ conf_opt_yesno, ¬ eq_nocase (ctx.arg 0) k := ha ▸ h
    exact ⟨CONF_FN_OPT_YESNO_reject _ env ctx hs' h', CONF_FN_OPT_YESNO_reject _ env ctx hs' h',
      CONF_FN_OPT_YESNO_reject _ env ctx hs' h', CONF_FN_OPT_YESNO_reject _ env ctx hs' h',
      CONF_FN_OPT_YESNO_reject _ env ctx hs' h', CONF_FN_OPT_YESNO_reject _ env ctx hs' h',
      CONF_FN_OPT_YESNO_reject _ env ctx hs' h', CONF_FN_OPT_YESNO_reject _ env ctx hs' h'⟩
  · intro ctx ha h
    have := str_getenum_from_neg s conf_opt_yesnoauto 0 hs conf_opt_yesnoauto_cstr h
    simp only [conf_opt_prt_p2p, str_getenum, ha, this]
    rfl

/-- The argument `fast` is no keyword of `mode` nor of `p2p`: both handlers
return -1 and hand back the context they were given. -/
theorem enum_values_rejected_witness :
    conf_opt_br_mode heap_env_ok
        { conf_ctx_init conf_br_init with argv := ["fast".toList], argc := 1 } =
      (-1, { conf_ctx_init conf_br_init with argv := ["fast".toList], argc := 1 }) ∧
    conf_opt_prt_p2p heap_env_ok
        { conf_ctx_init conf_prt_init with argv := ["fast".toList], argc := 1 } =
      (-1, { conf_ctx_init conf_prt_init with argv := ["fast".toList], argc := 1 }) :=
  ⟨(enum_values_rejected heap_env_ok "fast".toList (by unfold is_cstr; decide)).1
      { conf_ctx_init conf_br_init with argv := ["fast".toList], argc := 1 } rfl
      (by unfold conf_opt_mode eq_nocase; decide),
   (enum_values_rejected heap_env_ok "fast".toList (by unfold is_cstr; decide)).2.2
      { conf_ctx_init conf_prt_init with argv := ["fast".toList], argc := 1 } rfl
      (by unfold conf_opt_yesnoauto eq_nocase; decide)⟩

/-! ## Numeric set-points -/

theorem CONF_FN_OPT_UINTX_some {α : Type} (store : α → Nat → α) (m : Nat) (env : heap_env)
    (ctx : conf_ctx α) (n : Nat) (h : str_getuint (ctx.arg 0) = some n) :
    CONF_FN_OPT_UINTX store m env ctx = (0, { ctx with cif := store ctx.cif (min n m) }) := by
  have : (if n > m then m else n) = min n m := by
    split <;> omega
  simp only [CONF_FN_OPT_UINTX, h, this]

theorem CONF_FN_OPT_UINTX_none {α : Type} (store : α → Nat → α) (m : Nat) (env : heap_env)
    (ctx : conf_ctx α) (h : str_getuint (ctx.arg 0) = none) :
    CONF_FN_OPT_UINTX store m env ctx = (-1, ctx) := by
  simp only [CONF_FN_OPT_UINTX, h]

/-- C5: for each of `max-age`, `forward-delay`, `max-hops`, `hello` and
`tx-hold-count`, an argument that `str_getuint` parses to `n` makes the handler
return 0, set the "set" flag and store exactly `min n 255`; an argument that
`str_getuint` rejects makes it return -1 and leave the context unchanged. -/
theorem timing_setpoints_clamped (env : heap_env) (ctx : conf_ctx conf_br) :
    (∀ n, str_getuint (ctx.arg 0) = some n →
      conf_opt_br_max_age env ctx =
        (0, { ctx with cif := { ctx.cif with max_age := min n 255, max_age_set := true } }) ∧
      conf_opt_br_forward_delay env ctx =
        (0, { ctx with cif := { ctx.cif with
          forward_delay := min n 255, forward_delay_set := true } }) ∧
      conf_opt_br_max_hops env ctx =
        (0, { ctx with cif := { ctx.cif with max_hops := min n 255, max_hops_set := true } }) ∧
      conf_opt_br_hello env ctx =
        (0, { ctx with cif := { ctx.cif with hello := min n 255, hello_set := true } }) ∧
      conf_opt_br_tx_hold_count env ctx =
        (0, { ctx with cif := { ctx.cif with
          tx_hold_count := min n 255, tx_hold_count_set := true } })) ∧
    (str_getuint (ctx.arg 0) = none →
      conf_opt_br_max_age env ctx = (-1, ctx) ∧
      conf_opt_br_forward_delay env ctx = (-1, ctx) ∧
      conf_opt_br_max_hops env ctx = (-1, ctx) ∧
      conf_opt_br_hello env ctx = (-1, ctx) ∧
      conf_opt_br_tx_hold_count env ctx = (-1, ctx)) := by
  constructor
  · intro n h
    have h1 : min n 255 % 256 = min n 255 := by omega
    have h2 : min n 255 % 4294967296 = min n 255 := by omega
    simp only [conf_opt_br_max_age, conf_opt_br_forward_delay, conf_opt_br_max_hops,
      conf_opt_br_hello, conf_opt_br_tx_hold_count, CONF_FN_OPT_UINTX_some _ _ env ctx n h,
      MAX_MAX_AGE, MAX_FORWARD_DELAY, MAX_HOPS, MAX_HELLO, MAX_TX_HOLD_COUNT, h1, h2, and_self]
  · intro h
    simp only [conf_opt_br_max_age, conf_opt_br_forward_delay, conf_opt_br_max_hops,
      conf_opt_br_hello, conf_opt_br_tx_hold_count, CONF_FN_OPT_UINTX_none _ _ env ctx h,
      and_self]

/-- The bridge line `hello 300` stores 255. -/
theorem timing_setpoints_clamped_witness :
    conf_opt_br_hello heap_env_ok
        { conf_ctx_init conf_br_init with argv := ["300".toList], argc := 1 } =
      (0, { conf_ctx_init conf_br_init with
        cif := { conf_br_init with hello := min 300 255, hello_set := true },
        argv := ["300".toList], argc := 1 }) :=
  ((timing_setpoints_clamped heap_env_ok
      { conf_ctx_init conf_br_init with argv := ["300".toList], argc := 1 }).1 300
      (by decide)).2.2.2.1

/-! ## Properties kept by every handler of an option table -/

theorem conf_opt_get_mem {α : Type} (name : List Char) (opts : List (conf_opt α))
    (o : conf_opt α) (h : conf_opt_get name opts = some o) : o ∈ opts := by
  unfold conf_opt_get at h
  exact List.mem_of_find?_eq_some h

/-- C6 (the code at the failing input): after the bridge line `prio 65535` in
the CIST scope, `mstpd_conf_apply_br` makes the single call
`MSTP_IN_set_msti_bridge_config(CIST, 65536)`; after `mstid 3` and `prio 61441`
it creates MSTI 3 and calls `MSTP_IN_set_msti_bridge_config(MSTI 3, 65536)`.
The priority 65536 lies outside `0..65535`. -/
theorem br_prio_65535_out_of_range :
    mstpd_conf_apply_br (fun _ => true)
        (conf_br_load [(heap_env_ok, ["prio".toList, "65535".toList])]).2.cif
      = [MSTP_IN_call.set_msti_bridge_config 0 65536] ∧
    mstpd_conf_apply_br (fun _ => true)
        (conf_br_load [(heap_env_ok, ["mstid".toList, "3".toList]),
          (heap_env_ok, ["prio".toList, "61441".toList])]).2.cif
      = [MSTP_IN_call.create_msti 3, MSTP_IN_call.set_msti_bridge_config 3 65536] ∧
    ¬ (65536 ≤ 65535) :=
  ⟨rfl, rfl, by decide⟩

/-- C8 (counterexample): the bridge argument `prio 1` stores priority 1, that
is 4096, although the multiple 0 of 4096 is nearer to 1 than 4096 is. -/
theorem br_prio_not_nearest :
    (conf_opt_br_prio heap_env_ok (br_ctx_arg "1".toList)).2.cif.prio * 4096 = 4096 ∧
    Nat.dist (0 * 4096) 1 < Nat.dist 4096 1 := by
  decide

/-- C8 (amended): priorities are rounded up.  For a bridge `prio` argument that
`str_getuint` parses to `n ≤ 61440` the handler stores, in the CIST scope or in
the entry of an existing MSTI, the `v` for which `v * 4096` is the least
multiple of 4096 that is at least `n`; for a port `prio` argument `n ≤ 240` it
stores the `v` for which `v * 16` is the least multiple of 16 at least `n`. -/
theorem prio_rounds_up (env : heap_env) (n : Nat) :
    (n ≤ 61440 → ∃ v, rounds_up 4096 n v ∧
      ∀ ctx : conf_ctx conf_br, str_getuint (ctx.arg 0) = some n →
        (ctx.mstid = 0 →
          conf_opt_br_prio env ctx = (0, { ctx with cif := { ctx.cif with
            prio := v, prio_set := true } })) ∧
        (0 < ctx.mstid → ∀ ms,
          mstids_update (fun e => decide (ctx.mstid = (e.id : Int)))
            (fun e => { e with prio := v, prio_set := true }) ctx.cif.mstids = some ms →
          conf_opt_br_prio env ctx = (0, { ctx with cif := { ctx.cif with mstids := ms } }))) ∧
    (n ≤ 240 → ∃ v, rounds_up 16 n v ∧
      ∀ ctx : conf_ctx conf_prt, str_getuint (ctx.arg 0) = some n →
        (ctx.mstid = 0 →
          conf_opt_prt_prio env ctx = (0, { ctx with cif := { ctx.cif with
            prio := v, prio_set := true } })) ∧
        (ctx.mstid ≠ 0 → ∀ ms,
          mstids_update (fun e => decide (ctx.mstid = (e.id : Int)))
            (fun e => { e with prio := v, prio_set := true }) ctx.cif.mstids = some ms →
          conf_opt_prt_prio env ctx = (0, { ctx with cif := { ctx.cif with mstids := ms } }))) := by
  constructor
  · intro hn
    refine ⟨(n + 4095) / 4096, ⟨by omega, by omega⟩, ?_⟩
    intro ctx h
    have hv : ((if n > MAX_BR_PRIO then MAX_BR_PRIO else n) + 4095) / 4096 % 65536
        = (n + 4095) / 4096 := by
      unfold MAX_BR_PRIO
      split <;> omega
    constructor
    · intro h0
      simp only [conf_opt_br_prio, h, h0, hv, if_true, lt_self_iff_false, if_false]
    · intro h0 ms hu
      have h1 : ¬ ctx.mstid < 0 := by omega
      have h2 : ¬ ctx.mstid = 0 := by omega
      simp only [conf_opt_br_prio, h, hv, if_neg h1, if_neg h2, hu]
  · intro hn
    refine ⟨(n + 15) / 16, ⟨by omega, by omega⟩, ?_⟩
    intro ctx h
    have hv : ((if n > MAX_PRT_PRIO then MAX_PRT_PRIO else n) + 15) / 16 % 65536
        = (n + 15) / 16 := by
      unfold MAX_PRT_PRIO
      split <;> omega
    constructor
    · intro h0
      simp only [conf_opt_prt_prio, h, h0, hv, if_true]
    · intro h0 ms hu
      simp only [conf_opt_prt_prio, h, hv, if_neg h0, hu]

/-- A bridge priority of 4097 is rounded up to 2 * 4096. -/
theorem prio_rounds_up_witness :
    ∃ v, rounds_up 4096 4097 v ∧
      ∀ ctx : conf_ctx conf_br, str_getuint (ctx.arg 0) = some 4097 →
        (ctx.mstid = 0 →
          conf_opt_br_prio heap_env_ok ctx = (0, { ctx with cif := { ctx.cif with
            prio := v, prio_set := true } })) ∧
        (0 < ctx.mstid → ∀ ms,
          mstids_update (fun e => decide (ctx.mstid = (e.id : Int)))
            (fun e => { e with prio := v, prio_set := true }) ctx.cif.mstids = some ms →
          conf_opt_br_prio heap_env_ok ctx =
            (0, { ctx with cif := { ctx.cif with mstids := ms } })) :=
  (prio_rounds_up heap_env_ok 4097).1 (by decide)

theorem strtoul_digits_length (b : Nat) (s : List Char) (acc : Nat) :
    (strtoul_digits b s acc).2.length ≤ s.length := by
  induction s generalizing acc with
  | nil => simp [strtoul_digits]
  | cons c cs ih =>
    simp only [strtoul_digits]
    split
    · split
      · exact Nat.le_trans (ih _) (by simp)
      · exact Nat.le_refl _
    · exact Nat.le_refl _

theorem skip_space_length (s : List Char) : (skip_space s).length ≤ s.length := by
  induction s with
  | nil => simp [skip_space]
  | cons c cs ih =>
    simp only [skip_space]
    split
    · exact Nat.le_trans ih (by simp)
    · exact Nat.le_refl _

theorem strtoul_rest_length (s : List Char) (base : Nat) :
    (strtoul s base).2.length ≤ s.length := by
  have h1 := skip_space_length s
  unfold strtoul
  simp only
  generalize skip_space s = s1 at h1 ⊢
  have h2 : (if s1.head? = some '-' ∨ s1.head? = some '+' then s1.tail else s1).length
      ≤ s1.length := by
    split
    · simp
    · exact Nat.le_refl _
  generalize (if s1.head? = some '-' ∨ s1.head? = some '+' then s1.tail else s1) = s2 at h2 ⊢
  generalize (decide ((base = 0 ∨ base = 16) ∧ s2.head? = some '0' ∧
    (s2.tail.head? = some 'x' ∨ s2.tail.head? = some 'X'))) = pfx
  have h3 : (if pfx = true then s2.drop 2 else s2).length ≤ s2.length := by
    split
    · simp
    · exact Nat.le_refl _
  generalize (if pfx = true then s2.drop 2 else s2) = save at h3 ⊢
  generalize (if pfx = true then 16 else if base = 0 then
    (if s2.head? = some '0' then 8 else 10) else base) = b
  have h4 := strtoul_digits_length b save 0
  generalize strtoul_digits b save 0 = dg at h4 ⊢
  split
  · split
    · simp only [List.length_drop]
      omega
    · exact Nat.le_refl _
  · split
    · simp only
      omega
    · split
      · simp only
        omega
      · simp only
        omega

/-! ## `conf_vids_dec`: termination and frame -/

theorem vids_fill_apply (mstid : Nat) (t : vid_table) (a cnt v : Nat) :
    vids_fill mstid t a cnt v = if a ≤ v ∧ v < a + cnt then mstid else t v := by
  induction cnt generalizing t a with
  | zero =>
    simp only [vids_fill]
    rw [if_neg (by omega)]
  | succ n ih =>
    simp only [vids_fill, ih, tbl_set]
    by_cases h1 : a + 1 ≤ v ∧ v < a + 1 + n
    · rw [if_pos h1, if_pos (by omega)]
    · rw [if_neg h1]
      by_cases h2 : v = a
      · rw [if_pos h2, if_pos (by omega)]
      · rw [if_neg h2, if_neg (by omega)]

theorem vids_store_apply (mstid : Nat) (t : vid_table) (a : Nat) (b : Int) (v : Nat) :
    vids_store mstid t a b v =
      if (0 ≤ b ∧ (a : Int) ≤ v ∧ (v : Int) ≤ b) ∨ (b < 0 ∧ v = a) then mstid else t v := by
  unfold vids_store
  by_cases hb : b ≥ 0
  · rw [if_pos hb, vids_fill_apply]
    by_cases h : a ≤ v ∧ v < a + (b.toNat + 1 - a)
    · rw [if_pos h, if_pos (by omega)]
    · rw [if_neg h, if_neg (by omega)]
  · rw [if_neg hb]
    simp only [tbl_set]
    by_cases h : v = a
    · rw [if_pos h, if_pos (by omega)]
    · rw [if_neg h, if_neg (by omega)]

/-- The three ways the body of `conf_vids_dec` can go: it returns -1 with the
table untouched, or it stores the item `aval`/`bval` and goes on behind a comma
or at the end of the string. -/
theorem conf_vids_dec_body_cases (mstid : Nat) (t : vid_table) (s : List Char) :
    ∃ (aval : Nat) (bval : Int) (send : List Char),
      aval ≤ MAX_VID ∧ bval ≤ MAX_VID ∧ send.length ≤ s.length ∧
      (conf_vids_dec_body mstid t s = (some (-1), t, send) ∨
       (bval < 0 ∨ (aval : Int) ≤ bval) ∧ send ≠ [] ∧
          conf_vids_dec_body mstid t s = (none, vids_store mstid t aval bval, send.tail) ∨
       (bval < 0 ∨ (aval : Int) ≤ bval) ∧ send = [] ∧
          conf_vids_dec_body mstid t s = (none, vids_store mstid t aval bval, [])) := by
  have hr1 := strtoul_rest_length s 10
  have hr2 := strtoul_rest_length (strtoul s 10).2.tail 10
  have htl : (strtoul s 10).2.tail.length ≤ (strtoul s 10).2.length := by simp
  unfold conf_vids_dec_body
  simp only
  generalize strtoul s 10 = r1 at hr1 hr2 htl ⊢
  generalize strtoul r1.2.tail 10 = r2 at hr2 ⊢
  generalize hd : decide (r1.2.head? = some '-') = dash
  refine ⟨if r1.1 ≤ MAX_VID then r1.1 else MAX_VID,
    if dash = true then (if r2.1 ≤ MAX_VID then (r2.1 : Int) else (MAX_VID : Int)) else -1,
    if dash = true then r2.2 else r1.2, ?_, ?_, ?_, ?_⟩
  · split <;> omega
  · split
    · split <;> omega
    · omega
  · split <;> omega
  · generalize (if r1.1 ≤ MAX_VID then r1.1 else MAX_VID) = aval
    generalize hb : (if dash = true then
      (if r2.1 ≤ MAX_VID then (r2.1 : Int) else (MAX_VID : Int)) else -1) = bval
    generalize (if dash = true then r2.2 else r1.2) = send
    by_cases h1 : dash = true ∧ (aval : Int) > bval
    · left
      rw [if_pos h1]
    · rw [if_neg h1]
      have hab : bval < 0 ∨ (aval : Int) ≤ bval := by
        by_cases hdash : dash = true
        · right
          have : ¬ (aval : Int) > bval := fun h => h1 ⟨hdash, h⟩
          omega
        · left
          rw [if_neg hdash] at hb
          omega
      by_cases h2 : send.head? = some ','
      · rw [if_pos h2]
        right; left
        refine ⟨hab, ?_, rfl⟩
        intro h
        rw [h] at h2
        simp at h2
      · rw [if_neg h2]
        by_cases h3 : send ≠ []
        · rw [if_pos h3]
          left
          rfl
        · rw [if_neg h3]
          have h4 : send = [] := not_not.1 h3
          right; right
          exact ⟨hab, h4, by rw [h4]⟩

theorem conf_vids_dec_loop_total (mstid : Nat) (fuel : Nat) (t : vid_table) (s : List Char)
    (h : s.length < fuel) : ∃ r, conf_vids_dec_loop mstid fuel t s = some r := by
  induction fuel generalizing t s with
  | zero => omega
  | succ f ih =>
    simp only [conf_vids_dec_loop]
    by_cases hs : s = []
    · rw [if_pos hs]
      exact ⟨_, rfl⟩
    · rw [if_neg hs]
      have hpos : 0 < s.length := List.length_pos.2 hs
      obtain ⟨aval, bval, send, _, _, hlen, hc | ⟨_, hne, hc⟩ | ⟨_, _, hc⟩⟩ :=
        conf_vids_dec_body_cases mstid t s
      · rw [hc]
        exact ⟨_, rfl⟩
      · rw [hc]
        have : 0 < send.length := List.length_pos.2 hne
        exact ih _ _ (by simp only [List.length_tail]; omega)
      · rw [hc]
        exact ih _ _ (by simp only [List.length_nil]; omega)

theorem conf_vids_dec_loop_succ (mstid : Nat) (fuel : Nat) (t : vid_table) (s : List Char)
    (r : Int × vid_table) (h : conf_vids_dec_loop mstid fuel t s = some r) :
    conf_vids_dec_loop mstid (fuel + 1) t s = some r := by
  induction fuel generalizing t s with
  | zero => simp [conf_vids_dec_loop] at h
  | succ f ih =>
    rw [conf_vids_dec_loop] at h
    rw [conf_vids_dec_loop]
    by_cases hs : s = []
    · rw [if_pos hs] at h ⊢
      exact h
    · rw [if_neg hs] at h ⊢
      obtain ⟨aval, bval, send, _, _, _, hc | ⟨_, _, hc⟩ | ⟨_, _, hc⟩⟩ :=
        conf_vids_dec_body_cases mstid t s
      · rw [hc] at h ⊢
        exact h
      · rw [hc] at h ⊢
        exact ih _ _ h
      · rw [hc] at h ⊢
        exact ih _ _ h

theorem conf_vids_dec_loop_mono (mstid : Nat) (f f' : Nat) (t : vid_table) (s : List Char)
    (r : Int × vid_table) (h : conf_vids_dec_loop mstid f t s = some r) (hf : f ≤ f') :
    conf_vids_dec_loop mstid f' t s = some r := by
  induction hf with
  | refl => exact h
  | step _ ih => exact conf_vids_dec_loop_succ _ _ _ _ _ ih

/-- The decoder `conf_vids_dec` returns for every table, string and MSTID. -/
theorem conf_vids_dec_total (t : vid_table) (s : List Char) (mstid : Nat) :
    ∃ r, conf_vids_dec t s mstid = some r :=
  conf_vids_dec_loop_total mstid _ t s (Nat.lt_succ_self _)

theorem vids_store_frame (mstid : Nat) (t : vid_table) (a : Nat) (b : Int)
    (ha : a ≤ MAX_VID) (hb : b ≤ MAX_VID) (v : Nat) :
    vids_store mstid t a b v = t v ∨ (v ≤ MAX_VID ∧ vids_store mstid t a b v = mstid) := by
  rw [vids_store_apply]
  split
  · right
    exact ⟨by omega, rfl⟩
  · left
    rfl

/-- Whatever `conf_vids_dec` returns, an entry of the table either keeps its
value or has an index of at most `MAX_VID` and holds `mstid`. -/
theorem conf_vids_dec_loop_frame (mstid : Nat) (fuel : Nat) (t : vid_table) (s : List Char)
    (r : Int × vid_table) (h : conf_vids_dec_loop mstid fuel t s = some r) (v : Nat) :
    r.2 v = t v ∨ (v ≤ MAX_VID ∧ r.2 v = mstid) := by
  induction fuel generalizing t s with
  | zero => simp [conf_vids_dec_loop] at h
  | succ f ih =>
    rw [conf_vids_dec_loop] at h
    by_cases hs : s = []
    · rw [if_pos hs] at h
      injection h with h
      subst h
      exact Or.inl rfl
    · rw [if_neg hs] at h
      obtain ⟨aval, bval, send, ha, hb, _, hc | ⟨_, _, hc⟩ | ⟨_, _, hc⟩⟩ :=
        conf_vids_dec_body_cases mstid t s
      · rw [hc] at h
        injection h with h
        subst h
        exact Or.inl rfl
      · rw [hc] at h
        rcases ih _ _ h with h1 | h1
        · rw [h1]
          exact vids_store_frame mstid t aval bval ha hb v
        · exact Or.inr h1
      · rw [hc] at h
        rcases ih _ _ h with h1 | h1
        · rw [h1]
          exact vids_store_frame mstid t aval bval ha hb v
        · exact Or.inr h1

/-! ## Decoding a well-formed VID list -/

theorem digitVal_of_is_digit (c : Char) (h : is_digit c = true) :
    digitVal c = some (c.toNat - 48) := by
  simp only [is_digit, Bool.and_eq_true, decide_eq_true_eq] at h
  unfold digitVal
  rw [if_pos h]

theorem strtoul_digits_stop (rest : List Char) (acc : Nat)
    (hrest : ∀ c, rest.head? = some c → is_digit c = false) :
    strtoul_digits 10 rest acc = (acc, rest) := by
  cases rest with
  | nil => rfl
  | cons c cs =>
    have hc := hrest c rfl
    simp only [is_digit, Bool.and_eq_false_iff, decide_eq_false_iff_not] at hc
    simp only [strtoul_digits, digitVal]
    split
    · rename_i d hd
      split at hd
      · omega
      · split at hd
        · injection hd with hd
          rw [if_neg (by omega)]
        · split at hd
          · injection hd with hd
            rw [if_neg (by omega)]
          · simp at hd
    · rfl

theorem strtoul_digits_numeral (ds rest : List Char) (acc : Nat)
    (hds : ds.all is_digit = true)
    (hrest : ∀ c, rest.head? = some c → is_digit c = false) :
    strtoul_digits 10 (ds ++ rest) acc =
      (ds.foldl (fun a c => a * 10 + (c.toNat - 48)) acc, rest) := by
  induction ds generalizing acc with
  | nil => exact strtoul_digits_stop rest acc hrest
  | cons d ds ih =>
    simp only [List.all_cons, Bool.and_eq_true] at hds
    have hd := hds.1
    have hd' := hd
    simp only [is_digit, Bool.and_eq_true, decide_eq_true_eq] at hd'
    simp only [List.cons_append, strtoul_digits, digitVal_of_is_digit d hd, List.foldl_cons]
    rw [if_pos (by omega)]
    exact ih _ hds.2

theorem skip_space_digit (d : Char) (ds : List Char) (hd : is_digit d = true) :
    skip_space (d :: ds) = d :: ds := by
  simp only [is_digit, Bool.and_eq_true, decide_eq_true_eq] at hd
  simp only [skip_space, isspace]
  rw [if_neg]
  simp only [Bool.or_eq_true, Bool.and_eq_true, decide_eq_true_eq]
  omega

/-- The function `strtoul` in base 10 on a decimal numeral followed by something that is
not a digit reads exactly the numeral. -/
theorem strtoul_numeral (ds rest : List Char) (hds : is_numeral ds = true)
    (hv : numeral_val ds ≤ ULONG_MAX)
    (hrest : ∀ c, rest.head? = some c → is_digit c = false) :
    strtoul (ds ++ rest) 10 = (numeral_val ds, rest) := by
  cases ds with
  | nil => simp [is_numeral] at hds
  | cons d ds =>
    simp only [is_numeral, List.isEmpty_cons, Bool.not_false, Bool.true_and] at hds
    have hall := hds
    simp only [List.all_cons, Bool.and_eq_true] at hds
    have hd := hds.1
    have hd' := hd
    simp only [is_digit, Bool.and_eq_true, decide_eq_true_eq] at hd'
    have hm : d ≠ '-' := by
      intro h
      rw [h] at hd'
      revert hd'
      decide
    have hp : d ≠ '+' := by
      intro h
      rw [h] at hd'
      revert hd'
      decide
    have hdg := strtoul_digits_numeral (d :: ds) rest 0 hall hrest
    have h10 : ((10 : Nat) = 0) = False := by simp
    have h16 : ((10 : Nat) = 16) = False := by simp
    unfold strtoul
    simp only [List.cons_append, skip_space_digit d (ds ++ rest) hd, List.head?_cons,
      Option.some.injEq, hm, hp, or_self, if_false, h10, h16, false_and,
      decide_False, Bool.false_eq_true]
    simp only [List.cons_append] at hdg
    rw [hdg]
    simp only [List.length_cons, List.length_append]
    rw [if_neg (by omega)]
    unfold numeral_val at hv ⊢
    rw [if_neg (by omega)]

theorem is_numeral_ne_nil (ds : List Char) (h : is_numeral ds = true) : ds ≠ [] := by
  intro h0
  rw [h0] at h
  simp [is_numeral] at h

theorem head_comma_or_nil_not_digit (rest : List Char)
    (hr : rest = [] ∨ rest.head? = some ',') :
    ∀ c, rest.head? = some c → is_digit c = false := by
  intro c hc
  rcases hr with hr | hr
  · rw [hr] at hc
    simp at hc
  · rw [hr] at hc
    injection hc with hc
    rw [← hc]
    decide

/-- One turn of the decoder over a well-formed item followed by a comma or by
the end of the string stores the item and goes on behind the comma. -/
theorem conf_vids_dec_body_item (mstid : Nat) (t : vid_table) (i : vid_item)
    (hi : i.wf = true) (rest : List Char) (hr : rest = [] ∨ rest.head? = some ',') :
    conf_vids_dec_body mstid t (i.str ++ rest) =
      (none, vids_store mstid t (numeral_val i.lo) i.bval, rest.tail) := by
  obtain ⟨lo, hi'⟩ := i
  have hnd := head_comma_or_nil_not_digit rest hr
  have hdash : ¬ rest.head? = some '-' := by
    rcases hr with hr | hr
    · rw [hr]; simp
    · rw [hr]; decide
  cases hi' with
  | none =>
    simp only [vid_item.wf, Bool.and_true, Bool.and_eq_true, decide_eq_true_eq] at hi
    obtain ⟨hlo, hlv⟩ := hi
    have h1 := strtoul_numeral lo rest hlo (by unfold ULONG_MAX; omega) hnd
    simp only [vid_item.str, vid_item.bval, conf_vids_dec_body, h1, hdash, decide_False,
      Bool.false_eq_true, if_false, false_and, MAX_VID, if_pos hlv]
    rcases hr with hr | hr
    · subst hr
      simp
    · rw [if_pos hr]
  | some h =>
    simp only [vid_item.wf, Bool.and_eq_true, decide_eq_true_eq] at hi
    obtain ⟨⟨hlo, hlv⟩, ⟨hh, hle⟩, hhv⟩ := hi
    have h1 := strtoul_numeral lo ('-' :: (h ++ rest)) hlo (by unfold ULONG_MAX; omega)
      (by intro c hc; simp only [List.head?_cons, Option.some.injEq] at hc; rw [← hc]; decide)
    have h2 := strtoul_numeral h rest hh (by unfold ULONG_MAX; omega) hnd
    simp only [vid_item.str, vid_item.bval, conf_vids_dec_body, List.append_assoc,
      List.cons_append, h1, List.head?_cons, decide_True, List.tail_cons, h2, if_true,
      MAX_VID, if_pos hlv, if_pos hhv]
    rw [if_neg (by omega)]
    rcases hr with hr | hr
    · subst hr
      simp
    · rw [if_pos hr]

theorem vid_item_str_ne_nil (i : vid_item) (hi : i.wf = true) : i.str ≠ [] := by
  obtain ⟨lo, hi'⟩ := i
  have hlo : is_numeral lo = true := by
    cases hi' <;> simp only [vid_item.wf, Bool.and_eq_true] at hi
    · exact hi.1.1
    · exact hi.1.1
  have := is_numeral_ne_nil lo hlo
  cases hi' with
  | none => exact this
  | some h =>
    simp only [vid_item.str]
    intro h0
    exact this (List.append_eq_nil.1 h0).1

theorem vid_item_store_apply (mstid : Nat) (t : vid_table) (i : vid_item) (hi : i.wf = true)
    (v : Nat) :
    (i.covers v → vids_store mstid t (numeral_val i.lo) i.bval v = mstid) ∧
    (¬ i.covers v → vids_store mstid t (numeral_val i.lo) i.bval v = t v) := by
  obtain ⟨lo, hi'⟩ := i
  rw [vids_store_apply]
  cases hi' with
  | none =>
    simp only [vid_item.covers, vid_item.bval]
    constructor
    · intro h
      rw [if_pos (by omega)]
    · intro h
      rw [if_neg (by omega)]
  | some h =>
    simp only [vid_item.wf, Bool.and_eq_true, decide_eq_true_eq] at hi
    simp only [vid_item.covers, vid_item.bval]
    constructor
    · intro h
      rw [if_pos (by omega)]
    · intro h
      rw [if_neg (by omega)]

theorem vid_list_str_cons (i : vid_item) (is : List vid_item) :
    ∃ rest, vid_list_str (i :: is) = i.str ++ rest ∧
      (rest = [] ∨ rest.head? = some ',') ∧ rest.tail = vid_list_str is := by
  cases is with
  | nil => exact ⟨[], by simp [vid_list_str], Or.inl rfl, rfl⟩
  | cons j js => exact ⟨',' :: vid_list_str (j :: js), rfl, Or.inr rfl, rfl⟩

theorem conf_vids_dec_loop_list (mstid : Nat) (items : List vid_item)
    (hwf : ∀ i ∈ items, i.wf = true) (t : vid_table) (fuel : Nat)
    (hf : (vid_list_str items).length < fuel) :
    ∃ t', conf_vids_dec_loop mstid fuel t (vid_list_str items) = some (0, t') ∧
      ∀ v, ((∃ i ∈ items, i.covers v) → t' v = mstid) ∧
           ((¬ ∃ i ∈ items, i.covers v) → t' v = t v) := by
  induction items generalizing t fuel with
  | nil =>
    cases fuel with
    | zero => omega
    | succ f =>
      refine ⟨t, by simp [conf_vids_dec_loop, vid_list_str], ?_⟩
      intro v
      simp
  | cons i is ih =>
    obtain ⟨rest, hstr, hr, htl⟩ := vid_list_str_cons i is
    have hi := hwf i (List.mem_cons_self _ _)
    have hne : i.str ++ rest ≠ [] := by
      intro h0
      exact vid_item_str_ne_nil i hi (List.append_eq_nil.1 h0).1
    have hlen : 0 < i.str.length := List.length_pos.2 (vid_item_str_ne_nil i hi)
    rw [hstr] at hf ⊢
    cases fuel with
    | zero => omega
    | succ f =>
      rw [conf_vids_dec_loop, if_neg hne, conf_vids_dec_body_item mstid t i hi rest hr, htl]
      simp only
      have hf' : (vid_list_str is).length < f := by
        rw [← htl]
        simp only [List.length_append, List.length_tail] at hf ⊢
        omega
      obtain ⟨t', h1, h2⟩ := ih (fun j hj => hwf j (List.mem_cons_of_mem _ hj))
        (vids_store mstid t (numeral_val i.lo) i.bval) f hf'
      refine ⟨t', h1, ?_⟩
      intro v
      have hs := vid_item_store_apply mstid t i hi v
      constructor
      · rintro ⟨j, hj, hc⟩
        by_cases hcov : ∃ k ∈ is, k.covers v
        · exact (h2 v).1 hcov
        · rw [(h2 v).2 hcov]
          rcases List.mem_cons.1 hj with rfl | hj'
          · exact hs.1 hc
          · exact absurd ⟨j, hj', hc⟩ hcov
      · intro hno
        have hcov : ¬ ∃ k ∈ is, k.covers v := fun ⟨k, hk, hc⟩ =>
          hno ⟨k, List.mem_cons_of_mem _ hk, hc⟩
        rw [(h2 v).2 hcov]
        exact hs.2 (fun hc => hno ⟨i, List.mem_cons_self _ _, hc⟩)

/-- C2: for every comma-separated list of well-formed items (`N` or `N-M` in
decimal with `N ≤ M ≤ 4094`), every table and every MSTID, `conf_vids_dec`
returns 0, and the table it leaves maps every VID named by some item to the
MSTID and agrees with the table it was given everywhere else. -/
theorem conf_vids_dec_wellformed (items : List vid_item) (hwf : ∀ i ∈ items, i.wf = true)
    (t : vid_table) (mstid : Nat) :
    ∃ t', conf_vids_dec t (vid_list_str items) mstid = some (0, t') ∧
      ∀ v, ((∃ i ∈ items, i.covers v) → t' v = mstid) ∧
           ((¬ ∃ i ∈ items, i.covers v) → t' v = t v) :=
  conf_vids_dec_loop_list mstid items hwf t _ (Nat.lt_succ_self _)

/-- Decoding the list `7,10-12` for MSTI 3 into the all-zero table. -/
theorem conf_vids_dec_wellformed_witness :
    ∃ t', conf_vids_dec (fun _ => 0)
        (vid_list_str [⟨"7".toList, none⟩, ⟨"10".toList, some "12".toList⟩]) 3 = some (0, t') ∧
      ∀ v, ((∃ i ∈ [(⟨"7".toList, none⟩ : vid_item), ⟨"10".toList, some "12".toList⟩],
              i.covers v) → t' v = 3) ∧
           ((¬ ∃ i ∈ [(⟨"7".toList, none⟩ : vid_item), ⟨"10".toList, some "12".toList⟩],
              i.covers v) → t' v = (fun _ => 0) v) :=
  conf_vids_dec_wellformed [⟨"7".toList, none⟩, ⟨"10".toList, some "12".toList⟩]
    (by decide) (fun _ => 0) 3

/-! ## Rejected lists and the table of a loaded bridge configuration -/

/-- C3 (counterexample): on the list `5,9-3` the decoder returns -1 for the
range `9-3`, after it has stored the item `5`: entry 5 of the table has changed
from 0 to the MSTID 7. -/
theorem conf_vids_dec_partial_rewrite :
    (conf_vids_dec (fun _ => 0) "5,9-3".toList 7).map (fun r => (r.1, r.2 5)) = some (-1, 7) ∧
    (fun _ => 0 : vid_table) 5 ≠ 7 := by
  decide

/-- C3 (amended): `conf_vids_dec` returns for every table, string and MSTID,
and whatever it returns (0 or -1) every entry of the table either keeps its
value or has an index of at most 4094 and holds the MSTID, the latter for the
items stored before a rejected one; a list rejected in the first turn of the
loop leaves the table as it was. -/
theorem conf_vids_dec_reject_frame (t : vid_table) (s : List Char) (mstid : Nat) :
    ∃ r, conf_vids_dec t s mstid = some r ∧
      (∀ v, r.2 v = t v ∨ (v ≤ 4094 ∧ r.2 v = mstid)) ∧
      (s ≠ [] → (conf_vids_dec_body mstid t s).1 = some (-1) → r = (-1, t)) := by
  obtain ⟨r, hr⟩ := conf_vids_dec_total t s mstid
  refine ⟨r, hr, conf_vids_dec_loop_frame mstid _ t s r hr, ?_⟩
  intro hs hb
  unfold conf_vids_dec at hr
  rw [conf_vids_dec_loop, if_neg hs] at hr
  obtain ⟨aval, bval, send, _, _, _, hc | ⟨_, _, hc⟩ | ⟨_, _, hc⟩⟩ :=
    conf_vids_dec_body_cases mstid t s
  · rw [hc] at hr
    injection hr with hr
    exact hr.symm
  · rw [hc] at hb
    simp at hb
  · rw [hc] at hb
    simp at hb

/-- The list `9-3` is rejected in the first turn: the table stays as it was. -/
theorem conf_vids_dec_reject_frame_witness :
    ∃ r, conf_vids_dec (fun _ => 0) "9-3".toList 7 = some r ∧
      (∀ v, r.2 v = (fun _ => 0 : vid_table) v ∨ (v ≤ 4094 ∧ r.2 v = 7)) ∧
      r = (-1, fun _ => 0) := by
  obtain ⟨r, h1, h2, h3⟩ := conf_vids_dec_reject_frame (fun _ => 0) "9-3".toList 7
  exact ⟨r, h1, h2, h3 (by decide) (by decide)⟩

theorem buf_apply_text_outside (b : char_buf) (off : Nat) (txt : List Char) (j : Nat)
    (hj : j < off ∨ off + txt.length ≤ j) : buf_apply b (text_writes off txt) j = b j := by
  induction txt generalizing b off with
  | nil => rfl
  | cons c cs ih =>
    simp only [text_writes, buf_apply]
    rw [ih _ _ (by simp only [List.length_cons] at hj; omega)]
    simp only [buf_write]
    rw [if_neg (by simp only [List.length_cons] at hj; omega)]

theorem buf_has_text (b : char_buf) (off : Nat) (txt : List Char) :
    buf_has (buf_apply b (text_writes off txt)) off txt := by
  induction txt generalizing b off with
  | nil => trivial
  | cons c cs ih =>
    simp only [text_writes, buf_apply, buf_has]
    refine ⟨?_, ih _ _⟩
    rw [buf_apply_text_outside _ _ _ _ (Or.inl (Nat.lt_succ_self _))]
    simp [buf_write]

/-- For an MSTID to which no VID maps, `conf_vids_enc` returns 0 after a single
store, the NUL at `out[max_len - 1]`: the bytes before it keep what the buffer
held when the function was called. -/
theorem conf_vids_enc_loop_no_vid (t : vid_table) (mstid max_len : Nat)
    (fuel pos cnt off rem_len : Nat) (hf : MAX_VID + 2 ≤ fuel + pos ∧ 0 < fuel)
    (hno : ∀ v, pos ≤ v → v ≤ MAX_VID → t v ≠ mstid) :
    conf_vids_enc_loop t mstid max_len fuel pos cnt off rem_len =
      some (0, [(off + rem_len, NUL)]) := by
  induction fuel generalizing pos with
  | zero => omega
  | succ f ih =>
    rw [conf_vids_enc_loop]
    by_cases h1 : pos ≤ MAX_VID
    · rw [if_pos h1, if_neg (hno pos (Nat.le_refl _) h1)]
      exact ih (pos + 1) (by omega) (fun v hv1 hv2 => hno v (by omega) hv2)
    · rw [if_neg h1]

/-- C11: `conf_opt_br_mode` accepts each of the keywords `stp`, `rstp`, `mstp`
and stores `protoSTP`, `protoRSTP`, `protoMSTP` for it, `conf_opt_prt_p2p`
accepts each of `yes`, `no`, `auto` and stores `p2pForceTrue`, `p2pForceFalse`,
`p2pAuto`, and `conf_mode_to_str`, `conf_p2p_to_str` give the keyword back
from the stored value. -/
theorem keyword_print_undoes_parse (env : heap_env) (cb : conf_ctx conf_br)
    (cp : conf_ctx conf_prt) (fail : List Char) :
    ((conf_opt_br_mode env { cb with argv := ["stp".toList] }).1 = 0 ∧
      (conf_opt_br_mode env { cb with argv := ["stp".toList] }).2.cif.mode_set = true ∧
      (conf_opt_br_mode env { cb with argv := ["stp".toList] }).2.cif.mode
        = protocol_version_t.protoSTP ∧
      conf_mode_to_str (conf_opt_br_mode env { cb with argv := ["stp".toList] }).2.cif.mode fail
        = "stp".toList) ∧
    ((conf_opt_br_mode env { cb with argv := ["rstp".toList] }).1 = 0 ∧
      (conf_opt_br_mode env { cb with argv := ["rstp".toList] }).2.cif.mode_set = true ∧
      (conf_opt_br_mode env { cb with argv := ["rstp".toList] }).2.cif.mode
        = protocol_version_t.protoRSTP ∧
      conf_mode_to_str (conf_opt_br_mode env { cb with argv := ["rstp".toList] }).2.cif.mode fail
        = "rstp".toList) ∧
    ((conf_opt_br_mode env { cb with argv := ["mstp".toList] }).1 = 0 ∧
      (conf_opt_br_mode env { cb with argv := ["mstp".toList] }).2.cif.mode_set = true ∧
      (conf_opt_br_mode env { cb with argv := ["mstp".toList] }).2.cif.mode
        = protocol_version_t.protoMSTP ∧
      conf_mode_to_str (conf_opt_br_mode env { cb with argv := ["mstp".toList] }).2.cif.mode fail
        = "mstp".toList) ∧
    ((conf_opt_prt_p2p env { cp with argv := ["yes".toList] }).1 = 0 ∧
      (conf_opt_prt_p2p env { cp with argv := ["yes".toList] }).2.cif.p2p_set = true ∧
      (conf_opt_prt_p2p env { cp with argv := ["yes".toList] }).2.cif.p2p
        = admin_p2p_t.p2pForceTrue ∧
      conf_p2p_to_str (conf_opt_prt_p2p env { cp with argv := ["yes".toList] }).2.cif.p2p fail
        = "yes".toList) ∧
    ((conf_opt_prt_p2p env { cp with argv := ["no".toList] }).1 = 0 ∧
      (conf_opt_prt_p2p env { cp with argv := ["no".toList] }).2.cif.p2p_set = true ∧
      (conf_opt_prt_p2p env { cp with argv := ["no".toList] }).2.cif.p2p
        = admin_p2p_t.p2pForceFalse ∧
      conf_p2p_to_str (conf_opt_prt_p2p env { cp with argv := ["no".toList] }).2.cif.p2p fail
        = "no".toList) ∧
    ((conf_opt_prt_p2p env { cp with argv := ["auto".toList] }).1 = 0 ∧
      (conf_opt_prt_p2p env { cp with argv := ["auto".toList] }).2.cif.p2p_set = true ∧
      (conf_opt_prt_p2p env { cp with argv := ["auto".toList] }).2.cif.p2p
        = admin_p2p_t.p2pAuto ∧
      conf_p2p_to_str (conf_opt_prt_p2p env { cp with argv := ["auto".toList] }).2.cif.p2p fail
        = "auto".toList) := by
  refine ⟨⟨?_, ?_, ?_, ?_⟩, ⟨?_, ?_, ?_, ?_⟩, ⟨?_, ?_, ?_, ?_⟩, ⟨?_, ?_, ?_, ?_⟩,
    ⟨?_, ?_, ?_, ?_⟩, ⟨?_, ?_, ?_, ?_⟩⟩ <;> rfl

/-- C20: the key `HMAC_KEY` of the configuration digest is the sequence of the
sixteen bytes 13 AC 06 A6 2E 47 FD 51 F9 5D 2B A2 43 CD 03 46, in this order
(each byte is given by its two hexadecimal digits). -/
theorem hmac_key_bytes :
    HMAC_KEY.length = 16 ∧ (∀ b ∈ HMAC_KEY, b < 256) ∧
    HMAC_KEY.map (fun b => (b / 16, b % 16)) =
      [(1, 3), (10, 12), (0, 6), (10, 6), (2, 14), (4, 7), (15, 13), (5, 1),
       (15, 9), (5, 13), (2, 11), (10, 2), (4, 3), (12, 13), (0, 3), (4, 6)] := by
  decide

/-- The loop over the MSTIs makes no other calls than `MSTP_IN_create_msti` and
`MSTP_IN_set_msti_bridge_config`. -/
theorem apply_br_mstids_calls (created : Nat → Bool) (ms : List conf_br_mstid)
    (c : MSTP_IN_call) (hc : c ∈ apply_br_mstids created ms) :
    (∃ id, c = MSTP_IN_call.create_msti id) ∨
      ∃ id p, c = MSTP_IN_call.set_msti_bridge_config id p := by
  induction ms with
  | nil => simp [apply_br_mstids] at hc
  | cons e es ih =>
    simp only [apply_br_mstids, List.cons_append, List.mem_cons, List.mem_append] at hc
    rcases hc with h | h | h
    · exact Or.inl ⟨_, h⟩
    · split at h
      · simp only [List.mem_singleton] at h
        exact Or.inr ⟨_, _, h⟩
      · simp at h
    · exact ih h

/-- C12: the structure `ccfg` that `mstpd_conf_apply_br` builds has, for each of
its seven fields, the "set" flag of the parsed field, the parsed value when the
flag is set and zero (`protoSTP` for the protocol version) when it is not;
`MSTP_IN_set_cist_bridge_config` is called, with that structure, exactly
when one of the seven flags is set, `MSTP_IN_set_mst_config_id` exactly when
`confid_set`, and `MSTP_IN_set_all_vids2mstids` exactly when `vid2mstid_set`. -/
theorem apply_br_only_set_fields (created : Nat → Bool) (cbr : conf_br) :
    ((apply_br_ccfg cbr).set_protocol_version = cbr.mode_set ∧
      (apply_br_ccfg cbr).protocol_version
        = (if cbr.mode_set then cbr.mode else protocol_version_t.protoSTP)) ∧
    ((apply_br_ccfg cbr).set_bridge_max_age = cbr.max_age_set ∧
      (apply_br_ccfg cbr).bridge_max_age = (if cbr.max_age_set then cbr.max_age else 0)) ∧
    ((apply_br_ccfg cbr).set_bridge_forward_delay = cbr.forward_delay_set ∧
      (apply_br_ccfg cbr).bridge_forward_delay
        = (if cbr.forward_delay_set then cbr.forward_delay else 0)) ∧
    ((apply_br_ccfg cbr).set_max_hops = cbr.max_hops_set ∧
      (apply_br_ccfg cbr).max_hops = (if cbr.max_hops_set then cbr.max_hops else 0)) ∧
    ((apply_br_ccfg cbr).set_bridge_hello_time = cbr.hello_set ∧
      (apply_br_ccfg cbr).bridge_hello_time = (if cbr.hello_set then cbr.hello else 0)) ∧
    ((apply_br_ccfg cbr).set_bridge_ageing_time = cbr.ageing_set ∧
      (apply_br_ccfg cbr).bridge_ageing_time = (if cbr.ageing_set then cbr.ageing else 0)) ∧
    ((apply_br_ccfg cbr).set_tx_hold_count = cbr.tx_hold_count_set ∧
      (apply_br_ccfg cbr).tx_hold_count
        = (if cbr.tx_hold_count_set then cbr.tx_hold_count else 0)) ∧
    (∀ cfg, MSTP_IN_call.set_cist_bridge_config cfg ∈ mstpd_conf_apply_br created cbr ↔
      (cfg = apply_br_ccfg cbr ∧
        (cbr.mode_set = true ∨ cbr.max_age_set = true ∨ cbr.forward_delay_set = true ∨
          cbr.max_hops_set = true ∨ cbr.hello_set = true ∨ cbr.ageing_set = true ∨
          cbr.tx_hold_count_set = true))) ∧
    (∀ rev name, MSTP_IN_call.set_mst_config_id rev name ∈ mstpd_conf_apply_br created cbr ↔
      (rev = cbr.confid_rev ∧ name = cbr.confid_name ∧ cbr.confid_set = true)) ∧
    (∀ tbl, MSTP_IN_call.set_all_vids2mstids tbl ∈ mstpd_conf_apply_br created cbr ↔
      (tbl = cbr.vid2mstid ∧ cbr.vid2mstid_set = true)) := by
  have hm : ∀ c, c ∈ apply_br_mstids created cbr.mstids →
      (∃ id, c = MSTP_IN_call.create_msti id) ∨
        ∃ id p, c = MSTP_IN_call.set_msti_bridge_config id p :=
    fun c hc => apply_br_mstids_calls created cbr.mstids c hc
  refine ⟨⟨rfl, rfl⟩, ⟨rfl, rfl⟩, ⟨rfl, rfl⟩, ⟨rfl, rfl⟩, ⟨rfl, rfl⟩, ⟨rfl, rfl⟩, ⟨rfl, rfl⟩,
    ?_, ?_, ?_⟩
  · intro cfg
    simp only [mstpd_conf_apply_br, List.mem_append]
    constructor
    · rintro ((((h | h) | h) | h) | h)
      · split at h
        · rename_i hf
          simp only [List.mem_singleton, MSTP_IN_call.set_cist_bridge_config.injEq] at h
          refine ⟨h, ?_⟩
          simpa [Bool.or_eq_true, or_assoc] using hf
        · simp at h
      · split at h <;> simp at h
      · split at h <;> simp at h
      · rcases hm _ h with ⟨id, e⟩ | ⟨id, p, e⟩ <;> cases e
      · split at h <;> simp at h
    · rintro ⟨rfl, hf⟩
      refine Or.inl (Or.inl (Or.inl (Or.inl ?_)))
      have : (cbr.mode_set || cbr.max_age_set || cbr.forward_delay_set || cbr.max_hops_set ||
          cbr.hello_set || cbr.ageing_set || cbr.tx_hold_count_set) = true := by
        simpa [Bool.or_eq_true, or_assoc] using hf
      rw [if_pos this]
      exact List.mem_singleton.mpr rfl
  · intro rev name
    simp only [mstpd_conf_apply_br, List.mem_append]
    constructor
    · rintro ((((h | h) | h) | h) | h)
      · split at h <;> simp at h
      · split at h
        · rename_i hf
          simp only [List.mem_singleton, MSTP_IN_call.set_mst_config_id.injEq] at h
          exact ⟨h.1, h.2, hf⟩
        · simp at h
      · split at h <;> simp at h
      · rcases hm _ h with ⟨id, e⟩ | ⟨id, p, e⟩ <;> cases e
      · split at h <;> simp at h
    · rintro ⟨rfl, rfl, hf⟩
      refine Or.inl (Or.inl (Or.inl (Or.inr ?_)))
      rw [if_pos hf]
      exact List.mem_singleton.mpr rfl
  · intro tbl
    simp only [mstpd_conf_apply_br, List.mem_append]
    constructor
    · rintro ((((h | h) | h) | h) | h)
      · split at h <;> simp at h
      · split at h <;> simp at h
      · split at h <;> simp at h
      · rcases hm _ h with ⟨id, e⟩ | ⟨id, p, e⟩ <;> cases e
      · split at h
        · rename_i hf
          simp only [List.mem_singleton, MSTP_IN_call.set_all_vids2mstids.injEq] at h
          exact ⟨h, hf⟩
        · simp at h
    · rintro ⟨rfl, hf⟩
      refine Or.inr ?_
      rw [if_pos hf]
      exact List.mem_singleton.mpr rfl


/-! ## The line reader `iobuf_readcleanline` -/

theorem buf_bytes_length (data : char_buf) (a n : Nat) : (buf_bytes data a n).length = n := by
  simp [buf_bytes]

theorem buf_bytes_zero (data : char_buf) (a : Nat) : buf_bytes data a 0 = [] := rfl

theorem buf_bytes_succ (data : char_buf) (a n : Nat) :
    buf_bytes data a (n + 1) = data a :: buf_bytes data (a + 1) n := by
  simp only [buf_bytes, List.range_succ_eq_map, List.map_cons, List.map_map, Nat.add_zero]
  congr 1
  apply List.map_congr_left
  intro i _
  simp only [Function.comp, Nat.succ_eq_add_one]
  congr 1
  omega

theorem buf_bytes_succ_last (data : char_buf) (a n : Nat) :
    buf_bytes data a (n + 1) = buf_bytes data a n ++ [data (a + n)] := by
  simp [buf_bytes, List.range_succ]

theorem buf_bytes_take (data : char_buf) (a n k : Nat) :
    (buf_bytes data a n).take k = buf_bytes data a (min k n) := by
  simp [buf_bytes, ← List.map_take, List.take_range]

theorem takeWhile_eq_take_length {α : Type} (p : α → Bool) (l : List α) :
    l.takeWhile p = l.take (l.takeWhile p).length := by
  induction l with
  | nil => rfl
  | cons a l ih =>
    by_cases h : p a
    · rw [List.takeWhile_cons_of_pos h, List.length_cons, List.take_succ_cons, ← ih]
    · rw [List.takeWhile_cons_of_neg h]; rfl

theorem takeWhile_length_le {α : Type} (p : α → Bool) (l : List α) :
    (l.takeWhile p).length ≤ l.length := by
  induction l with
  | nil => simp
  | cons a l ih =>
    by_cases h : p a
    · rw [List.takeWhile_cons_of_pos h]; simp only [List.length_cons]; omega
    · rw [List.takeWhile_cons_of_neg h]; simp

/-- The first loop of `iobuf_readcleanline` stops at the first LF. -/
theorem line_end_loop_spec (data : char_buf) (bsize : Nat) :
    ∀ (fuel bpos : Nat), bsize - bpos ≤ fuel →
      line_end_loop data bsize fuel bpos
        = bpos + (raw_line (buf_bytes data bpos (bsize - bpos))).length := by
  intro fuel
  induction fuel with
  | zero =>
    intro bpos h
    have h0 : bsize - bpos = 0 := by omega
    simp [line_end_loop, h0, buf_bytes_zero, raw_line]
  | succ fuel ih =>
    intro bpos h
    simp only [line_end_loop]
    by_cases hlt : bpos < bsize
    · rw [if_pos hlt]
      have hs : bsize - bpos = (bsize - (bpos + 1)) + 1 := by omega
      rw [hs, buf_bytes_succ]
      by_cases hc : data bpos = LF
      · rw [if_pos hc]
        simp [raw_line, hc]
      · rw [if_neg hc, ih (bpos + 1) (by omega)]
        simp only [raw_line]
        rw [List.takeWhile_cons_of_pos (by simpa using hc)]
        simp only [List.length_cons]
        omega
    · rw [if_neg hlt]
      have h0 : bsize - bpos = 0 := by omega
      simp [h0, buf_bytes_zero, raw_line]

/-- The second loop of `iobuf_readcleanline` removes the trailing CR, TAB and
SPACE bytes. -/
theorem clean_end_spec (data : char_buf) (bbegin : Nat) :
    ∀ (bpos : Nat), bbegin ≤ bpos →
      clean_end data bbegin bpos
        = bbegin + ((buf_bytes data bbegin (bpos - bbegin)).rdropWhile is_blank_cr).length := by
  intro bpos
  induction bpos with
  | zero =>
    intro h
    have h0 : bbegin = 0 := by omega
    subst h0
    simp [clean_end, buf_bytes_zero]
  | succ bpos ih =>
    intro h
    simp only [clean_end]
    by_cases hgt : bpos + 1 > bbegin
    · rw [if_pos hgt]
      have hs : bpos + 1 - bbegin = (bpos - bbegin) + 1 := by omega
      have hb : bbegin + (bpos - bbegin) = bpos := by omega
      rw [hs, buf_bytes_succ_last, hb]
      by_cases hc : data bpos ≠ CR ∧ data bpos ≠ TAB ∧ data bpos ≠ SPACE
      · rw [if_pos hc]
        rw [List.rdropWhile_concat_neg _ _ _ (by simp [is_blank_cr, hc.1, hc.2.1, hc.2.2])]
        simp only [List.length_append, buf_bytes_length, List.length_singleton]
        omega
      · rw [if_neg hc]
        rw [List.rdropWhile_concat_pos _ _ _ (by
          simp only [is_blank_cr, Bool.or_eq_true, decide_eq_true_eq]
          by_contra hn
          exact hc ⟨fun e => hn (Or.inl (Or.inl e)), fun e => hn (Or.inl (Or.inr e)),
            fun e => hn (Or.inr e)⟩)]
        exact ih (by omega)
    · rw [if_neg hgt]
      have h0 : bpos + 1 - bbegin = 0 := by omega
      rw [h0, buf_bytes_zero]
      simp only [List.rdropWhile_nil, List.length_nil]
      omega

theorem raw_line_length_le (s : List Char) : (raw_line s).length ≤ s.length :=
  takeWhile_length_le _ s

theorem rdropWhile_length_le {α : Type} (p : α → Bool) (l : List α) :
    (l.rdropWhile p).length ≤ l.length := by
  simp only [List.rdropWhile, List.length_reverse]
  have := (List.dropWhile_sublist p (l := l.reverse)).length_le
  simpa using this

theorem clean_line_length_le (s : List Char) : (clean_line s).length ≤ (raw_line s).length :=
  rdropWhile_length_le _ _

/-- What `iobuf_readcleanline` does on a buffer with unread bytes: `*begin` is
`&data[pos]`, the value returned is the length of the cleaned first line plus
one, converted to `int`, and `pos` moves to the start of the next line. -/
theorem iobuf_readcleanline_eq (b : iobuf) (h : b.pos < b.size) :
    iobuf_readcleanline b
      = (to_int ((clean_line b.unread).length + 1), some b.pos, { b with pos := b.next_pos }) := by
  have hraw := line_end_loop_spec b.data b.size (b.size - b.pos) b.pos (Nat.le_refl _)
  rw [show buf_bytes b.data b.pos (b.size - b.pos) = b.unread from rfl] at hraw
  have hle : (raw_line b.unread).length ≤ b.size - b.pos := by
    have := raw_line_length_le b.unread
    simpa [iobuf.unread, buf_bytes_length] using this
  have hbytes : buf_bytes b.data b.pos (raw_line b.unread).length = raw_line b.unread := by
    have h1 := takeWhile_eq_take_length (fun c => decide (c ≠ LF)) b.unread
    have h2 := buf_bytes_take b.data b.pos (b.size - b.pos) (raw_line b.unread).length
    rw [Nat.min_eq_left hle] at h2
    rw [← h2]
    exact h1.symm
  have hclean := clean_end_spec b.data b.pos (b.pos + (raw_line b.unread).length)
    (Nat.le_add_right _ _)
  rw [Nat.add_sub_cancel_left, hbytes] at hclean
  have hnlt : ¬ b.pos ≥ b.size := by omega
  simp only [iobuf_readcleanline, if_neg hnlt]
  rw [hraw, hclean]
  simp only [clean_line, Nat.add_sub_cancel_left]
  refine Prod.ext rfl (Prod.ext rfl ?_)
  simp only [iobuf.next_pos]
  have hul : b.unread.length = b.size - b.pos := by simp [iobuf.unread, buf_bytes_length]
  rw [hul]
  by_cases hc : (raw_line b.unread).length < b.size - b.pos
  · have : b.pos + (raw_line b.unread).length < b.size := by omega
    rw [if_pos this, if_pos hc]
  · have : ¬ b.pos + (raw_line b.unread).length < b.size := by omega
    have he : b.pos + (raw_line b.unread).length = b.size := by omega
    rw [if_neg this, if_neg hc, he]


/-! ## Splitting a line: `conf_split_line` gives the words of the line -/

theorem getD_set_ne (l : List Char) (i j : Nat) (c : Char) (h : i ≠ j) :
    (l.set j c).getD i NUL = l.getD i NUL := by
  simp [List.getD_eq_getElem?_getD, List.getElem?_set_ne (Ne.symm h)]

theorem getD_set_nul (l : List Char) (j : Nat) : (l.set j NUL).getD j NUL = NUL := by
  simp only [List.getD_eq_getElem?_getD]
  by_cases h : j < l.length
  · simp [List.getElem?_set, h]
  · rw [List.getElem?_eq_none (by simp; omega)]
    rfl

theorem getD_drop (l : List Char) (p i : Nat) : (l.drop p).getD i NUL = l.getD (p + i) NUL := by
  simp [List.getD_eq_getElem?_getD, List.getElem?_drop]

theorem head_drop_getD (l : List Char) (p : Nat) (c : Char) (cs : List Char)
    (h : l.drop p = c :: cs) : l.getD p NUL = c ∧ l.drop (p + 1) = cs := by
  have h1 : (l.drop p).getD 0 NUL = c := by rw [h]; rfl
  rw [getD_drop] at h1
  have h2 : (l.drop p).drop 1 = cs := by rw [h]; rfl
  rw [List.drop_drop] at h2
  exact ⟨h1, h2⟩

theorem drop_nil_getD (l : List Char) (p : Nat) (h : l.drop p = []) : l.getD p NUL = NUL := by
  have h1 : (l.drop p).getD 0 NUL = NUL := by rw [h]; rfl
  rwa [getD_drop] at h1

/-! ### The two inner loops -/

theorem word_len_le : ∀ s : List Char, word_len s ≤ s.length
  | [] => by simp [word_len]
  | c :: cs => by
    have := word_len_le cs
    simp only [word_len, List.length_cons]
    split
    · split
      · omega
      · omega
    · omega

theorem blank_len_le : ∀ s : List Char, blank_len s ≤ s.length
  | [] => by simp [blank_len]
  | c :: cs => by
    have := blank_len_le cs
    simp only [blank_len, List.length_cons]
    split <;> omega

theorem word_len_pos (s : List Char) (h : starts_word s) : 0 < word_len s := by
  obtain ⟨c, cs, rfl, h0, h1, h2⟩ := h
  simp [word_len, h0, h1, h2]

theorem word_len_zero (s : List Char) (h : ¬ starts_word s) : word_len s = 0 := by
  cases s with
  | nil => rfl
  | cons c cs =>
    simp only [word_len]
    by_cases h0 : c = NUL
    · simp [h0]
    · by_cases h1 : c = TAB ∨ c = SPACE
      · simp [h0, h1]
      · exact absurd ⟨c, cs, rfl, h0, fun e => h1 (Or.inl e), fun e => h1 (Or.inr e)⟩ h

/-- The bytes of a word are none of NUL, TAB, SPACE. -/
theorem word_take_chars : ∀ (s : List Char) (c : Char), c ∈ s.take (word_len s) →
    c ≠ NUL ∧ c ≠ TAB ∧ c ≠ SPACE
  | [], c, h => by simp [word_len] at h
  | d :: ds, c, h => by
    simp only [word_len] at h
    by_cases h0 : d = NUL
    · simp [h0] at h
    · by_cases h1 : d = TAB ∨ d = SPACE
      · simp [h0, h1] at h
      · rw [if_pos h0, if_neg h1, List.take_succ_cons, List.mem_cons] at h
        rcases h with rfl | h
        · exact ⟨h0, fun e => h1 (Or.inl e), fun e => h1 (Or.inr e)⟩
        · exact word_take_chars ds c h

/-- After a word comes the end of the line, a NUL, a TAB or a SPACE. -/
theorem word_drop_not_word : ∀ s : List Char, ¬ starts_word (s.drop (word_len s))
  | [] => by
    rintro ⟨c, cs, h, _⟩
    simp [word_len] at h
  | d :: ds => by
    simp only [word_len]
    by_cases h0 : d = NUL
    · rw [if_neg (by simpa using h0)]
      rintro ⟨c, cs, h, hc, _⟩
      simp only [List.drop_zero, List.cons.injEq] at h
      exact hc (h.1 ▸ h0)
    · by_cases h1 : d = TAB ∨ d = SPACE
      · rw [if_pos h0, if_pos h1]
        rintro ⟨c, cs, h, _, hc1, hc2⟩
        simp only [List.drop_zero, List.cons.injEq] at h
        rcases h1 with e | e
        · exact hc1 (h.1 ▸ e)
        · exact hc2 (h.1 ▸ e)
      · rw [if_pos h0, if_neg h1, List.drop_succ_cons]
        exact word_drop_not_word ds

/-- After the blanks comes the end of the line or a byte other than TAB and
SPACE. -/
theorem blank_drop_head : ∀ (s : List Char) (c : Char) (cs : List Char),
    s.drop (blank_len s) = c :: cs → c ≠ TAB ∧ c ≠ SPACE
  | [], c, cs, h => by simp [blank_len] at h
  | d :: ds, c, cs, h => by
    simp only [blank_len] at h
    by_cases h1 : d = TAB ∨ d = SPACE
    · rw [if_pos h1, List.drop_succ_cons] at h
      exact blank_drop_head ds c cs h
    · rw [if_neg h1] at h
      simp only [List.drop_zero, List.cons.injEq] at h
      exact ⟨fun e => h1 (Or.inl (h.1 ▸ e)), fun e => h1 (Or.inr (h.1 ▸ e))⟩

theorem blank_len_pos_head (s : List Char) (h : 0 < blank_len s) :
    ∃ c cs, s = c :: cs ∧ (c = TAB ∨ c = SPACE) := by
  cases s with
  | nil => simp [blank_len] at h
  | cons c cs =>
    refine ⟨c, cs, rfl, ?_⟩
    by_contra hn
    simp [blank_len, hn] at h

/-! ### The words of a line -/

theorem words_go_nil_or (s : List Char) (cur : List Char)
    (h : s = [] ∨ ∃ cs, s = NUL :: cs) :
    words_go s cur = if cur = [] then [] else [cur.reverse] := by
  rcases h with rfl | ⟨cs, rfl⟩
  · rfl
  · simp [words_go]

theorem line_words_not_word_nul (s : List Char) (h : s = [] ∨ ∃ cs, s = NUL :: cs) :
    line_words s = [] := by
  simp [line_words, words_go_nil_or s [] h]

/-- Leading blanks do not count. -/
theorem line_words_blank : ∀ s : List Char, line_words (s.drop (blank_len s)) = line_words s
  | [] => by simp [blank_len]
  | c :: cs => by
    simp only [blank_len]
    by_cases h1 : c = TAB ∨ c = SPACE
    · rw [if_pos h1, List.drop_succ_cons, line_words_blank cs]
      have h0 : c ≠ NUL := by
        rcases h1 with e | e <;> (rw [e]; decide)
      simp [line_words, words_go, h0, h1]
    · rw [if_neg h1]
      rfl

theorem words_go_word : ∀ (s : List Char) (cur : List Char),
    words_go s cur = words_go (s.drop (word_len s)) ((s.take (word_len s)).reverse ++ cur)
  | [], cur => by simp [word_len]
  | c :: cs, cur => by
    simp only [word_len]
    by_cases h0 : c = NUL
    · simp [h0]
    · by_cases h1 : c = TAB ∨ c = SPACE
      · simp [h0, h1]
      · rw [if_pos h0, if_neg h1, List.drop_succ_cons, List.take_succ_cons]
        have := words_go_word cs (c :: cur)
        simp only [words_go, h0, h1, if_false]
        rw [this]
        simp

theorem words_go_after_word (s : List Char) (cur : List Char) (hs : ¬ starts_word s)
    (hc : cur ≠ []) : words_go s cur = cur.reverse :: line_words s := by
  cases s with
  | nil => simp [words_go, line_words, hc]
  | cons c cs =>
    by_cases h0 : c = NUL
    · simp [words_go, line_words, h0, hc]
    · by_cases h1 : c = TAB ∨ c = SPACE
      · simp [words_go, line_words, h0, h1, hc]
      · exact absurd ⟨c, cs, rfl, h0, fun e => h1 (Or.inl e), fun e => h1 (Or.inr e)⟩ hs

/-- A line that starts with a word: the word, then the words of the rest. -/
theorem line_words_word (s : List Char) (h : starts_word s) :
    line_words s = s.take (word_len s) :: line_words (s.drop (word_len s)) := by
  have hw := word_len_pos s h
  have hne : (s.take (word_len s)).reverse ++ [] ≠ [] := by
    obtain ⟨c, cs, rfl, _⟩ := h
    have : word_len (c :: cs) = (word_len (c :: cs) - 1) + 1 := by omega
    rw [this]
    simp
  rw [line_words, words_go_word s [], words_go_after_word _ _ (word_drop_not_word s) hne]
  simp

/-! ### The C string at a token -/

theorem cstr_at_token : ∀ (tok F : List Char) (pos : Nat), (∀ c ∈ tok, c ≠ NUL) →
    (∀ i, i < tok.length → F.getD (pos + i) NUL = tok.getD i NUL) →
    F.getD (pos + tok.length) NUL = NUL → cstr_at F pos = tok
  | [], F, pos, _, _, h3 => by
    simp only [List.length_nil, Nat.add_zero] at h3
    simp only [cstr_at]
    cases h : F.drop pos with
    | nil => rfl
    | cons c cs =>
      have hc : c = NUL := (head_drop_getD F pos c cs h).1.symm.trans h3
      rw [List.takeWhile_cons_of_neg]
      simp [hc]
  | t :: ts, F, pos, h1, h2, h3 => by
    have ht : F.getD pos NUL = t := by
      have := h2 0 (by simp)
      simpa using this
    have ht0 : t ≠ NUL := h1 t (List.mem_cons_self _ _)
    simp only [cstr_at]
    cases h : F.drop pos with
    | nil => exact absurd ((drop_nil_getD F pos h).symm.trans ht).symm ht0
    | cons c cs =>
      have hh := head_drop_getD F pos c cs h
      have hc : c = t := hh.1.symm.trans ht
      rw [List.takeWhile_cons_of_pos (by simpa [hc] using ht0), hc, ← hh.2]
      congr 1
      apply cstr_at_token ts F (pos + 1) (fun c hc => h1 c (List.mem_cons_of_mem _ hc))
      · intro i hi
        have := h2 (i + 1) (by simpa using hi)
        simpa [Nat.add_assoc, Nat.add_comm 1 i] using this
      · simpa [Nat.add_assoc, Nat.add_comm 1] using h3

theorem getD_take_lt (s : List Char) (w i : Nat) (h : i < w) :
    (s.take w).getD i NUL = s.getD i NUL := by
  simp [List.getD_eq_getElem?_getD, List.getElem?_take_of_lt h]

/-- The C string at the start of a word, in a line that still holds the word
and the NUL stored behind it, is the word. -/
theorem token_cstr (line F : List Char) (pos : Nat)
    (hF : ∀ i, i ≤ pos + word_len (line.drop pos) →
      F.getD i NUL = (line.set (pos + word_len (line.drop pos)) NUL).getD i NUL) :
    cstr_at F pos = (line.drop pos).take (word_len (line.drop pos)) := by
  have hlen : ((line.drop pos).take (word_len (line.drop pos))).length
      = word_len (line.drop pos) := by
    rw [List.length_take]
    exact Nat.min_eq_left (word_len_le _)
  apply cstr_at_token
  · intro c hc
    exact (word_take_chars _ c hc).1
  · intro i hi
    rw [hlen] at hi
    rw [hF (pos + i) (by omega), getD_set_ne _ _ _ _ (by omega), getD_take_lt _ _ _ hi,
      getD_drop]
  · rw [hlen, hF _ (Nat.le_refl _), getD_set_nul]

/-! ### The loop of `conf_split_line` -/

theorem conf_split_line_loop_step (argc_max : Int) (fuel : Nat) (line : List Char)
    (argv : List Nat) (argc pos : Nat) (h : (argc : Int) < argc_max) :
    conf_split_line_loop argc_max (fuel + 1) line argv argc pos =
      if (line.set (pos + word_len (line.drop pos)) NUL).getD
          (pos + word_len (line.drop pos)
            + blank_len (line.drop (pos + word_len (line.drop pos)))) NUL = NUL then
        some (line.set (pos + word_len (line.drop pos)) NUL, argv.take argc ++ [pos],
          (if word_len (line.drop pos) > 0 then argc + 1 else argc),
          pos + word_len (line.drop pos)
            + blank_len (line.drop (pos + word_len (line.drop pos))))
      else
        conf_split_line_loop argc_max fuel (line.set (pos + word_len (line.drop pos)) NUL)
          (argv.take argc ++ [pos]) (if word_len (line.drop pos) > 0 then argc + 1 else argc)
          (pos + word_len (line.drop pos)
            + blank_len (line.drop (pos + word_len (line.drop pos)))) := by
  simp only [conf_split_line_loop, if_pos h, Nat.add_sub_cancel_left]

/-- What stands where the blanks behind a word end: the end of the line, a
NUL, or the first byte of the next word. -/
theorem after_blanks (line : List Char) (p : Nat) :
    (line.drop (p + blank_len (line.drop p)) = [] ∨
      ∃ cs, line.drop (p + blank_len (line.drop p)) = NUL :: cs) ∨
    starts_word (line.drop (p + blank_len (line.drop p))) := by
  cases h : line.drop (p + blank_len (line.drop p)) with
  | nil => exact Or.inl (Or.inl rfl)
  | cons c cs =>
    by_cases h0 : c = NUL
    · exact Or.inl (Or.inr ⟨cs, by rw [h0]⟩)
    · have hb := blank_drop_head (line.drop p) c cs (by rw [List.drop_drop]; exact h)
      exact Or.inr ⟨c, cs, rfl, h0, hb.1, hb.2⟩

theorem starts_word_getD (line : List Char) (p : Nat) (h : starts_word (line.drop p)) :
    line.getD p NUL ≠ NUL ∧ p < line.length := by
  obtain ⟨c, cs, hd, h0, _⟩ := h
  have := (head_drop_getD line p c cs hd).1
  refine ⟨by rw [this]; exact h0, ?_⟩
  by_contra hn
  rw [List.drop_eq_nil_of_le (by omega)] at hd
  cases hd

/-- The loop of `conf_split_line`, entered at the first byte of a word (or with
`argv` full): it returns, having stored the offsets of the next words of the
line, as many as `argv` has room for; the C strings at these offsets are the
words, and the line is as it was before `pos`. -/
theorem conf_split_line_loop_words (amax : Nat) :
    ∀ (fuel : Nat) (line : List Char) (argv : List Nat) (argc pos : Nat),
      line.length - pos < fuel → argc ≤ argv.length → (amax ≤ argc → argv.length = argc) →
      (argc < amax → starts_word (line.drop pos)) →
      ∃ line1 offs pos1,
        conf_split_line_loop (amax : Int) fuel line argv argc pos
          = some (line1, argv.take argc ++ offs, argc + offs.length, pos1) ∧
        offs.map (cstr_at (line1.set (pos1 + 1) NUL))
          = (line_words (line.drop pos)).take (amax - argc) ∧
        (∀ i, i < pos → line1.getD i NUL = line.getD i NUL) ∧ pos ≤ pos1 := by
  intro fuel
  induction fuel with
  | zero => intro line argv argc pos h; omega
  | succ fuel ih =>
    intro line argv argc pos hf hargv hfull hstart
    by_cases hlt : argc < amax
    · have hs := hstart hlt
      have hw := word_len_pos _ hs
      have hltI : (argc : Int) < (amax : Int) := by exact_mod_cast hlt
      rw [conf_split_line_loop_step _ _ _ _ _ _ hltI, if_pos hw]
      have htake : (argv.take argc).length = argc := by
        rw [List.length_take]; exact Nat.min_eq_left hargv
      -- the words of the line from `pos` on
      have hwords : line_words (line.drop pos)
          = (line.drop pos).take (word_len (line.drop pos)) ::
            line_words (line.drop (pos + word_len (line.drop pos)
              + blank_len (line.drop (pos + word_len (line.drop pos))))) := by
        rw [line_words_word _ hs, List.drop_drop, ← line_words_blank (line.drop _),
          List.drop_drop]
      have hsub : amax - argc = (amax - (argc + 1)) + 1 := by omega
      generalize hle : pos + word_len (line.drop pos) = le at *
      generalize hp1 : le + blank_len (line.drop le) = p1 at *
      have hlep : le ≤ p1 := by omega
      have hposle : pos < le := by omega
      by_cases hend : (line.set le NUL).getD p1 NUL = NUL
      · rw [if_pos hend]
        refine ⟨line.set le NUL, [pos], p1, rfl, ?_, ?_, by omega⟩
        · have hnil : line_words (line.drop p1) = [] := by
            rcases (hp1 ▸ after_blanks line le) with h | h
            · exact line_words_not_word_nul _ h
            · exfalso
              have hg := starts_word_getD line p1 h
              by_cases he : p1 = le
              · have hb : blank_len (line.drop le) = 0 := by omega
                rw [he] at h
                have := word_drop_not_word (line.drop pos)
                rw [List.drop_drop, hle] at this
                exact this h
              · rw [getD_set_ne _ _ _ _ he] at hend
                exact hg.1 hend
          rw [hwords, hsub, List.take_succ_cons, hnil, List.take_nil, List.map_singleton]
          congr 1
          have := token_cstr line ((line.set le NUL).set (p1 + 1) NUL) pos
          rw [hle] at this
          exact this (fun i hi => getD_set_ne _ _ _ _ (by omega))
        · intro i hi
          exact getD_set_ne _ _ _ _ (by omega)
      · rw [if_neg hend]
        have hne : p1 ≠ le := by
          intro he
          rw [he] at hend
          exact hend (getD_set_nul _ _)
        have hlt1 : le < p1 := by omega
        have hdrop : (line.set le NUL).drop p1 = line.drop p1 :=
          List.drop_set_of_lt _ _ hlt1
        have hsw : starts_word (line.drop p1) := by
          rcases (hp1 ▸ after_blanks line le) with h | h
          · exfalso
            rw [getD_set_ne _ _ _ _ hne] at hend
            rcases h with h | ⟨cs, h⟩
            · exact hend (drop_nil_getD _ _ h)
            · exact hend (head_drop_getD _ _ _ _ h).1
          · exact h
        have hp1lt := (starts_word_getD line p1 hsw).2
        have hlen1 : (argv.take argc ++ [pos]).length = argc + 1 := by
          rw [List.length_append, htake]; rfl
        obtain ⟨line2, offs, pos2, hrun, hstr, hframe, hpos2⟩ :=
          ih (line.set le NUL) (argv.take argc ++ [pos]) (argc + 1) p1
            (by rw [List.length_set]; omega) (by omega) (fun _ => hlen1)
            (fun _ => by rw [hdrop]; exact hsw)
        have htk : (argv.take argc ++ [pos]).take (argc + 1) = argv.take argc ++ [pos] :=
          List.take_of_length_le (by omega)
        refine ⟨line2, pos :: offs, pos2, ?_, ?_, ?_, by omega⟩
        · rw [hrun, htk]
          simp only [List.append_assoc, List.singleton_append, List.length_cons]
          congr 4
          omega
        · rw [hwords, hsub, List.take_succ_cons, List.map_cons, hstr, hdrop]
          congr 1
          have := token_cstr line (line2.set (pos2 + 1) NUL) pos
          rw [hle] at this
          apply this
          intro i hi
          rw [getD_set_ne _ _ _ _ (by omega), hframe i (by omega)]
        · intro i hi
          rw [hframe i (by omega)]
          exact getD_set_ne _ _ _ _ (by omega)
    · have hge : amax ≤ argc := by omega
      have hnI : ¬ (argc : Int) < (amax : Int) := by
        intro h
        exact hlt (by exact_mod_cast h)
      refine ⟨line, [], pos, ?_, ?_, fun _ _ => rfl, Nat.le_refl _⟩
      · simp only [conf_split_line_loop, if_neg hnI, List.append_nil, List.length_nil,
          Nat.add_zero]
        rw [List.take_of_length_le (by rw [hfull hge])]
      · have : amax - argc = 0 := by omega
        rw [this]
        rfl

theorem line_words_ne_nil (s : List Char) (h : starts_word s) (amax : Nat) (hmax : 0 < amax) :
    (line_words s).take amax ≠ [] := by
  rw [line_words_word s h]
  obtain ⟨k, rfl⟩ : ∃ k, amax = k + 1 := ⟨amax - 1, by omega⟩
  simp

/-- The function `conf_split_line` returns: `argc` is the number of words of the line, at
most `argc_max`, and the strings that `argv` points at are these words, in
order; when the line has no word, `argv[0]` points at the empty string. -/
theorem conf_split_line_words (amax : Nat) (hmax : 0 < amax) (line : List Char) :
    ∃ final, conf_split_line (amax : Int) line
      = some (((line_words line).take amax).length,
          (if (line_words line).take amax = [] then [[]] else (line_words line).take amax),
          final) := by
  by_cases hs : starts_word line
  · obtain ⟨line1, offs, pos1, hrun, hstr, _, _⟩ :=
      conf_split_line_loop_words amax (line.length + 1) line [] 0 0 (by omega)
        (Nat.le_refl _) (fun h => by omega) (fun _ => hs)
    simp only [List.drop_zero, Nat.sub_zero] at hstr
    refine ⟨line1.set (pos1 + 1) NUL, ?_⟩
    simp only [conf_split_line, hrun, List.take_nil, List.nil_append, Nat.zero_add, hstr,
      if_neg (line_words_ne_nil line hs amax hmax)]
    rw [← hstr, List.length_map]
  · have hw0 : word_len line = 0 := word_len_zero line hs
    have hmaxI : ((0 : Nat) : Int) < (amax : Int) := by exact_mod_cast hmax
    have hstep := conf_split_line_loop_step (amax : Int) line.length line [] 0 0 hmaxI
    simp only [List.drop_zero, hw0, Nat.add_zero, Nat.zero_add, List.take_nil, List.nil_append,
      Nat.lt_irrefl, if_false, gt_iff_lt] at hstep
    have hab := after_blanks line 0
    simp only [List.drop_zero, Nat.zero_add] at hab
    by_cases hend : (line.set 0 NUL).getD (blank_len line) NUL = NUL
    · rw [if_pos hend] at hstep
      have hnil : line_words line = [] := by
        rw [← line_words_blank line]
        rcases hab with h | h
        · exact line_words_not_word_nul _ h
        · exfalso
          have hg := starts_word_getD line _ h
          by_cases hb : blank_len line = 0
          · rw [hb] at h
            exact hs h
          · rw [getD_set_ne _ _ _ _ hb] at hend
            exact hg.1 hend
      refine ⟨(line.set 0 NUL).set (blank_len line + 1) NUL, ?_⟩
      simp only [conf_split_line, hstep, hnil, List.take_nil, List.length_nil, if_true,
        List.map_cons, List.map_nil]
      have : cstr_at ((line.set 0 NUL).set (blank_len line + 1) NUL) 0 = [] := by
        apply cstr_at_token [] _ 0 (fun c hc => by cases hc) (fun i hi => by cases hi)
        simp only [List.length_nil, Nat.add_zero]
        rw [getD_set_ne _ _ _ _ (by omega), getD_set_nul]
      rw [this]
    · rw [if_neg hend] at hstep
      have hb : blank_len line ≠ 0 := by
        intro hb
        rw [hb] at hend
        exact hend (getD_set_nul _ _)
      rw [getD_set_ne _ _ _ _ hb] at hend
      have hsw : starts_word (line.drop (blank_len line)) := by
        rcases hab with h | h
        · exfalso
          rcases h with h | ⟨cs, h⟩
          · exact hend (drop_nil_getD _ _ h)
          · exact hend (head_drop_getD _ _ _ _ h).1
        · exact h
      have hlt := (starts_word_getD line _ hsw).2
      have hdrop : (line.set 0 NUL).drop (blank_len line) = line.drop (blank_len line) :=
        List.drop_set_of_lt _ _ (by omega)
      obtain ⟨line2, offs, pos2, hrun, hstr, _, _⟩ :=
        conf_split_line_loop_words amax line.length (line.set 0 NUL) [0] 0 (blank_len line)
          (by rw [List.length_set]; omega) (by simp) (fun h => by omega)
          (fun _ => by rw [hdrop]; exact hsw)
      rw [hdrop, line_words_blank, Nat.sub_zero] at hstr
      have hne : (line_words line).take amax ≠ [] := by
        rw [← line_words_blank line]
        exact line_words_ne_nil _ hsw amax hmax
      refine ⟨line2.set (pos2 + 1) NUL, ?_⟩
      simp only [conf_split_line, hstep, hrun, List.take_zero, List.nil_append, Nat.zero_add,
        hstr, if_neg hne]
      rw [← hstr, List.length_map]

/-- The bytes behind the first NUL of a line do not count. -/
theorem words_go_append_nul : ∀ (s t cur : List Char),
    words_go (s ++ NUL :: t) cur = words_go s cur
  | [], t, cur => by simp [words_go]
  | c :: cs, t, cur => by
    have h1 := words_go_append_nul cs t []
    have h2 := words_go_append_nul cs t (c :: cur)
    rw [List.cons_append]
    simp only [words_go, h1, h2]

theorem line_words_append_nul (s t : List Char) : line_words (s ++ NUL :: t) = line_words s :=
  words_go_append_nul s t []


/-! ## The line loop of `conf_if_load` -/

theorem to_int_small (n : Nat) (h : n ≤ INT_MAX) : to_int n = (n : Int) := by
  have h1 : n % 4294967296 = n := Nat.mod_eq_of_lt (by simp only [INT_MAX] at h; omega)
  simp only [to_int, h1, if_pos h]

theorem iobuf_next_pos_bounds (b : iobuf) (h : b.pos < b.size) :
    b.pos < b.next_pos ∧ b.next_pos ≤ b.size := by
  have hul : b.unread.length = b.size - b.pos := by simp [iobuf.unread, buf_bytes_length]
  simp only [iobuf.next_pos, hul]
  split <;> omega

theorem buf_bytes_drop (data : char_buf) (a n k : Nat) :
    (buf_bytes data a n).drop k = buf_bytes data (a + k) (n - k) := by
  induction k generalizing a n with
  | zero => simp
  | succ k ih =>
    cases n with
    | zero => simp [buf_bytes_zero]
    | succ n =>
      rw [buf_bytes_succ, List.drop_succ_cons, ih]
      congr 1
      · omega
      · omega

theorem buf_bytes_getD (data : char_buf) (a n k : Nat) (h : k < n) :
    (buf_bytes data a n).getD k NUL = data (a + k) := by
  simp [buf_bytes, List.getD_eq_getElem?_getD, h]

theorem drop_takeWhile_length {α : Type} (p : α → Bool) (l : List α) :
    l.drop (l.takeWhile p).length = l.dropWhile p := by
  induction l with
  | nil => rfl
  | cons a l ih =>
    by_cases h : p a
    · rw [List.takeWhile_cons_of_pos h, List.dropWhile_cons_of_pos h, List.length_cons,
        List.drop_succ_cons, ih]
    · rw [List.takeWhile_cons_of_neg h, List.dropWhile_cons_of_neg h]
      rfl

/-- The cleaned line is what stands in the buffer from `pos` on. -/
theorem clean_line_bytes (b : iobuf) :
    buf_bytes b.data b.pos (clean_line b.unread).length = clean_line b.unread := by
  have hp : clean_line b.unread <+: b.unread :=
    (List.rdropWhile_prefix _ _).trans (List.takeWhile_prefix _)
  have hle : (clean_line b.unread).length ≤ b.size - b.pos := by
    have := hp.length_le
    simpa [iobuf.unread, buf_bytes_length] using this
  have h2 := buf_bytes_take b.data b.pos (b.size - b.pos) (clean_line b.unread).length
  rw [Nat.min_eq_left hle] at h2
  rw [← h2]
  exact (List.prefix_iff_eq_take.mp hp).symm

/-- The loop of `conf_if_load` that skips the leading TAB and SPACE bytes. -/
theorem skip_blank_spec (data : char_buf) : ∀ (n b : Nat),
    skip_blank data n b
      = (b + ((buf_bytes data b n).takeWhile is_blank).length,
         n - ((buf_bytes data b n).takeWhile is_blank).length)
  | 0, b => by simp [skip_blank, buf_bytes_zero]
  | n + 1, b => by
    rw [skip_blank, buf_bytes_succ]
    by_cases h : data b ≠ TAB ∧ data b ≠ SPACE
    · rw [if_pos h, List.takeWhile_cons_of_neg (by simp [is_blank, h.1, h.2])]
      simp
    · rw [if_neg h, skip_blank_spec data n (b + 1),
        List.takeWhile_cons_of_pos (by
          simp only [is_blank, Bool.or_eq_true, decide_eq_true_eq]
          by_contra hn
          exact h ⟨fun e => hn (Or.inl e), fun e => hn (Or.inr e)⟩)]
      simp only [List.length_cons]
      congr 1 <;> omega

theorem line_text_eq_drop (b : iobuf) :
    b.line_text = (clean_line b.unread).drop
      ((clean_line b.unread).takeWhile is_blank).length :=
  (drop_takeWhile_length _ _).symm

theorem line_text_bytes (b : iobuf) :
    buf_bytes b.data (b.pos + ((clean_line b.unread).takeWhile is_blank).length)
      ((clean_line b.unread).length - ((clean_line b.unread).takeWhile is_blank).length)
      = b.line_text := by
  rw [← buf_bytes_drop, clean_line_bytes, line_text_eq_drop]

theorem line_text_length (b : iobuf) :
    b.line_text.length
      = (clean_line b.unread).length - ((clean_line b.unread).takeWhile is_blank).length := by
  rw [line_text_eq_drop, List.length_drop]

theorem line_text_head (b : iobuf) (h : b.line_text ≠ []) :
    b.line_text.head?
      = some (b.data (b.pos + ((clean_line b.unread).takeWhile is_blank).length)) := by
  have hlen := line_text_length b
  have hpos : 0 < b.line_text.length := List.length_pos.mpr h
  rw [← line_text_bytes b]
  generalize ((clean_line b.unread).takeWhile is_blank).length = k at *
  generalize (clean_line b.unread).length = L at *
  obtain ⟨m, hm⟩ : ∃ m, L - k = m + 1 := ⟨L - k - 1, by omega⟩
  rw [hm, buf_bytes_succ]
  rfl

/-- One turn of the line loop of `conf_if_load` on a buffer with unread bytes
whose first line is shorter than `INT_MAX`, told by the text of the line: a
line without text, or with a text that begins with `#`, is passed over; for
any other line the line buffer is made large enough, the text is split into at
most eight words and the option named by the first is looked up and
handled. -/
theorem conf_if_load_line_eq {α : Type} (opts : List (conf_opt α)) (envs : Nat → line_env)
    (ctx : conf_ctx α) (iob : iobuf) (ls : Nat) (h : iob.pos < iob.size)
    (hL : (clean_line iob.unread).length < INT_MAX) :
    conf_if_load_line opts envs ctx iob ls =
      if iob.line_text = [] then some (line_step.next ctx iob.advance ls [])
      else if iob.line_text.head? = some '#' then some (line_step.next ctx iob.advance ls [])
      else if iob.line_text.length + 2 > ls ∧ (envs ctx.line).line_ok = false then
        some (line_step.stop (-2) ctx iob.advance [])
      else if (conf_if_load_opt opts (envs ctx.line).heap ctx
          (if (line_words iob.line_text).take 8 = [] then [[]]
            else (line_words iob.line_text).take 8)
          (((line_words iob.line_text).take 8).length : Int)).1 < -1 then
        some (line_step.stop
          (conf_if_load_opt opts (envs ctx.line).heap ctx
            (if (line_words iob.line_text).take 8 = [] then [[]]
              else (line_words iob.line_text).take 8)
            (((line_words iob.line_text).take 8).length : Int)).1
          (conf_if_load_opt opts (envs ctx.line).heap ctx
            (if (line_words iob.line_text).take 8 = [] then [[]]
              else (line_words iob.line_text).take 8)
            (((line_words iob.line_text).take 8).length : Int)).2
          iob.advance
          (conf_if_load_call opts
            (if (line_words iob.line_text).take 8 = [] then [[]]
              else (line_words iob.line_text).take 8)
            (((line_words iob.line_text).take 8).length : Int)).toList)
      else
        some (line_step.next
          (conf_if_load_opt opts (envs ctx.line).heap ctx
            (if (line_words iob.line_text).take 8 = [] then [[]]
              else (line_words iob.line_text).take 8)
            (((line_words iob.line_text).take 8).length : Int)).2
          iob.advance
          (if iob.line_text.length + 2 > ls then
            ((iob.line_text.length + 2 + (LINE_PAGE_SIZE - 1)) / LINE_PAGE_SIZE) * LINE_PAGE_SIZE
           else ls)
          (conf_if_load_call opts
            (if (line_words iob.line_text).take 8 = [] then [[]]
              else (line_words iob.line_text).take 8)
            (((line_words iob.line_text).take 8).length : Int)).toList) := by
  have hr := iobuf_readcleanline_eq iob h
  rw [to_int_small _ (by omega)] at hr
  have hsk := skip_blank_spec iob.data (clean_line iob.unread).length iob.pos
  rw [clean_line_bytes] at hsk
  have h1 : ¬ ((((clean_line iob.unread).length + 1 : Nat) : Int) < 1) := by omega
  have h2 : ((((clean_line iob.unread).length + 1 : Nat) : Int) - 1).toNat
      = (clean_line iob.unread).length := by omega
  have hlen := line_text_length iob
  have hbytes := line_text_bytes iob
  rw [← hlen] at hbytes hsk
  obtain ⟨final, hsplit⟩ := conf_split_line_words 8 (by omega) (iob.line_text ++ [NUL, NUL])
  rw [line_words_append_nul] at hsplit
  simp only [conf_if_load_line, hr, if_neg h1, h2, Option.getD_some, hsk, hbytes]
  by_cases he : iob.line_text = []
  · rw [if_pos he, if_pos (by rw [he]; rfl)]
    rfl
  · have hne : ¬ iob.line_text.length = 0 := fun e => he (List.length_eq_zero.mp e)
    rw [if_neg he, if_neg hne]
    have hhead := line_text_head iob he
    by_cases hc : iob.line_text.head? = some '#'
    · rw [if_pos hc, if_pos (by rw [hhead] at hc; exact Option.some.inj hc)]
      rfl
    · rw [if_neg hc, if_neg (by rw [hhead] at hc; exact fun e => hc (congrArg some e))]
      simp only [decide_eq_true_eq]
      by_cases hg : iob.line_text.length + 2 > ls ∧ (envs ctx.line).line_ok = false
      · rw [if_pos hg, if_pos hg]
        rfl
      · rw [if_neg hg, if_neg hg]
        have hcast : ((8 : Nat) : Int) = 8 := rfl
        rw [← hcast, hsplit]
        simp only []
        split <;> rfl

/-- One turn of the line loop always comes to an end. -/
theorem conf_if_load_line_total {α : Type} (opts : List (conf_opt α)) (envs : Nat → line_env)
    (ctx : conf_ctx α) (iob : iobuf) (ls : Nat) :
    ∃ st, conf_if_load_line opts envs ctx iob ls = some st := by
  simp only [conf_if_load_line]
  split
  · exact ⟨_, rfl⟩
  · split
    · exact ⟨_, rfl⟩
    · split
      · exact ⟨_, rfl⟩
      · split
        · exact ⟨_, rfl⟩
        · generalize buf_bytes _ _ _ ++ [NUL, NUL] = line
          obtain ⟨final, hs⟩ := conf_split_line_words 8 (by omega) line
          have hcast : ((8 : Nat) : Int) = 8 := rfl
          rw [hcast] at hs
          rw [hs]
          simp only []
          generalize conf_if_load_opt opts _ ctx _ _ = hres
          by_cases hc : hres.1 < -1
          · rw [if_pos hc]; exact ⟨_, rfl⟩
          · rw [if_neg hc]; exact ⟨_, rfl⟩

/-- A turn of the line loop that goes on to the next line has read a line. -/
theorem conf_if_load_line_next {α : Type} (opts : List (conf_opt α)) (envs : Nat → line_env)
    (ctx : conf_ctx α) (iob : iobuf) (ls : Nat) (ctx1 : conf_ctx α) (iob1 : iobuf) (ls1 : Nat)
    (calls : List opt_call)
    (h : conf_if_load_line opts envs ctx iob ls = some (line_step.next ctx1 iob1 ls1 calls)) :
    iob.pos < iob.size ∧ iob1 = iob.advance := by
  have key : ¬ (iobuf_readcleanline iob).1 < 1 ∧ iob1 = (iobuf_readcleanline iob).2.2 := by
    simp only [conf_if_load_line] at h
    split at h
    · cases h
    · rename_i h1
      refine ⟨h1, ?_⟩
      split at h
      · cases h; rfl
      · split at h
        · cases h; rfl
        · split at h
          · cases h
          · split at h
            · cases h
            · split at h
              · cases h
              · cases h; rfl
  by_cases hp : iob.pos < iob.size
  · refine ⟨hp, ?_⟩
    rw [key.2, iobuf_readcleanline_eq iob hp]
    rfl
  · exfalso
    apply key.1
    have : iob.pos ≥ iob.size := by omega
    simp only [iobuf_readcleanline, if_pos this]
    decide

theorem conf_if_load_loop_total {α : Type} (opts : List (conf_opt α)) (envs : Nat → line_env) :
    ∀ (fuel : Nat) (ctx : conf_ctx α) (iob : iobuf) (ls : Nat), iob.size - iob.pos < fuel →
      ∃ r, conf_if_load_loop opts envs fuel ctx iob ls = some r := by
  intro fuel
  induction fuel with
  | zero => intro ctx iob ls h; omega
  | succ fuel ih =>
    intro ctx iob ls h
    obtain ⟨st, hst⟩ := conf_if_load_line_total opts envs ctx iob ls
    rw [conf_if_load_loop, hst]
    cases st with
    | stop fnret ctx1 iob1 calls => exact ⟨_, rfl⟩
    | next ctx1 iob1 ls1 calls =>
      obtain ⟨hp, rfl⟩ := conf_if_load_line_next _ _ _ _ _ _ _ _ _ hst
      have hb := iobuf_next_pos_bounds iob hp
      obtain ⟨r, hr⟩ := ih { ctx1 with line := ctx1.line + 1 } iob.advance ls1 (by
        show iob.size - iob.next_pos < fuel
        omega)
      simp only [hr]
      exact ⟨_, rfl⟩

theorem conf_if_load_loop_succ {α : Type} (opts : List (conf_opt α)) (envs : Nat → line_env) :
    ∀ (fuel : Nat) (ctx : conf_ctx α) (iob : iobuf) (ls : Nat)
      (r : Int × conf_ctx α × iobuf × List opt_call),
      conf_if_load_loop opts envs fuel ctx iob ls = some r →
      conf_if_load_loop opts envs (fuel + 1) ctx iob ls = some r := by
  intro fuel
  induction fuel with
  | zero => intro ctx iob ls r h; simp [conf_if_load_loop] at h
  | succ fuel ih =>
    intro ctx iob ls r h
    rw [conf_if_load_loop] at h ⊢
    cases hst : conf_if_load_line opts envs ctx iob ls with
    | none => rw [hst] at h; cases h
    | some st =>
      rw [hst] at h
      cases st with
      | stop fnret ctx1 iob1 calls => exact h
      | next ctx1 iob1 ls1 calls =>
        simp only at h ⊢
        cases hrec : conf_if_load_loop opts envs fuel { ctx1 with line := ctx1.line + 1 }
            iob1 ls1 with
        | none => rw [hrec] at h; cases h
        | some r1 =>
          rw [hrec] at h
          rw [ih _ _ _ _ hrec]
          exact h

theorem conf_if_load_loop_mono {α : Type} (opts : List (conf_opt α)) (envs : Nat → line_env)
    (f f1 : Nat) (ctx : conf_ctx α) (iob : iobuf) (ls : Nat)
    (r : Int × conf_ctx α × iobuf × List opt_call)
    (h : conf_if_load_loop opts envs f ctx iob ls = some r) (hf : f ≤ f1) :
    conf_if_load_loop opts envs f1 ctx iob ls = some r := by
  induction hf with
  | refl => exact h
  | step _ ih => exact conf_if_load_loop_succ _ _ _ _ _ _ _ ih

/-- The line loop of `conf_if_load` returns, whatever state it is entered in. -/
theorem conf_if_load_from_total {α : Type} (opts : List (conf_opt α)) (envs : Nat → line_env)
    (ctx : conf_ctx α) (iob : iobuf) (ls : Nat) :
    ∃ r, conf_if_load_from opts envs ctx iob ls = some r :=
  conf_if_load_loop_total opts envs _ ctx iob ls (Nat.lt_succ_self _)

/-- A turn that leaves the loop gives the result of the loop. -/
theorem conf_if_load_from_stop {α : Type} (opts : List (conf_opt α)) (envs : Nat → line_env)
    (ctx : conf_ctx α) (iob : iobuf) (ls : Nat) (fnret : Int) (ctx1 : conf_ctx α)
    (iob1 : iobuf) (calls : List opt_call)
    (h : conf_if_load_line opts envs ctx iob ls = some (line_step.stop fnret ctx1 iob1 calls)) :
    conf_if_load_from opts envs ctx iob ls = some (fnret, ctx1, iob1, calls) := by
  simp only [conf_if_load_from, conf_if_load_loop, h]

/-- A turn that goes on hands the loop over to the next line; the handlers
called are the one of this turn followed by those of the rest of the loop. -/
theorem conf_if_load_from_next {α : Type} (opts : List (conf_opt α)) (envs : Nat → line_env)
    (ctx : conf_ctx α) (iob : iobuf) (ls : Nat) (ctx1 : conf_ctx α) (iob1 : iobuf) (ls1 : Nat)
    (calls : List opt_call)
    (h : conf_if_load_line opts envs ctx iob ls = some (line_step.next ctx1 iob1 ls1 calls)) :
    ∃ r, conf_if_load_from opts envs { ctx1 with line := ctx1.line + 1 } iob1 ls1 = some r ∧
      conf_if_load_from opts envs ctx iob ls = some (r.1, r.2.1, r.2.2.1, calls ++ r.2.2.2) := by
  obtain ⟨hp, rfl⟩ := conf_if_load_line_next _ _ _ _ _ _ _ _ _ h
  have hb := iobuf_next_pos_bounds iob hp
  obtain ⟨r, hr⟩ := conf_if_load_from_total opts envs { ctx1 with line := ctx1.line + 1 }
    iob.advance ls1
  refine ⟨r, hr, ?_⟩
  have hm := conf_if_load_loop_mono opts envs _ (iob.size - iob.pos) _ _ _ _ hr (by
    show iob.size - iob.next_pos + 1 ≤ iob.size - iob.pos
    omega)
  simp only [conf_if_load_from, conf_if_load_loop, h, hm]

/-- The record of the handler called agrees with what `conf_if_load_opt`
does: without a call the context is handed back with `ret = 0`, with a call
the result is that of the handler of the option found, run on the arguments
recorded. -/
theorem conf_if_load_opt_of_call {α : Type} (opts : List (conf_opt α)) (env : heap_env)
    (ctx : conf_ctx α) (argv : List (List Char)) (argc : Int) :
    (conf_if_load_call opts argv argc = none →
      conf_if_load_opt opts env ctx argv argc = (0, ctx)) ∧
    (∀ c, conf_if_load_call opts argv argc = some c →
      ∃ opt, conf_opt_get (argv.getD 0 []) opts = some opt ∧ c.optname = opt.name ∧
        conf_if_load_opt opts env ctx argv argc
          = opt.func env { ctx with argv := c.argv, argc := c.argc }) := by
  simp only [conf_if_load_call, conf_if_load_opt]
  cases hg : conf_opt_get (argv.getD 0 []) opts with
  | none => exact ⟨fun _ => rfl, fun c hc => by cases hc⟩
  | some opt =>
    dsimp only
    by_cases h1 : opt.argc_min > argc - 1
    · rw [if_pos h1, if_pos h1]
      exact ⟨fun _ => rfl, fun c hc => by cases hc⟩
    · rw [if_neg h1, if_neg h1]
      by_cases h2 : opt.argc_max ≠ 0 ∧ opt.argc_max < argc - 1
      · rw [if_pos h2, if_pos h2]
        exact ⟨fun _ => rfl, fun c hc => by cases hc⟩
      · rw [if_neg h2, if_neg h2]
        refine ⟨fun hc => (by cases hc), fun c hc => ?_⟩
        have hc1 : c = { optname := opt.name, argv := argv.drop 1, argc := argc - 1 } :=
          (Option.some.inj hc).symm
        rw [hc1]
        exact ⟨opt, rfl, rfl, rfl⟩


/-! ## Lines read and lines passed over -/

theorem rdropWhile_append_cons_neg {α : Type} (p : α → Bool) (l1 : List α) (a : α)
    (h : ¬ p a) (l2 : List α) :
    (l1 ++ a :: l2).rdropWhile p = l1 ++ a :: l2.rdropWhile p := by
  induction l2 using List.reverseRecOn with
  | nil =>
    rw [List.rdropWhile_nil]
    exact List.rdropWhile_concat_neg _ _ _ h
  | append_singleton l x ih =>
    have e : l1 ++ a :: (l ++ [x]) = (l1 ++ a :: l) ++ [x] := by simp
    by_cases hx : p x
    · rw [e, List.rdropWhile_concat_pos _ _ _ hx, List.rdropWhile_concat_pos _ _ _ hx, ih]
    · rw [e, List.rdropWhile_concat_neg _ _ _ hx, List.rdropWhile_concat_neg _ _ _ hx]
      simp

theorem buf_bytes_mem (data : char_buf) (a n : Nat) (c : Char) (h : c ∈ buf_bytes data a n) :
    ∃ i, i < n ∧ c = data (a + i) := by
  simp only [buf_bytes, List.mem_map, List.mem_range] at h
  obtain ⟨i, hi, rfl⟩ := h
  exact ⟨i, hi, rfl⟩

/-- A run of bytes that are none of LF, CR, TAB, SPACE is a line as it
stands. -/
theorem clean_line_run (s rest : List Char) (hs : ∀ c ∈ s, c ≠ LF ∧ is_blank_cr c = false)
    (hr : rest = [] ∨ ∃ t, rest = LF :: t) :
    raw_line (s ++ rest) = s ∧ clean_line (s ++ rest) = s := by
  have hraw : raw_line (s ++ rest) = s := by
    simp only [raw_line]
    rw [List.takeWhile_append_of_pos (fun c hc => by simpa using (hs c hc).1)]
    rcases hr with rfl | ⟨t, rfl⟩
    · simp
    · rw [List.takeWhile_cons_of_neg (by simp)]
      simp
  refine ⟨hraw, ?_⟩
  simp only [clean_line, hraw]
  rw [List.rdropWhile_eq_self_iff]
  intro hl
  rw [(hs _ (List.getLast_mem hl)).2]
  simp

/-- On every buffer with `pos < size`, `iobuf_readcleanline` sets
`*begin` to `&data[pos]` and moves `pos` just past the next LF, or to `size`
when there is none; it returns `L + 1`, where `L` is the number of bytes from
`pos` up to (not including) that LF, or up to `size`, less the trailing CR, TAB
and SPACE bytes, provided `L` is below `INT_MAX`. -/
theorem iobuf_readcleanline_length (b : iobuf) (h : b.pos < b.size) :
    (iobuf_readcleanline b).2 = (some b.pos, { b with pos := b.next_pos }) ∧
    ((clean_line b.unread).length < INT_MAX →
      (iobuf_readcleanline b).1 = (((clean_line b.unread).length + 1 : Nat) : Int)) := by
  rw [iobuf_readcleanline_eq b h]
  refine ⟨rfl, fun hl => ?_⟩
  exact to_int_small _ (by omega)

/-- The buffer that holds `ab`, SPACE, CR, LF, `cd`, nothing
read yet: the function returns 3 and moves `pos` to 5. -/
theorem iobuf_readcleanline_length_witness :
    (str_iobuf "ab \r\ncd".toList).pos < (str_iobuf "ab \r\ncd".toList).size ∧
    (iobuf_readcleanline (str_iobuf "ab \r\ncd".toList)).2
      = (some 0, { str_iobuf "ab \r\ncd".toList with
          pos := (str_iobuf "ab \r\ncd".toList).next_pos }) ∧
    (str_iobuf "ab \r\ncd".toList).next_pos = 5 ∧
    (iobuf_readcleanline (str_iobuf "ab \r\ncd".toList)).1 = 3 :=
  ⟨by decide,
   (iobuf_readcleanline_length (str_iobuf "ab \r\ncd".toList) (by decide)).1,
   by decide,
   (iobuf_readcleanline_length (str_iobuf "ab \r\ncd".toList) (by decide)).2 (by decide)⟩

theorem long_line_buf_clean :
    raw_line long_line_buf.unread = buf_bytes (fun _ => 'a') 0 2147483647 ∧
    clean_line long_line_buf.unread = buf_bytes (fun _ => 'a') 0 2147483647 := by
  have hu : long_line_buf.unread = buf_bytes (fun _ => 'a') 0 2147483647 ++ [] := by
    rw [List.append_nil]
    rfl
  rw [hu]
  apply clean_line_run _ _ _ (Or.inl rfl)
  intro c hc
  obtain ⟨i, _, rfl⟩ := buf_bytes_mem _ _ _ _ hc
  decide

/-- C17 (the code at the failing input): on a buffer that holds a single line of 2147483647
bytes `a`, `iobuf_readcleanline` returns -2147483648, not the length of the
line plus one: the sum does not fit the `int` that the function returns. -/
theorem iobuf_readcleanline_long_line :
    long_line_buf.pos < long_line_buf.size ∧
    (clean_line long_line_buf.unread).length = 2147483647 ∧
    (iobuf_readcleanline long_line_buf).1 = -2147483648 ∧
    (iobuf_readcleanline long_line_buf).1
      ≠ (((clean_line long_line_buf.unread).length + 1 : Nat) : Int) := by
  have hp : long_line_buf.pos < long_line_buf.size := by decide
  have hlen : (clean_line long_line_buf.unread).length = 2147483647 := by
    rw [long_line_buf_clean.2, buf_bytes_length]
  have hret : (iobuf_readcleanline long_line_buf).1 = -2147483648 := by
    rw [iobuf_readcleanline_eq _ hp, hlen]
    decide
  refine ⟨hp, hlen, hret, ?_⟩
  rw [hret, hlen]
  decide

/-- The text of a line of CR, TAB and SPACE bytes is empty; the text of a line
whose first byte other than TAB and SPACE is `#` begins with `#`. -/
theorem line_text_skipped (s : List Char)
    (hskip : (∀ c ∈ raw_line s, c = SPACE ∨ c = TAB ∨ c = CR) ∨
      ((raw_line s).dropWhile is_blank).head? = some '#') :
    (clean_line s).dropWhile is_blank = [] ∨
      ((clean_line s).dropWhile is_blank).head? = some '#' := by
  rcases hskip with hall | hhash
  · left
    have : clean_line s = [] := by
      simp only [clean_line]
      rw [List.rdropWhile_eq_nil_iff]
      intro c hc
      rcases hall c hc with e | e | e <;> (rw [e]; decide)
    rw [this]
    rfl
  · right
    cases hd : (raw_line s).dropWhile is_blank with
    | nil => rw [hd] at hhash; cases hhash
    | cons c tl =>
      rw [hd] at hhash
      have hc : c = '#' := Option.some.inj hhash
      subst hc
      have hsplit : raw_line s = (raw_line s).takeWhile is_blank ++ '#' :: tl := by
        rw [← hd, List.takeWhile_append_dropWhile]
      have hcl : clean_line s
          = (raw_line s).takeWhile is_blank ++ '#' :: tl.rdropWhile is_blank_cr := by
        simp only [clean_line]
        rw [hsplit, rdropWhile_append_cons_neg _ _ _ (by decide), ← hsplit]
      rw [hcl, List.dropWhile_append_of_pos (fun a ha => List.mem_takeWhile_imp ha),
        List.dropWhile_cons_of_neg (by decide)]
      rfl

/-- When the first unread line of the buffer is empty, consists
only of SPACE, TAB and CR bytes, or has `#` as its first byte other than SPACE
and TAB, and is shorter than `INT_MAX` bytes once its trailing CR, TAB and
SPACE bytes are removed, the turn of the line loop of `conf_if_load` calls no
option handler, leaves the context (the structure being filled and `mstid`
with it) as it is and goes on to the next line: the loop gives what it gives
when entered at the next line. -/
theorem blank_and_comment_lines_skipped {α : Type} (opts : List (conf_opt α))
    (envs : Nat → line_env) (ctx : conf_ctx α) (iob : iobuf) (ls : Nat)
    (h : iob.pos < iob.size) (hl : (clean_line iob.unread).length < INT_MAX)
    (hskip : (∀ c ∈ raw_line iob.unread, c = SPACE ∨ c = TAB ∨ c = CR) ∨
      ((raw_line iob.unread).dropWhile is_blank).head? = some '#') :
    conf_if_load_line opts envs ctx iob ls = some (line_step.next ctx iob.advance ls []) ∧
    ∃ r, conf_if_load_from opts envs { ctx with line := ctx.line + 1 } iob.advance ls = some r ∧
      conf_if_load_from opts envs ctx iob ls = some r := by
  have hline : conf_if_load_line opts envs ctx iob ls
      = some (line_step.next ctx iob.advance ls []) := by
    rw [conf_if_load_line_eq opts envs ctx iob ls h hl]
    have key : iob.line_text = [] ∨ iob.line_text.head? = some '#' :=
      line_text_skipped iob.unread hskip
    rcases key with he | hc
    · rw [if_pos he]
    · by_cases he : iob.line_text = []
      · rw [if_pos he]
      · rw [if_neg he, if_pos hc]
  refine ⟨hline, ?_⟩
  obtain ⟨r, hr, hfrom⟩ := conf_if_load_from_next _ _ _ _ _ _ _ _ _ hline
  exact ⟨r, hr, by rw [hfrom]; rfl⟩

/-- The bridge file that holds the comment line SPACE, TAB,
`# mode stp`, SPACE, CR and then the line `mode rstp`. -/
theorem blank_and_comment_lines_skipped_witness :
    conf_if_load_line conf_opts_br line_envs_ok (conf_ctx_init conf_br_init)
        (str_iobuf " \t# mode stp \r\nmode rstp\n".toList) 0
      = some (line_step.next (conf_ctx_init conf_br_init)
          (str_iobuf " \t# mode stp \r\nmode rstp\n".toList).advance 0 []) ∧
    ∃ r, conf_if_load_from conf_opts_br line_envs_ok
        { conf_ctx_init conf_br_init with line := (conf_ctx_init conf_br_init).line + 1 }
        (str_iobuf " \t# mode stp \r\nmode rstp\n".toList).advance 0 = some r ∧
      conf_if_load_from conf_opts_br line_envs_ok (conf_ctx_init conf_br_init)
        (str_iobuf " \t# mode stp \r\nmode rstp\n".toList) 0 = some r :=
  blank_and_comment_lines_skipped conf_opts_br line_envs_ok (conf_ctx_init conf_br_init)
    (str_iobuf " \t# mode stp \r\nmode rstp\n".toList) 0 (by decide) (by decide)
    (Or.inr (by decide))

theorem words_go_append_blank : ∀ (l cur : List Char) (b : Char) (rest : List Char),
    (∀ c ∈ l, c ≠ NUL) → (b = TAB ∨ b = SPACE) →
    words_go (l ++ b :: rest) cur = words_go l cur ++ line_words rest
  | [], cur, b, rest, _, hb => by
    have h0 : b ≠ NUL := by
      rcases hb with e | e <;> (rw [e]; decide)
    by_cases hc : cur = []
    · simp [words_go, line_words, h0, hb, hc]
    · simp [words_go, line_words, h0, hb, hc]
  | c :: cs, cur, b, rest, hl, hb => by
    have h0 : c ≠ NUL := hl c (List.mem_cons_self _ _)
    have hcs : ∀ x ∈ cs, x ≠ NUL := fun x hx => hl x (List.mem_cons_of_mem _ hx)
    have h1 := words_go_append_blank cs [] b rest hcs hb
    have h2 := words_go_append_blank cs (c :: cur) b rest hcs hb
    rw [List.cons_append]
    simp only [words_go, if_neg h0, h1, h2]
    split
    · split <;> simp
    · rfl

theorem line_words_skip_blanks : ∀ (s t : List Char), (∀ c ∈ s, c = TAB ∨ c = SPACE) →
    line_words (s ++ t) = line_words t
  | [], t, _ => rfl
  | c :: cs, t, h => by
    have hc := h c (List.mem_cons_self _ _)
    have h0 : c ≠ NUL := by
      rcases hc with e | e <;> (rw [e]; decide)
    have ih := line_words_skip_blanks cs t (fun x hx => h x (List.mem_cons_of_mem _ hx))
    simp only [line_words] at ih ⊢
    rw [List.cons_append]
    simp only [words_go, if_neg h0, if_pos hc, if_true]
    exact ih

theorem words_go_ne_nil : ∀ (t cur : List Char), cur ≠ [] → words_go t cur ≠ []
  | [], cur, h => by simp [words_go, h]
  | c :: cs, cur, h => by
    simp only [words_go]
    split
    · simp [h]
    · split
      · simp [h]
      · exact words_go_ne_nil cs (c :: cur) (by simp)

/-- The words of a line made of an option with its arguments, blanks, and a
`#` with a text behind it: the words of the option line and at least one
more. -/
theorem line_words_trailing_hash (l sep text : List Char) (hl : ∀ c ∈ l, c ≠ NUL)
    (hsep : sep ≠ [] ∧ ∀ c ∈ sep, c = TAB ∨ c = SPACE) :
    ∃ x xs, line_words (l ++ sep ++ '#' :: text) = line_words l ++ x :: xs := by
  obtain ⟨b, sep1, rfl⟩ : ∃ b sep1, sep = b :: sep1 := by
    cases sep with
    | nil => exact absurd rfl hsep.1
    | cons b sep1 => exact ⟨b, sep1, rfl⟩
  have hb := hsep.2 b (List.mem_cons_self _ _)
  have h1 : line_words (l ++ (b :: sep1) ++ '#' :: text)
      = line_words l ++ line_words ('#' :: text) := by
    have e : l ++ (b :: sep1) ++ '#' :: text = l ++ b :: (sep1 ++ '#' :: text) := by simp
    rw [e, line_words, words_go_append_blank l [] b _ hl hb,
      line_words_skip_blanks sep1 _ (fun x hx => hsep.2 x (List.mem_cons_of_mem _ hx))]
    rfl
  have h2 : line_words ('#' :: text) ≠ [] := by
    have : line_words ('#' :: text) = words_go text ['#'] := by
      simp only [line_words, words_go]
      rw [if_neg (by decide), if_neg (by decide)]
    rw [this]
    exact words_go_ne_nil text ['#'] (by simp)
  cases hx : line_words ('#' :: text) with
  | nil => exact absurd hx h2
  | cons x xs => exact ⟨x, xs, by rw [h1, hx]⟩

/-- With more arguments than the option allows no handler is called. -/
theorem conf_if_load_too_many {α : Type} (opts : List (conf_opt α)) (env : heap_env)
    (ctx : conf_ctx α) (argv : List (List Char)) (argc : Int) (opt : conf_opt α)
    (hopt : conf_opt_get (argv.getD 0 []) opts = some opt)
    (hmax : opt.argc_max ≠ 0 ∧ opt.argc_max < argc - 1) :
    conf_if_load_opt opts env ctx argv argc = (0, ctx) ∧
      conf_if_load_call opts argv argc = none := by
  simp only [conf_if_load_opt, conf_if_load_call, hopt]
  by_cases h1 : opt.argc_min > argc - 1
  · simp only [if_pos h1, and_self]
  · simp only [if_neg h1, if_pos hmax, and_self]

/-- C14 (amended): a `#` starts a comment only as the first byte of a line other
than TAB and SPACE.  When the line is an option with its arguments, blanks, and
then `#` with a text, the `#` and the words of the text are further arguments
of the option; for an option that takes a fixed number of arguments (fewer
than seven), given that many, the line then has too many: `conf_if_load` calls
no handler, leaves the context as it is and goes on to the next line. -/
theorem trailing_hash_is_no_comment {α : Type} (opts : List (conf_opt α))
    (envs : Nat → line_env) (ctx : conf_ctx α) (iob : iobuf) (ls : Nat)
    (l sep text name : List Char) (args : List (List Char)) (opt : conf_opt α)
    (h : iob.pos < iob.size)
    (hraw : raw_line iob.unread = l ++ sep ++ '#' :: text)
    (hlen : (l ++ sep ++ '#' :: text).length < INT_MAX)
    (hstart : starts_word l) (hnul : ∀ c ∈ l, c ≠ NUL)
    (hwords : line_words l = name :: args)
    (hopt : conf_opt_get name opts = some opt)
    (hmax : 0 < opt.argc_max ∧ opt.argc_max < 7)
    (hargs : (args.length : Int) = opt.argc_max)
    (hsep : sep ≠ [] ∧ ∀ c ∈ sep, c = TAB ∨ c = SPACE)
    (hok : (envs ctx.line).line_ok = true) :
    ∃ ls1, conf_if_load_line opts envs ctx iob ls
      = some (line_step.next ctx iob.advance ls1 []) := by
  -- the cleaned line and its text
  have hclean : clean_line iob.unread = l ++ sep ++ '#' :: text.rdropWhile is_blank_cr := by
    simp only [clean_line]
    rw [hraw, rdropWhile_append_cons_neg _ _ _ (by decide)]
  have hcl : (clean_line iob.unread).length < INT_MAX := by
    have := clean_line_length_le iob.unread
    rw [hraw] at this
    omega
  obtain ⟨c, cs, rfl, hc0, hc1, hc2⟩ := hstart
  have htext : iob.line_text = c :: cs ++ sep ++ '#' :: text.rdropWhile is_blank_cr := by
    simp only [iobuf.line_text, hclean]
    rw [List.cons_append, List.cons_append,
      List.dropWhile_cons_of_neg (by simp [is_blank, hc1, hc2])]
  rw [conf_if_load_line_eq opts envs ctx iob ls h hcl]
  rw [if_neg (by rw [htext]; simp)]
  by_cases hh : iob.line_text.head? = some '#'
  · rw [if_pos hh]
    exact ⟨ls, rfl⟩
  · rw [if_neg hh, if_neg (by rw [hok]; simp)]
    obtain ⟨x, xs, hw⟩ := line_words_trailing_hash (c :: cs) sep
      (text.rdropWhile is_blank_cr) hnul hsep
    rw [← htext, hwords] at hw
    have hne : (line_words iob.line_text).take 8 ≠ [] := by
      rw [hw]; simp
    have hget : ((line_words iob.line_text).take 8).getD 0 [] = name := by
      rw [hw]; rfl
    have hlenW : (((line_words iob.line_text).take 8).length : Int) - 1 > opt.argc_max := by
      rw [hw, List.length_take]
      simp only [List.cons_append, List.length_cons, List.length_append]
      omega
    have key := conf_if_load_too_many opts (envs ctx.line).heap ctx
      ((line_words iob.line_text).take 8) (((line_words iob.line_text).take 8).length : Int)
      opt (by rw [hget]; exact hopt) ⟨by omega, hlenW⟩
    simp only [if_neg hne, key.1, key.2]
    rw [if_neg (by decide)]
    exact ⟨_, rfl⟩

/-- C14 (witness): the bridge line `max-age 20 # comment`. -/
theorem trailing_hash_is_no_comment_witness :
    ∃ ls1, conf_if_load_line conf_opts_br line_envs_ok (conf_ctx_init conf_br_init)
        (str_iobuf "max-age 20 # comment\n".toList) 0
      = some (line_step.next (conf_ctx_init conf_br_init)
          (str_iobuf "max-age 20 # comment\n".toList).advance ls1 []) :=
  trailing_hash_is_no_comment conf_opts_br line_envs_ok (conf_ctx_init conf_br_init)
    (str_iobuf "max-age 20 # comment\n".toList) 0
    "max-age 20".toList " ".toList " comment".toList "max-age".toList ["20".toList]
    { name := "max-age".toList, argc_min := 1, argc_max := 1, func := conf_opt_br_max_age }
    (by decide) (by decide) (by decide) ⟨_, _, rfl, by decide, by decide, by decide⟩
    (by decide) (by decide) rfl (by decide) (by decide) (by decide) rfl

/-- C14 (counterexample): the bridge line `max-age 20` calls the handler of
`max-age` with the argument `20` and sets the maximum age to 20; the same line
followed by a blank and `# comment` calls no handler and sets nothing. -/
theorem trailing_hash_line_rejected :
    (conf_if_load conf_opts_br line_envs_ok (conf_ctx_init conf_br_init)
        (str_iobuf "max-age 20\n".toList)).map
        (fun r => (r.1, r.2.2.2, r.2.1.cif.max_age_set, r.2.1.cif.max_age))
      = some (0, [{ optname := "max-age".toList, argv := ["20".toList], argc := 1 }],
          true, 20) ∧
    (conf_if_load conf_opts_br line_envs_ok (conf_ctx_init conf_br_init)
        (str_iobuf "max-age 20 # comment\n".toList)).map
        (fun r => (r.1, r.2.2.2, r.2.1.cif.max_age_set, r.2.1.cif.max_age))
      = some (0, [], false, 0) := by
  decide


/-! ## Failures while a bridge file is loaded -/

/-- C15 (the code at the failing input): on the file `mode rstp`, `mstid 1` with a heap on which the `realloc`
of the MSTID array fails (line 2), `conf_if_load` calls both handlers and
returns 0, and `mstpd_conf_load_br` calls `MSTP_IN_set_cist_bridge_config`
and returns true; when it is the `realloc` of the line buffer that fails
(line 1), `conf_if_load` returns -2 and `mstpd_conf_load_br` makes no call and
returns false. -/
theorem mstid_alloc_failure_goes_on :
    (conf_if_load conf_opts_br (mstid_fail_envs 2) (conf_ctx_init conf_br_init)
        (str_iobuf "mode rstp\nmstid 1\n".toList)).map
        (fun r => (r.1, r.2.2.2.map (fun c => c.optname), r.2.1.cif.mstids.length))
      = some (0, ["mode".toList, "mstid".toList], 0) ∧
    load_outcome (mstpd_conf_load_br
        (file_load_env "mode rstp\nmstid 1\n".toList [] heap_fn_ok (mstid_fail_envs 2)))
      = some (true, ["MSTP_IN_set_cist_bridge_config".toList]) ∧
    (conf_if_load conf_opts_br (line_fail_envs 1) (conf_ctx_init conf_br_init)
        (str_iobuf "mode rstp\nmstid 1\n".toList)).map
        (fun r => (r.1, r.2.2.2.map (fun c => c.optname)))
      = some (-2, []) ∧
    load_outcome (mstpd_conf_load_br
        (file_load_env "mode rstp\nmstid 1\n".toList [] heap_fn_ok (line_fail_envs 1)))
      = some (false, []) := by
  decide!

/-- C16 (the code at the failing input): on the file `mode rstp`, when the `realloc` of the I/O buffer fails,
`iobuf_read_from_fd` returns `ENOMEM`, `conf_loadfile` returns 0 and
`mstpd_conf_load_br` returns true (having nothing to apply); when the first
`read` fails, `iobuf_read_from_fd` goes on reading and returns 0 with `size`
one less than the number of bytes read, `conf_loadfile` returns 0 and
`mstpd_conf_load_br` applies the mode and returns true. -/
theorem load_failure_not_reported :
    (iobuf_read_from_fd heap_fn_fail (iobuf_init (fun _ => NUL))
        { rest := "mode rstp\n".toList, plan := [] }).map (fun r => r.1) = some ENOMEM ∧
    (conf_loadfile heap_fn_fail (iobuf_init (fun _ => NUL))
        (some { rest := "mode rstp\n".toList, plan := [] })).map (fun r => r.1) = some 0 ∧
    load_outcome (mstpd_conf_load_br
        (file_load_env "mode rstp\n".toList [] heap_fn_fail line_envs_ok))
      = some (true, []) ∧
    (iobuf_read_from_fd heap_fn_ok (iobuf_init (fun _ => NUL))
        { rest := "mode rstp\n".toList, plan := [none] }).map (fun r => (r.1, r.2.1.size))
      = some (0, 9) ∧
    (conf_loadfile heap_fn_ok (iobuf_init (fun _ => NUL))
        (some { rest := "mode rstp\n".toList, plan := [none] })).map (fun r => r.1) = some 0 ∧
    load_outcome (mstpd_conf_load_br
        (file_load_env "mode rstp\n".toList [none] heap_fn_ok line_envs_ok))
      = some (true, ["MSTP_IN_set_cist_bridge_config".toList]) := by
  decide!

/-- C18 (the code at the failing input): on a file of 4096 bytes `a` followed by one byte `b`, read from a fresh
buffer, `iobuf_read_from_fd` returns 0 with `size` 4097, `data[0]` the last
byte `b` of the file and `data[4096]` what `realloc` left there; so it is when
the two bytes of the file `ab` arrive in two calls of `read`. -/
theorem read_lands_at_buffer_start :
    (iobuf_read_from_fd heap_fn_ok (iobuf_init (fun _ => NUL))
        { rest := List.replicate 4096 'a' ++ ['b'], plan := [] }).map
        (fun r => (r.1, r.2.1.size, r.2.1.data 0, r.2.1.data 4096))
      = some (0, 4097, 'b', 'j') ∧
    (iobuf_read_from_fd heap_fn_ok (iobuf_init (fun _ => NUL))
        { rest := "ab".toList, plan := [some 0] }).map
        (fun r => (r.1, r.2.1.size, r.2.1.data 0, r.2.1.data 1))
      = some (0, 2, 'b', 'j') := by
  decide!

/-- C19 (the code at the failing input): the loop of `iobuf_write_to_fd` returns 0, without a call of `write`,
when `pos = size`, and never returns otherwise, whatever `write` returns: in
particular not on a buffer that holds one byte, none written yet. -/
theorem iobuf_write_to_fd_stuck :
    (∀ (fuel : Nat) (fd : wdesc) (b : iobuf),
      iobuf_write_to_fd_loop fuel fd b
        = if fuel = 0 ∨ to_size_t ((b.size : Int) - (b.pos : Int)) ≠ 0 then none
          else some (0, [])) ∧
    ∀ (fuel : Nat) (fd : wdesc), iobuf_write_to_fd_loop fuel fd (str_iobuf "a".toList) = none := by
  have key : ∀ (fuel : Nat) (fd : wdesc) (b : iobuf),
      iobuf_write_to_fd_loop fuel fd b
        = if fuel = 0 ∨ to_size_t ((b.size : Int) - (b.pos : Int)) ≠ 0 then none
          else some (0, []) := by
    intro fuel
    induction fuel with
    | zero => intro fd b; simp [iobuf_write_to_fd_loop]
    | succ fuel ih =>
      intro fd b
      simp only [iobuf_write_to_fd_loop]
      by_cases hw : to_size_t ((b.size : Int) - (b.pos : Int)) = 0
      · simp [hw]
      · rw [if_neg hw, if_neg (Nat.not_lt_zero _), ih]
        simp [hw]
  refine ⟨key, fun fuel fd => ?_⟩
  rw [key]
  have : to_size_t (((str_iobuf "a".toList).size : Int) - ((str_iobuf "a".toList).pos : Int))
      ≠ 0 := by decide
  rw [if_pos (Or.inr this)]


/-! ## Loading returns -/

theorem sys_read_measure (fd : fdesc) (n : Nat) :
    (sys_read fd n).2.2.rest.length + (sys_read fd n).2.2.plan.length
        ≤ fd.rest.length + fd.plan.length ∧
    (to_size_t (sys_read fd n).1 > 0 →
      (sys_read fd n).2.2.rest.length + (sys_read fd n).2.2.plan.length
        < fd.rest.length + fd.plan.length) := by
  obtain ⟨rest, plan⟩ := fd
  cases plan with
  | nil =>
    simp only [sys_read, List.length_drop, List.length_nil, Nat.add_zero, List.length_take]
    refine ⟨by omega, fun h => ?_⟩
    have : min n rest.length ≠ 0 := by
      intro e
      rw [e] at h
      simp [to_size_t] at h
    omega
  | cons e p =>
    cases e with
    | none =>
      simp only [sys_read, List.length_cons]
      exact ⟨by omega, fun _ => by omega⟩
    | some k =>
      simp only [sys_read, List.length_drop, List.length_cons]
      exact ⟨by omega, fun _ => by omega⟩

/-- The loop of `iobuf_read_from_fd` returns: the fuel it is given suffices. -/
theorem iobuf_read_from_fd_loop_total (heap : heap_fn) :
    ∀ (fuel : Nat) (buffer : iobuf) (fd : fdesc), fd.rest.length + fd.plan.length < fuel →
      ∃ r, iobuf_read_from_fd_loop heap fuel buffer fd = some r := by
  intro fuel
  induction fuel with
  | zero => intro buffer fd h; omega
  | succ fuel ih =>
    intro buffer fd h
    simp only [iobuf_read_from_fd_loop]
    generalize (if to_size_t ((buffer.cap : Int) - (buffer.size : Int)) < 1024 then
      iobuf_resize heap buffer ((buffer.cap + 4096) % (SIZE_MAX + 1)) else (0, buffer)) = rs
    by_cases h1 : rs.1 ≠ 0
    · rw [if_pos h1]
      exact ⟨_, rfl⟩
    · rw [if_neg h1]
      generalize to_size_t ((rs.2.cap : Int) - (rs.2.size : Int)) = n
      by_cases hrd : to_size_t (sys_read fd n).1 > 0
      · rw [if_pos hrd]
        have := (sys_read_measure fd n).2 hrd
        exact ih _ _ (by omega)
      · rw [if_neg hrd]
        by_cases h0 : to_size_t (sys_read fd n).1 = 0
        · rw [if_pos h0]; exact ⟨_, rfl⟩
        · rw [if_neg h0]; exact ⟨_, rfl⟩

theorem iobuf_read_from_fd_total (heap : heap_fn) (buffer : iobuf) (fd : fdesc) :
    ∃ r, iobuf_read_from_fd heap buffer fd = some r :=
  iobuf_read_from_fd_loop_total heap _ buffer fd (Nat.lt_succ_self _)

theorem conf_loadfile_total (heap : heap_fn) (iob : iobuf) (fd : Option fdesc) :
    ∃ r, conf_loadfile heap iob fd = some r := by
  cases fd with
  | none => exact ⟨_, rfl⟩
  | some d =>
    obtain ⟨r, hr⟩ := iobuf_read_from_fd_total heap iob d
    simp only [conf_loadfile, hr]
    by_cases h : r.1 < 0
    · rw [if_pos h]; exact ⟨_, rfl⟩
    · rw [if_neg h]; exact ⟨_, rfl⟩

/-- The function `mstpd_conf_load_br` returns, whatever the system contributes. -/
theorem mstpd_conf_load_br_total (env : load_env) : ∃ r, mstpd_conf_load_br env = some r := by
  simp only [mstpd_conf_load_br]
  by_cases ha : env.access_ok = false
  · rw [if_pos ha]; exact ⟨_, rfl⟩
  · rw [if_neg ha]
    obtain ⟨r, hr⟩ := conf_loadfile_total env.heap (iobuf_init env.mem) env.fd
    rw [hr]
    simp only []
    by_cases h : r.1 < 0
    · rw [if_pos h]; exact ⟨_, rfl⟩
    · rw [if_neg h]
      obtain ⟨r2, hr2⟩ := conf_if_load_from_total conf_opts_br env.lines
        { conf_ctx_init conf_br_init with line := 1 } r.2 0
      simp only [conf_if_load, hr2]
      by_cases h2 : r2.1 ≥ 0
      · rw [if_pos h2]; exact ⟨_, rfl⟩
      · rw [if_neg h2]; exact ⟨_, rfl⟩

/-! ## A file that arrives in one piece -/

theorem buf_bytes_of_has (b : char_buf) : ∀ (s : List Char) (i : Nat), buf_has b i s →
    buf_bytes b i s.length = s
  | [], _, _ => rfl
  | c :: cs, i, h => by
    simp only [buf_has] at h
    rw [List.length_cons, buf_bytes_succ, h.1, buf_bytes_of_has b cs (i + 1) h.2]

theorem to_size_t_small (n : Nat) (h : n ≤ SIZE_MAX) : to_size_t (n : Int) = n := by
  simp only [to_size_t, SIZE_MAX] at h ⊢
  omega

/-- One turn of the loop of `iobuf_read_from_fd`, once the buffer has room
(`b1` is the buffer behind the `if (bfree < 1024)` block). -/
theorem iobuf_read_from_fd_loop_step (heap : heap_fn) (fuel : Nat) (buffer b1 : iobuf)
    (fd : fdesc)
    (h : (if to_size_t ((buffer.cap : Int) - (buffer.size : Int)) < 1024 then
        iobuf_resize heap buffer ((buffer.cap + 4096) % (SIZE_MAX + 1))
      else (0, buffer)) = (0, b1)) :
    iobuf_read_from_fd_loop heap (fuel + 1) buffer fd =
      if to_size_t (sys_read fd (to_size_t ((b1.cap : Int) - (b1.size : Int)))).1 > 0 then
        iobuf_read_from_fd_loop heap fuel
          { b1 with
            size := (b1.size
              + to_size_t (sys_read fd (to_size_t ((b1.cap : Int) - (b1.size : Int)))).1)
              % (SIZE_MAX + 1),
            data := buf_apply b1.data (text_writes 0
              (sys_read fd (to_size_t ((b1.cap : Int) - (b1.size : Int)))).2.1) }
          (sys_read fd (to_size_t ((b1.cap : Int) - (b1.size : Int)))).2.2
      else if to_size_t (sys_read fd (to_size_t ((b1.cap : Int) - (b1.size : Int)))).1 = 0
      then some (0, { b1 with data := buf_apply b1.data (text_writes 0
              (sys_read fd (to_size_t ((b1.cap : Int) - (b1.size : Int)))).2.1) },
          (sys_read fd (to_size_t ((b1.cap : Int) - (b1.size : Int)))).2.2)
      else some (-1, { b1 with data := buf_apply b1.data (text_writes 0
              (sys_read fd (to_size_t ((b1.cap : Int) - (b1.size : Int)))).2.1) },
          (sys_read fd (to_size_t ((b1.cap : Int) - (b1.size : Int)))).2.2) := by
  rw [iobuf_read_from_fd_loop]
  simp only [h, ne_eq, not_true_eq_false, if_false]

/-- A file of at most 3072 bytes that a single call of `read` delivers is
loaded as it is: `iobuf_read_from_fd` returns 0, `size` is the length of the
file and the bytes `data[0..size)` are those of the file. -/
theorem iobuf_read_from_fd_single (heap : heap_fn) (mem fresh : char_buf)
    (content : List Char) (hne : content ≠ []) (hlen : content.length ≤ 3072)
    (hheap : heap 4096 = some fresh) :
    ∃ iob, iobuf_read_from_fd heap (iobuf_init mem) { rest := content, plan := [] }
        = some (0, iob, { rest := [], plan := [] }) ∧
      iob.size = content.length ∧ buf_bytes iob.data 0 iob.size = content := by
  obtain ⟨m, hm⟩ : ∃ m, content.length = m + 1 := by
    cases content with
    | nil => exact absurd rfl hne
    | cons c cs => exact ⟨cs.length, rfl⟩
  have htake : content.take 4096 = content := List.take_of_length_le (by omega)
  have hdrop : content.drop 4096 = [] := List.drop_eq_nil_of_le (by omega)
  have hn : to_size_t ((content.length : Nat) : Int) = content.length :=
    to_size_t_small _ (by simp only [SIZE_MAX]; omega)
  have hfree : to_size_t (((4096 : Nat) : Int) - ((content.length : Nat) : Int))
      = 4096 - content.length := by
    simp only [to_size_t, SIZE_MAX]
    omega
  -- the first turn: the buffer is given 4096 bytes and the file is read
  have hres : (if to_size_t (((iobuf_init mem).cap : Int) - ((iobuf_init mem).size : Int)) < 1024
      then iobuf_resize heap (iobuf_init mem) (((iobuf_init mem).cap + 4096) % (SIZE_MAX + 1))
      else (0, iobuf_init mem))
      = (0, (⟨0, 0, 4096, fun i => if i < 0 then mem i else fresh i⟩ : iobuf)) := by
    have e1 : to_size_t (((iobuf_init mem).cap : Int) - ((iobuf_init mem).size : Int)) = 0 := by
      show to_size_t (((0 : Nat) : Int) - ((0 : Nat) : Int)) = 0
      decide
    have e2 : ((iobuf_init mem).cap + 4096) % (SIZE_MAX + 1) = 4096 := by
      show (0 + 4096) % (SIZE_MAX + 1) = 4096
      decide
    have e3 : ((4096 + (IO_PAGE_SIZE - 1)) % (SIZE_MAX + 1) / IO_PAGE_SIZE) * IO_PAGE_SIZE
        = 4096 := by decide
    have e4 : ¬ (iobuf_init mem).size ≥ 4096 := by
      show ¬ (0 : Nat) ≥ 4096
      decide
    rw [e1, if_pos (by decide), e2]
    unfold iobuf_resize
    rw [if_neg e4]
    simp only [e3, hheap]
    rfl
  have h4096 : to_size_t (((4096 : Nat) : Int) - ((0 : Nat) : Int)) = 4096 := by decide
  have hz : to_size_t ((0 : Nat) : Int) = 0 := by decide
  have hmod : (0 + content.length) % (SIZE_MAX + 1) = content.length := by
    rw [Nat.zero_add]
    exact Nat.mod_eq_of_lt (by simp only [SIZE_MAX]; omega)
  refine ⟨(⟨content.length, 0, 4096,
    buf_apply (fun i => if i < 0 then mem i else fresh i) (text_writes 0 content)⟩ : iobuf),
    ?_, rfl, ?_⟩
  · simp only [iobuf_read_from_fd, List.length_nil, Nat.add_zero, hm]
    rw [iobuf_read_from_fd_loop_step heap (m + 1) _ _ _ hres]
    simp only [h4096, sys_read, htake, hdrop, hn]
    rw [if_pos (by omega), hmod]
    rw [iobuf_read_from_fd_loop_step heap m _
      (⟨content.length, 0, 4096,
        buf_apply (fun i => if i < 0 then mem i else fresh i) (text_writes 0 content)⟩ : iobuf)
      _ (by
        simp only [hfree]
        rw [if_neg (by omega)])]
    simp only [hfree, sys_read, List.take_nil, List.length_nil, hz, List.drop_nil]
    rw [if_neg (by decide), if_pos trivial, hm]
    rfl
  · exact buf_bytes_of_has _ content 0
      (buf_has_text (fun i => if i < 0 then mem i else fresh i) 0 content)

/-! ## What a negative `fnret` does -/

/-- When the line buffer has to grow and its `realloc` fails, the turn leaves
the loop with `fnret = -2`, the context as it was and no handler called. -/
theorem conf_if_load_line_alloc_failure {α : Type} (opts : List (conf_opt α))
    (envs : Nat → line_env) (ctx : conf_ctx α) (iob : iobuf) (ls : Nat)
    (h : iob.pos < iob.size) (hL : (clean_line iob.unread).length < INT_MAX)
    (htext : iob.line_text ≠ []) (hhash : iob.line_text.head? ≠ some '#')
    (hgrow : iob.line_text.length + 2 > ls) (hfail : (envs ctx.line).line_ok = false) :
    conf_if_load_line opts envs ctx iob ls = some (line_step.stop (-2) ctx iob.advance []) := by
  rw [conf_if_load_line_eq opts envs ctx iob ls h hL, if_neg htext, if_neg hhash,
    if_pos ⟨hgrow, hfail⟩]

/-- When `conf_if_load` returns a negative value, `mstpd_conf_load_br` calls
nothing and returns false. -/
theorem mstpd_conf_load_br_abort (env : load_env) (iob : iobuf)
    (r : Int × conf_ctx conf_br × iobuf × List opt_call) (ha : env.access_ok = true)
    (hfile : conf_loadfile env.heap (iobuf_init env.mem) env.fd = some (0, iob))
    (hload : conf_if_load conf_opts_br env.lines (conf_ctx_init conf_br_init) iob = some r)
    (hneg : r.1 < 0) : mstpd_conf_load_br env = some (false, []) := by
  simp only [mstpd_conf_load_br, ha, hfile, hload]
  rw [if_neg (by decide), if_neg (by decide), if_neg (by omega)]


/-! ## The configuration identifier, MSTI scopes and the MSTID arrays -/

/-- C21 (counterexample): for the line `confid 7 <name>` with a name of 32
letters, `confid_name` does not hold the 32 bytes of the name: the last of
them is replaced by a zero byte. -/
theorem confid_name_32_bytes_cut :
    (conf_opt_br_confid heap_env_ok (br_ctx_args ["7".toList, name_32])).2.cif.confid_name
      ≠ name_32.take (min name_32.length 32) ++
          List.replicate (32 - min name_32.length 32) NUL ∧
    (conf_opt_br_confid heap_env_ok (br_ctx_args ["7".toList, name_32])).2.cif.confid_name
      = name_32.take 31 ++ [NUL] := by
  decide

/-- C21 (amended): for every `confid <rev> <name>` whose `rev` is parsed by
`str_getuint` to `r`, `conf_opt_br_confid` returns 0, sets `confid_set`,
stores the revision `min r 65535` and fills the 32 bytes of `confid_name` with
the first `min (strlen name) 31` bytes of the name followed by zero bytes; a
name of up to 31 bytes is stored whole. -/
theorem confid_stored (env : heap_env) (ctx : conf_ctx conf_br) (r : Nat)
    (h : str_getuint (ctx.arg 0) = some r) :
    conf_opt_br_confid env ctx = (0, { ctx with cif := { ctx.cif with
      confid_rev := min r 65535, confid_set := true,
      confid_name := (ctx.arg 1).take (min (ctx.arg 1).length 31) ++
        List.replicate (32 - min (ctx.arg 1).length 31) NUL } }) ∧
    ((ctx.arg 1).take (min (ctx.arg 1).length 31) ++
        List.replicate (32 - min (ctx.arg 1).length 31) NUL).length = 32 ∧
    ((ctx.arg 1).length ≤ 31 →
      (ctx.arg 1).take (min (ctx.arg 1).length 31) = ctx.arg 1) := by
  have hrev : (if r > MAX_CONFIG_REV then MAX_CONFIG_REV else r) % 65536 = min r 65535 := by
    unfold MAX_CONFIG_REV
    split <;> omega
  have hlen : (if (ctx.arg 1).length + 1 > CONFIGURATION_NAME_LEN then
      CONFIGURATION_NAME_LEN - 1 else (ctx.arg 1).length) = min (ctx.arg 1).length 31 := by
    unfold CONFIGURATION_NAME_LEN
    split <;> omega
  refine ⟨?_, ?_, ?_⟩
  · simp only [conf_opt_br_confid, h, hrev, hlen]
    rfl
  · simp only [List.length_append, List.length_take, List.length_replicate]
    omega
  · intro hl
    rw [Nat.min_eq_left hl]
    exact List.take_length _

/-- C21 (witness): the line `confid 70000 region1` stores revision 65535 and
the name `region1` followed by 25 zero bytes. -/
theorem confid_stored_witness :
    conf_opt_br_confid heap_env_ok (br_ctx_args ["70000".toList, "region1".toList]) =
      (0, { br_ctx_args ["70000".toList, "region1".toList] with cif :=
        { (br_ctx_args ["70000".toList, "region1".toList]).cif with
          confid_rev := min 70000 65535, confid_set := true,
          confid_name :=
            ((br_ctx_args ["70000".toList, "region1".toList]).arg 1).take
              (min ((br_ctx_args ["70000".toList, "region1".toList]).arg 1).length 31) ++
            List.replicate
              (32 - min ((br_ctx_args ["70000".toList, "region1".toList]).arg 1).length 31)
              NUL } }) :=
  (confid_stored heap_env_ok (br_ctx_args ["70000".toList, "region1".toList]) 70000
    (by decide)).1
/-- The entry that a search-and-update loop changes: it satisfied the test, and
its update is in the list afterwards. -/
theorem mstids_update_changed {β : Type} (p : β → Bool) (f : β → β) :
    ∀ (ms ms1 : List β), mstids_update p f ms = some ms1 →
      ∃ e ∈ ms, p e = true ∧ f e ∈ ms1
  | [], ms1, h => by simp [mstids_update] at h
  | e :: es, ms1, h => by
    simp only [mstids_update] at h
    by_cases hp : p e = true
    · rw [if_pos hp] at h
      cases h
      exact ⟨e, List.mem_cons_self _ _, hp, List.mem_cons_self _ _⟩
    · rw [if_neg hp] at h
      cases hu : mstids_update p f es with
      | none => simp [hu] at h
      | some es1 =>
        simp only [hu, Option.some.injEq] at h
        subst h
        obtain ⟨x, hx, hpx, hfx⟩ := mstids_update_changed p f es es1 hu
        exact ⟨x, List.mem_cons_of_mem _ hx, hpx, List.mem_cons_of_mem _ hfx⟩

/-- A search-and-update loop whose update keeps the test true leaves the
entries that fail the test where they are. -/
theorem mstids_update_others {β : Type} (p : β → Bool) (f : β → β)
    (hf : ∀ e, p e = true → p (f e) = true) :
    ∀ (ms ms1 : List β), mstids_update p f ms = some ms1 →
      ∀ x, p x = false → (x ∈ ms1 ↔ x ∈ ms)
  | [], ms1, h => by simp [mstids_update] at h
  | e :: es, ms1, h => by
    intro x hx
    simp only [mstids_update] at h
    by_cases hp : p e = true
    · rw [if_pos hp] at h
      cases h
      have h1 : x ≠ f e := fun e1 => by rw [e1, hf e hp] at hx; cases hx
      have h2 : x ≠ e := fun e1 => by rw [e1, hp] at hx; cases hx
      simp [h1, h2]
    · rw [if_neg hp] at h
      cases hu : mstids_update p f es with
      | none => simp [hu] at h
      | some es1 =>
        simp only [hu, Option.some.injEq] at h
        subst h
        have ih := mstids_update_others p f hf es es1 hu x hx
        simp [ih]

/-- A search-and-update loop finds an entry that passes the test. -/
theorem mstids_update_some {β : Type} (p : β → Bool) (f : β → β) :
    ∀ (ms : List β), (∃ e ∈ ms, p e = true) → ∃ ms1, mstids_update p f ms = some ms1
  | [], h => by
    obtain ⟨e, he, _⟩ := h
    cases he
  | e :: es, h => by
    simp only [mstids_update]
    by_cases hp : p e = true
    · rw [if_pos hp]
      exact ⟨_, rfl⟩
    · rw [if_neg hp]
      obtain ⟨x, hx, hpx⟩ := h
      rcases List.mem_cons.1 hx with rfl | hx1
      · exact absurd hpx hp
      · obtain ⟨es1, h1⟩ := mstids_update_some p f es ⟨x, hx1, hpx⟩
        rw [h1]
        exact ⟨_, rfl⟩

/-- The bridge lines `mstid N` (with `1 <= N <= 4094`, accepted with return
value 0) and `prio P`: the priority is stored in an entry whose `id` is `N`,
the entries with another `id` are those there were, and the priority of the
CIST is left alone. -/
theorem mstid_then_prio (env env1 : heap_env) (ctx : conf_ctx conf_br) (a p : List Char)
    (N P : Nat) (hN : str_getuint a = some N) (hN1 : 1 ≤ N ∧ N ≤ 4094)
    (hP : str_getuint p = some P)
    (hok : (conf_opt_br_mstid env { ctx with argv := [a], argc := 1 }).1 = 0) :
    (conf_opt_br_prio env1
      { (conf_opt_br_mstid env { ctx with argv := [a], argc := 1 }).2 with
        argv := [p], argc := 1 }).1 = 0 ∧
    (conf_opt_br_prio env1
      { (conf_opt_br_mstid env { ctx with argv := [a], argc := 1 }).2 with
        argv := [p], argc := 1 }).2.cif.prio = ctx.cif.prio ∧
    (conf_opt_br_prio env1
      { (conf_opt_br_mstid env { ctx with argv := [a], argc := 1 }).2 with
        argv := [p], argc := 1 }).2.cif.prio_set = ctx.cif.prio_set ∧
    (∃ e ∈ (conf_opt_br_prio env1
        { (conf_opt_br_mstid env { ctx with argv := [a], argc := 1 }).2 with
          argv := [p], argc := 1 }).2.cif.mstids,
      e.id = N ∧ e.prio = (min P 65535 + 4095) / 4096 ∧ e.prio_set = true) ∧
    (∀ x : conf_br_mstid, x.id ≠ N →
      (x ∈ (conf_opt_br_prio env1
        { (conf_opt_br_mstid env { ctx with argv := [a], argc := 1 }).2 with
          argv := [p], argc := 1 }).2.cif.mstids ↔ x ∈ ctx.cif.mstids)) := by
  have hv : ((if P > MAX_BR_PRIO then MAX_BR_PRIO else P) + 4095) / 4096 % 65536
      = (min P 65535 + 4095) / 4096 := by
    unfold MAX_BR_PRIO
    split <;> omega
  have hclamp : (if N > MAX_MSTID then MAX_MSTID else N) = N := by
    unfold MAX_MSTID
    split <;> omega
  have hN0 : ¬ N = 0 := by omega
  -- what the line `mstid N` leaves behind
  have hm : ∃ ms1 : List conf_br_mstid × Nat, (conf_opt_br_mstid env { ctx with argv := [a], argc := 1 }).2
        = (⟨{ ctx.cif with mstids := ms1.1, mstids_sz := ms1.2 }, ctx.line, (N : Int), [a], 1⟩ :
            conf_ctx conf_br) ∧
      (∃ e ∈ ms1.1, e.id = N) ∧
      (∀ x : conf_br_mstid, x.id ≠ N → (x ∈ ms1.1 ↔ x ∈ ctx.cif.mstids)) := by
    have harg : ({ ctx with argv := [a], argc := 1 } : conf_ctx conf_br).arg 0 = a := rfl
    simp only [conf_opt_br_mstid, harg, hN, hclamp, if_neg hN0] at hok ⊢
    cases hu : mstids_update (fun e => decide (N = e.id)) (fun e => { e with set := true })
        ctx.cif.mstids with
    | some ms =>
      simp only [hu]
      refine ⟨(ms, ctx.cif.mstids_sz), rfl, ?_, ?_⟩
      · obtain ⟨e, _, hpe, hfe⟩ := mstids_update_changed _ _ _ _ hu
        exact ⟨_, hfe, (of_decide_eq_true hpe).symm⟩
      · intro x hx
        exact mstids_update_others (fun e : conf_br_mstid => decide (N = e.id))
          (fun e => { e with set := true }) (fun e he => he) _ _ hu x
          (decide_eq_false (fun (e1 : N = x.id) => hx e1.symm))
    | none =>
      simp only [hu] at hok ⊢
      by_cases hg : decide ((ctx.cif.mstids.length + 1) * 8 > ctx.cif.mstids_sz) = true ∧
          env.realloc_ok = false
      · rw [if_pos hg] at hok
        exact absurd hok (by show ¬ ((-1 : Int) = 0); decide)
      · rw [if_neg hg]
        have hid : N % 65536 = N := by omega
        refine ⟨(_, _), rfl, ⟨_, List.mem_append_right _ (List.mem_singleton.2 rfl), hid⟩, ?_⟩
        intro x hx
        simp only [List.mem_append, List.mem_singleton]
        constructor
        · rintro (h | h)
          · exact h
          · exact absurd (by rw [h]; exact hid) hx
        · exact Or.inl
  obtain ⟨ms1, hc1, hex, hoth⟩ := hm
  rw [hc1]
  have hneg : ¬ ((N : Int) < 0) := by omega
  have hz : ¬ ((N : Int) = 0) := by omega
  obtain ⟨ms2, hu2⟩ := mstids_update_some
    (fun e : conf_br_mstid => decide ((N : Int) = (e.id : Int)))
    (fun e => { e with prio := (min P 65535 + 4095) / 4096, prio_set := true }) ms1.1
    (by
      obtain ⟨e, he, hid⟩ := hex
      exact ⟨e, he, decide_eq_true (by rw [hid])⟩)
  simp only [conf_opt_br_prio, conf_ctx.arg, List.getD_cons_zero, hP, hv, if_neg hneg,
    if_neg hz, hu2, true_and]
  refine ⟨?_, ?_⟩
  · obtain ⟨e, _, hpe, hfe⟩ := mstids_update_changed _ _ _ _ hu2
    refine ⟨_, hfe, ?_, rfl, rfl⟩
    have := of_decide_eq_true hpe
    show e.id = N
    omega
  · intro x hx
    have hne : ¬ ((N : Int) = (x.id : Int)) := fun e1 => hx (by omega)
    rw [mstids_update_others (fun e : conf_br_mstid => decide ((N : Int) = (e.id : Int)))
      (fun e => { e with prio := (min P 65535 + 4095) / 4096, prio_set := true })
      (fun e he => he) _ _ hu2 x (decide_eq_false hne)]
    exact hoth x hx

/-- The bridge lines `mstid 0` and `prio P`: the priority of the CIST is set and
the entries of `mstids` are left alone. -/
theorem mstid_zero_then_prio (env env1 : heap_env) (ctx : conf_ctx conf_br) (a p : List Char)
    (P : Nat) (h0 : str_getuint a = some 0) (hP : str_getuint p = some P) :
    (conf_opt_br_mstid env { ctx with argv := [a], argc := 1 }).1 = 0 ∧
    (conf_opt_br_prio env1
      { (conf_opt_br_mstid env { ctx with argv := [a], argc := 1 }).2 with
        argv := [p], argc := 1 }).1 = 0 ∧
    (conf_opt_br_prio env1
      { (conf_opt_br_mstid env { ctx with argv := [a], argc := 1 }).2 with
        argv := [p], argc := 1 }).2.cif.prio = (min P 65535 + 4095) / 4096 ∧
    (conf_opt_br_prio env1
      { (conf_opt_br_mstid env { ctx with argv := [a], argc := 1 }).2 with
        argv := [p], argc := 1 }).2.cif.prio_set = true ∧
    (conf_opt_br_prio env1
      { (conf_opt_br_mstid env { ctx with argv := [a], argc := 1 }).2 with
        argv := [p], argc := 1 }).2.cif.mstids = ctx.cif.mstids := by
  have hv : ((if P > MAX_BR_PRIO then MAX_BR_PRIO else P) + 4095) / 4096 % 65536
      = (min P 65535 + 4095) / 4096 := by
    unfold MAX_BR_PRIO
    split <;> omega
  have hc : (if 0 > MAX_MSTID then MAX_MSTID else 0) = 0 := by decide
  have hlt : ¬ ((0 : Int) < 0) := by decide
  simp only [conf_opt_br_mstid, conf_opt_br_prio, conf_ctx.arg, List.getD_cons_zero, h0, hc,
    if_true, hP, hv, if_neg hlt, and_self]

/-- C22 (the code at the failing input): on the file `mstid 5`, `prio 4096` with
a heap on which the `realloc` of the MSTID array fails (line 1),
`conf_if_load` calls both handlers and returns 0, no entry for MSTI 5 exists,
and the line `prio 4096` has set the priority of the CIST (`cbr->prio = 1`,
`cbr->prio_set` raised); on a heap on which the `realloc` succeeds the same
file leaves `cbr->prio_set` low and sets the priority of the entry of MSTI 5.
Whenever `conf_opt_br_mstid` returns 0 for `mstid N` with `1 <= N <= 4094`, a
following `prio P` is stored in an entry whose `id` is `N`, the entries with
another `id` and the priority of the CIST are left alone; after `mstid 0` it
is the priority of the CIST that is set, and `mstids` is left alone. -/
theorem mstid_scope_lost_on_alloc_failure :
    (conf_if_load conf_opts_br (mstid_fail_envs 1) (conf_ctx_init conf_br_init)
        (str_iobuf "mstid 5\nprio 4096\n".toList)).map
        (fun r => (r.1, r.2.2.2.map (fun c => c.optname), r.2.1.cif.mstids,
          r.2.1.cif.prio, r.2.1.cif.prio_set))
      = some (0, ["mstid".toList, "prio".toList], [], 1, true) ∧
    (conf_if_load conf_opts_br line_envs_ok (conf_ctx_init conf_br_init)
        (str_iobuf "mstid 5\nprio 4096\n".toList)).map
        (fun r => (r.1, r.2.2.2.map (fun c => c.optname), r.2.1.cif.mstids,
          r.2.1.cif.prio, r.2.1.cif.prio_set))
      = some (0, ["mstid".toList, "prio".toList],
          [{ id := 5, set := true, prio := 1, prio_set := true }], 0, false) ∧
    (∀ (env env1 : heap_env) (ctx : conf_ctx conf_br) (a p : List Char) (N P : Nat),
      str_getuint a = some N → 1 ≤ N ∧ N ≤ 4094 → str_getuint p = some P →
      (conf_opt_br_mstid env { ctx with argv := [a], argc := 1 }).1 = 0 →
      (conf_opt_br_prio env1
        { (conf_opt_br_mstid env { ctx with argv := [a], argc := 1 }).2 with
          argv := [p], argc := 1 }).1 = 0 ∧
      (conf_opt_br_prio env1
        { (conf_opt_br_mstid env { ctx with argv := [a], argc := 1 }).2 with
          argv := [p], argc := 1 }).2.cif.prio = ctx.cif.prio ∧
      (conf_opt_br_prio env1
        { (conf_opt_br_mstid env { ctx with argv := [a], argc := 1 }).2 with
          argv := [p], argc := 1 }).2.cif.prio_set = ctx.cif.prio_set ∧
      (∃ e ∈ (conf_opt_br_prio env1
          { (conf_opt_br_mstid env { ctx with argv := [a], argc := 1 }).2 with
            argv := [p], argc := 1 }).2.cif.mstids,
        e.id = N ∧ e.prio = (min P 65535 + 4095) / 4096 ∧ e.prio_set = true) ∧
      (∀ x : conf_br_mstid, x.id ≠ N →
        (x ∈ (conf_opt_br_prio env1
          { (conf_opt_br_mstid env { ctx with argv := [a], argc := 1 }).2 with
            argv := [p], argc := 1 }).2.cif.mstids ↔ x ∈ ctx.cif.mstids))) ∧
    (∀ (env env1 : heap_env) (ctx : conf_ctx conf_br) (a p : List Char) (P : Nat),
      str_getuint a = some 0 → str_getuint p = some P →
      (conf_opt_br_mstid env { ctx with argv := [a], argc := 1 }).1 = 0 ∧
      (conf_opt_br_prio env1
        { (conf_opt_br_mstid env { ctx with argv := [a], argc := 1 }).2 with
          argv := [p], argc := 1 }).1 = 0 ∧
      (conf_opt_br_prio env1
        { (conf_opt_br_mstid env { ctx with argv := [a], argc := 1 }).2 with
          argv := [p], argc := 1 }).2.cif.prio = (min P 65535 + 4095) / 4096 ∧
      (conf_opt_br_prio env1
        { (conf_opt_br_mstid env { ctx with argv := [a], argc := 1 }).2 with
          argv := [p], argc := 1 }).2.cif.prio_set = true ∧
      (conf_opt_br_prio env1
        { (conf_opt_br_mstid env { ctx with argv := [a], argc := 1 }).2 with
          argv := [p], argc := 1 }).2.cif.mstids = ctx.cif.mstids) :=
  ⟨by decide!, by decide!,
    fun env env1 ctx a p N P hN hN1 hP hok => mstid_then_prio env env1 ctx a p N P hN hN1 hP hok,
    fun env env1 ctx a p P h0 hP => mstid_zero_then_prio env env1 ctx a p P h0 hP⟩

/-- C23 (the code at the failing input): on the file `mstid 5`, read on a heap
whose `realloc` hands out memory that is not zero, the new entry keeps the
`prio` and `prio_set` found in that memory, and `mstpd_conf_load_br` creates
MSTI 5 and calls `MSTP_IN_set_msti_bridge_config` for it, with priority
3 * 4096; `conf_prt_add_mstid` on the same heap adds an entry whose `prio_set`
is low. -/
theorem new_msti_prio_not_cleared :
    load_outcome (mstpd_conf_load_br
        (file_load_env "mstid 5\n".toList [] heap_fn_ok line_envs_junk))
      = some (true, ["MSTP_IN_create_msti".toList,
          "MSTP_IN_set_msti_bridge_config".toList]) ∧
    (conf_br_load [(heap_env_junk, ["mstid".toList, "5".toList])]).2.cif.mstids
      = [{ id := 5, set := true, prio := 3, prio_set := true }] ∧
    mstpd_conf_apply_br (fun _ => true)
        (conf_br_load [(heap_env_junk, ["mstid".toList, "5".toList])]).2.cif
      = [MSTP_IN_call.create_msti 5, MSTP_IN_call.set_msti_bridge_config 5 12288] ∧
    (conf_prt_add_mstid heap_env_junk conf_prt_init 5).2.mstids
      = [{ id := 5, set := false, prio := 0, prio_set := false,
           int_cost := 0, int_cost_set := false }] := by
  refine ⟨by decide!, by decide, rfl, by decide⟩

/-- C24 (the code at the failing input): after the bridge lines `mstid 1`, ...,
`mstid 16` the line `mstid 17` makes `conf_opt_br_mstid` return 0 with 17
entries of 8 bytes in an allocation of `mstids_sz = 128` bytes; after MSTIDs
1, ..., 8 the call `conf_prt_add_mstid(cprt, 9)` returns 0 with 9 entries of
16 bytes in an allocation of 128 bytes. -/
theorem mstids_array_outgrows_allocation :
    ((conf_opt_br_mstid heap_env_ok
        { (conf_br_load (mstid_lines 16)).2 with argv := ["17".toList], argc := 1 }).1,
      (conf_opt_br_mstid heap_env_ok
        { (conf_br_load (mstid_lines 16)).2 with argv := ["17".toList], argc := 1 }
        ).2.cif.mstids.length,
      (conf_opt_br_mstid heap_env_ok
        { (conf_br_load (mstid_lines 16)).2 with argv := ["17".toList], argc := 1 }
        ).2.cif.mstids_sz) = (0, 17, 128) ∧
    ¬ 17 * 8 ≤ 128 ∧
    ((conf_prt_add_mstid heap_env_ok (mstpd_conf_prepare_prt (msti_trees 8) conf_prt_init) 9).1,
      (conf_prt_add_mstid heap_env_ok
        (mstpd_conf_prepare_prt (msti_trees 8) conf_prt_init) 9).2.mstids.length,
      (conf_prt_add_mstid heap_env_ok
        (mstpd_conf_prepare_prt (msti_trees 8) conf_prt_init) 9).2.mstids_sz) = (0, 9, 128) ∧
    ¬ 9 * 16 ≤ 128 := by
  refine ⟨by decide!, by decide, by decide!, by decide⟩

/-! ## The port priority handed to the protocol engine -/

/-- The loop of `conf_opt_br_vids` over tokens that are well-formed VID lists:
every token is decoded, the flag is raised, and exactly the VIDs named by some
token are mapped to the MSTI. -/
theorem conf_opt_br_vids_args_tokens (mstid : Nat) :
    ∀ (toks : List (List vid_item)) (t : vid_table) (s : Bool),
      (∀ items ∈ toks, ∀ i ∈ items, i.wf = true) →
      (conf_opt_br_vids_args mstid (toks.map vid_list_str) (t, s)).2
          = (s || !toks.isEmpty) ∧
      ∀ v, ((∃ items ∈ toks, ∃ i ∈ items, i.covers v) →
              (conf_opt_br_vids_args mstid (toks.map vid_list_str) (t, s)).1 v = mstid) ∧
           ((¬ ∃ items ∈ toks, ∃ i ∈ items, i.covers v) →
              (conf_opt_br_vids_args mstid (toks.map vid_list_str) (t, s)).1 v = t v)
  | [], t, s, _ => by simp [conf_opt_br_vids_args]
  | items :: rest, t, s, hwf => by
    obtain ⟨t1, hdec, hcov⟩ := conf_vids_dec_loop_list mstid items
      (fun i hi => hwf items (List.mem_cons_self _ _) i hi) t
      ((vid_list_str items).length + 1) (Nat.lt_succ_self _)
    have hdec1 : conf_vids_dec t (vid_list_str items) mstid = some (0, t1) := hdec
    have ih := conf_opt_br_vids_args_tokens mstid rest t1 true
      (fun its h i hi => hwf its (List.mem_cons_of_mem _ h) i hi)
    simp only [List.map_cons, conf_opt_br_vids_args, hdec1, if_true]
    refine ⟨by simp [ih.1], fun v => ⟨?_, ?_⟩⟩
    · rintro ⟨its, hits, i, hi, hc⟩
      by_cases hr : ∃ items ∈ rest, ∃ i ∈ items, i.covers v
      · exact (ih.2 v).1 hr
      · rw [(ih.2 v).2 hr]
        rcases List.mem_cons.1 hits with rfl | h1
        · exact (hcov v).1 ⟨i, hi, hc⟩
        · exact absurd ⟨its, h1, i, hi, hc⟩ hr
    · intro hn
      have hr : ¬ ∃ items ∈ rest, ∃ i ∈ items, i.covers v :=
        fun ⟨its, h1, i, hi, hc⟩ => hn ⟨its, List.mem_cons_of_mem _ h1, i, hi, hc⟩
      rw [(ih.2 v).2 hr]
      exact (hcov v).2 (fun ⟨i, hi, hc⟩ => hn ⟨items, List.mem_cons_self _ _, i, hi, hc⟩)

/-- The first word of a line that begins with `#` begins with `#`. -/
theorem line_words_hash (cs : List Char) :
    ∃ w ws, line_words ('#' :: cs) = ('#' :: w) :: ws := by
  have hs : starts_word ('#' :: cs) := ⟨'#', cs, rfl, by decide, by decide, by decide⟩
  have hw := word_len_pos _ hs
  obtain ⟨k, hk⟩ : ∃ k, word_len ('#' :: cs) = k + 1 := ⟨word_len ('#' :: cs) - 1, by omega⟩
  rw [line_words_word _ hs, hk]
  exact ⟨_, _, rfl⟩
theorem conf_if_load_opt_vids (env : heap_env) (ctx : conf_ctx conf_br)
    (args : List (List Char)) (hk : 1 ≤ args.length) :
    conf_if_load_opt conf_opts_br env ctx ("vids".toList :: args)
        ((("vids".toList :: args).length : Nat) : Int)
      = conf_opt_br_vids env { ctx with argv := args, argc := (args.length : Int) } ∧
    conf_if_load_call conf_opts_br ("vids".toList :: args)
        ((("vids".toList :: args).length : Nat) : Int)
      = some { optname := "vids".toList, argv := args, argc := (args.length : Int) } := by
  have hg : conf_opt_get ((("vids".toList) :: args).getD 0 []) conf_opts_br
      = some { name := "vids".toList, argc_min := 1, argc_max := 0,
               func := conf_opt_br_vids } := by
    rfl
  have hl : (((("vids".toList) :: args).length : Nat) : Int) - 1 = (args.length : Int) := by
    simp
  have h1 : ¬ ((1 : Int) > (args.length : Int)) := by omega
  simp only [conf_if_load_opt, conf_if_load_call, hg, hl, if_neg h1]
  simp

/-- C25 (amended): a `vids` line in the scope of an existing MSTI `N`, with
`k >= 1` tokens after the keyword that are well-formed VID lists, read while
the line buffer can be had: the handler is called with the first `min k 7`
tokens, each of them is decoded, the flag `vid2mstid_set` is raised, and the
table maps exactly the VIDs named by one of these tokens to `N` anew.  For
`k <= 7` these are all the tokens of the line. -/
theorem vids_line_tokens (envs : Nat → line_env) (ctx : conf_ctx conf_br) (iob : iobuf)
    (ls N : Nat) (toks : List (List vid_item))
    (h : iob.pos < iob.size) (hL : (clean_line iob.unread).length < INT_MAX)
    (hw : line_words iob.line_text = "vids".toList :: toks.map vid_list_str)
    (hk : 1 ≤ toks.length)
    (hwf : ∀ items ∈ toks, ∀ i ∈ items, i.wf = true)
    (hN : ctx.mstid = (N : Int)) (hN1 : 1 ≤ N ∧ N ≤ 4094)
    (hex : ∃ e ∈ ctx.cif.mstids, e.id = N)
    (hok : (envs ctx.line).line_ok = true) :
    ∃ ctx1 ls1,
      conf_if_load_line conf_opts_br envs ctx iob ls
        = some (line_step.next ctx1 iob.advance ls1
            [{ optname := "vids".toList, argv := (toks.take 7).map vid_list_str,
               argc := ((toks.take 7).length : Int) }]) ∧
      ctx1.cif.vid2mstid_set = true ∧
      (∀ v, ((∃ items ∈ toks.take 7, ∃ i ∈ items, i.covers v) → ctx1.cif.vid2mstid v = N) ∧
            ((¬ ∃ items ∈ toks.take 7, ∃ i ∈ items, i.covers v) →
              ctx1.cif.vid2mstid v = ctx.cif.vid2mstid v)) ∧
      (toks.length ≤ 7 → toks.take 7 = toks) := by
  have hne : iob.line_text ≠ [] := by
    intro e
    rw [e] at hw
    cases hw
  have hhash : ¬ iob.line_text.head? = some '#' := by
    intro e
    cases hlt : iob.line_text with
    | nil => exact hne hlt
    | cons c cs =>
      rw [hlt] at e hw
      have hc : c = '#' := Option.some.inj e
      rw [hc] at hw
      obtain ⟨w, ws, hh⟩ := line_words_hash cs
      rw [hh] at hw
      have h2 : some '#' = some 'v' := congrArg List.head? (List.cons.inj hw).1
      exact absurd h2 (by decide)
  have htake : (line_words iob.line_text).take 8
      = "vids".toList :: (toks.take 7).map vid_list_str := by
    rw [hw, List.take_succ_cons, List.map_take]
  have hne8 : ¬ (line_words iob.line_text).take 8 = [] := by
    rw [htake]
    exact List.cons_ne_nil _ _
  have hk7 : 1 ≤ ((toks.take 7).map vid_list_str).length := by
    rw [List.length_map, List.length_take]
    omega
  obtain ⟨hopt, hcall⟩ := conf_if_load_opt_vids (envs ctx.line).heap ctx
    ((toks.take 7).map vid_list_str) hk7
  have hwf7 : ∀ items ∈ toks.take 7, ∀ i ∈ items, i.wf = true :=
    fun its hi => hwf its (List.mem_of_mem_take hi)
  have hargs := conf_opt_br_vids_args_tokens N (toks.take 7) ctx.cif.vid2mstid
    ctx.cif.vid2mstid_set hwf7
  have hany : ctx.cif.mstids.any (fun e => decide ((N : Int) = (e.id : Int))) = true := by
    obtain ⟨e, he, hid⟩ := hex
    rw [List.any_eq_true]
    exact ⟨e, he, by simp [hid]⟩
  have hN0 : ¬ ((N : Int) = 0) := by omega
  have hNm : (N : Int).toNat % 65536 = N := by
    rw [Int.toNat_ofNat]
    omega
  have hvids : conf_opt_br_vids (envs ctx.line).heap
      { ctx with argv := (toks.take 7).map vid_list_str,
                 argc := (((toks.take 7).map vid_list_str).length : Int) }
      = (0, { ctx with
          argv := (toks.take 7).map vid_list_str,
          argc := (((toks.take 7).map vid_list_str).length : Int),
          cif := { ctx.cif with
            vid2mstid := (conf_opt_br_vids_args N ((toks.take 7).map vid_list_str)
              (ctx.cif.vid2mstid, ctx.cif.vid2mstid_set)).1,
            vid2mstid_set := (conf_opt_br_vids_args N ((toks.take 7).map vid_list_str)
              (ctx.cif.vid2mstid, ctx.cif.vid2mstid_set)).2 } }) := by
    have hNm2 : N % 65536 = N := by omega
    simp only [conf_opt_br_vids, hN, if_neg hN0, hany, if_true, hNm2, Int.toNat_ofNat,
      List.take_length]
  rw [conf_if_load_line_eq conf_opts_br envs ctx iob ls h hL, if_neg hne, if_neg hhash,
    if_neg (by rw [hok]; simp)]
  simp only [htake, List.cons_ne_nil, if_false]
  have hlen8 : ((("vids".toList :: (toks.take 7).map vid_list_str).length : Nat) : Int)
      = (((("vids".toList :: (toks.take 7).map vid_list_str)).length : Nat) : Int) := rfl
  rw [hopt, hcall, hvids, if_neg (by show ¬ ((0 : Int) < -1); decide)]
  simp only [Option.toList, List.length_map]
  refine ⟨_, _, rfl, ?_, ?_, ?_⟩
  · show (conf_opt_br_vids_args N ((toks.take 7).map vid_list_str)
      (ctx.cif.vid2mstid, ctx.cif.vid2mstid_set)).2 = true
    rw [hargs.1]
    have hemp : ∀ (l : List (List vid_item)), 1 ≤ l.length → (l.take 7).isEmpty = false := by
      intro l hl
      cases l with
      | nil => simp at hl
      | cons a b => rfl
    have := hemp toks hk
    simp [this]
  · exact hargs.2
  · intro h7
    exact List.take_of_length_le h7

/-- C25 (witness): the line `vids 1-3 7` in the scope of MSTI 1. -/
theorem vids_line_tokens_witness :
    ∃ ctx1 ls1,
      conf_if_load_line conf_opts_br line_envs_ok msti_1_ctx
          (str_iobuf "vids 1-3 7\n".toList) 0
        = some (line_step.next ctx1 (str_iobuf "vids 1-3 7\n".toList).advance ls1
            [{ optname := "vids".toList, argv := (vids_toks.take 7).map vid_list_str,
               argc := ((vids_toks.take 7).length : Int) }]) ∧
      ctx1.cif.vid2mstid_set = true ∧
      (∀ v, ((∃ items ∈ vids_toks.take 7, ∃ i ∈ items, i.covers v) →
              ctx1.cif.vid2mstid v = 1) ∧
            ((¬ ∃ items ∈ vids_toks.take 7, ∃ i ∈ items, i.covers v) →
              ctx1.cif.vid2mstid v = msti_1_ctx.cif.vid2mstid v)) ∧
      (vids_toks.length ≤ 7 → vids_toks.take 7 = vids_toks) :=
  vids_line_tokens line_envs_ok msti_1_ctx (str_iobuf "vids 1-3 7\n".toList) 0 1 vids_toks
    (by decide) (by decide) (by decide) (by decide) (by decide) (by decide) (by decide)
    (by decide) rfl

/-- C25 (counterexample): on the file `mstid 1`, `vids 1 2 3 4 5 6 7 8` the
handler of `vids` is called with the seven arguments `1`, ..., `7`; VID 7 is
mapped to MSTI 1 and VID 8, named by the eighth token, is not. -/
theorem vids_eighth_token_dropped :
    (conf_if_load conf_opts_br line_envs_ok (conf_ctx_init conf_br_init)
        (str_iobuf "mstid 1\nvids 1 2 3 4 5 6 7 8\n".toList)).map
        (fun r => (r.1, r.2.2.2.drop 1, r.2.1.cif.vid2mstid 7, r.2.1.cif.vid2mstid 8))
      = some (0,
          [{ optname := "vids".toList,
             argv := ["1".toList, "2".toList, "3".toList, "4".toList, "5".toList,
               "6".toList, "7".toList],
             argc := 7 }],
          1, 0) := by
  decide!

/-! ## The tokens of a line -/

/-- Where the loop of `conf_if_load` over the leading blanks stops with bytes
left, the byte met is neither TAB nor SPACE. -/
theorem skip_blank_stop (data : char_buf) : ∀ (n b : Nat),
    (skip_blank data n b).2 ≠ 0 →
      data (skip_blank data n b).1 ≠ TAB ∧ data (skip_blank data n b).1 ≠ SPACE
  | 0, b => by simp [skip_blank]
  | n + 1, b => by
    rw [skip_blank]
    by_cases h : data b ≠ TAB ∧ data b ≠ SPACE
    · rw [if_pos h]
      exact fun _ => h
    · rw [if_neg h]
      exact skip_blank_stop data n (b + 1)

/-- C26 (amended): for every line `s` followed by its NUL and a spare byte, and
every `argc_max >= 1`, `conf_split_line` returns the smaller of `argc_max` and
the number of words of `s` (the maximal runs of bytes other than TAB and
SPACE), and for every `i` below that count the string at `argv[i]` is the
`i`-th word.  In `conf_if_load`, whenever a line is handed to
`conf_split_line` (it was read, bytes are left after the leading blanks, the
first of them is not `#`) and its first byte is not NUL, the count returned is
at least 1. -/
theorem conf_split_line_runs :
    (∀ (s : List Char) (x : Char) (amax : Nat), 1 ≤ amax →
      ∃ argv final,
        conf_split_line (amax : Int) (s ++ [NUL, x])
          = some (min (line_words s).length amax, argv, final) ∧
        ∀ i, i < min (line_words s).length amax → argv[i]? = (line_words s)[i]?) ∧
    (∀ (iob : iobuf),
      ¬ (iobuf_readcleanline iob).1 < 1 →
      (skip_blank (iobuf_readcleanline iob).2.2.data ((iobuf_readcleanline iob).1 - 1).toNat
          ((iobuf_readcleanline iob).2.1.getD 0)).2 ≠ 0 →
      (iobuf_readcleanline iob).2.2.data
          (skip_blank (iobuf_readcleanline iob).2.2.data
            ((iobuf_readcleanline iob).1 - 1).toNat
            ((iobuf_readcleanline iob).2.1.getD 0)).1 ≠ '#' →
      (iobuf_readcleanline iob).2.2.data
          (skip_blank (iobuf_readcleanline iob).2.2.data
            ((iobuf_readcleanline iob).1 - 1).toNat
            ((iobuf_readcleanline iob).2.1.getD 0)).1 ≠ NUL →
      ∃ argc argv final,
        conf_split_line 8
            (buf_bytes (iobuf_readcleanline iob).2.2.data
              (skip_blank (iobuf_readcleanline iob).2.2.data
                ((iobuf_readcleanline iob).1 - 1).toNat
                ((iobuf_readcleanline iob).2.1.getD 0)).1
              (skip_blank (iobuf_readcleanline iob).2.2.data
                ((iobuf_readcleanline iob).1 - 1).toNat
                ((iobuf_readcleanline iob).2.1.getD 0)).2 ++ [NUL, NUL])
          = some (argc, argv, final) ∧ 1 ≤ argc) := by
  constructor
  · intro s x amax hmax
    obtain ⟨final, hsp⟩ := conf_split_line_words amax hmax (s ++ [NUL, x])
    rw [line_words_append_nul] at hsp
    refine ⟨if (line_words s).take amax = [] then [[]] else (line_words s).take amax,
      final, ?_, ?_⟩
    · rw [hsp, List.length_take, Nat.min_comm]
    · intro i hi
      have hne : (line_words s).take amax ≠ [] := by
        intro e
        have := congrArg List.length e
        rw [List.length_take] at this
        simp only [List.length_nil] at this
        omega
      rw [if_neg hne, List.getElem?_take_of_lt (by omega)]
  · intro iob _ hlen _ hnul
    generalize (iobuf_readcleanline iob).2.2.data = data at *
    generalize ((iobuf_readcleanline iob).1 - 1).toNat = n at *
    generalize (iobuf_readcleanline iob).2.1.getD 0 = b at *
    have hstop := skip_blank_stop data n b hlen
    obtain ⟨m, hm⟩ : ∃ m, (skip_blank data n b).2 = m + 1 :=
      ⟨(skip_blank data n b).2 - 1, by omega⟩
    have hsw : starts_word (buf_bytes data (skip_blank data n b).1 (skip_blank data n b).2
        ++ [NUL, NUL]) := by
      rw [hm, buf_bytes_succ]
      exact ⟨_, _, rfl, hnul, hstop.1, hstop.2⟩
    obtain ⟨final, hsp⟩ := conf_split_line_words 8 (by omega)
      (buf_bytes data (skip_blank data n b).1 (skip_blank data n b).2 ++ [NUL, NUL])
    refine ⟨_, _, final, hsp, ?_⟩
    have hne := line_words_ne_nil _ hsw 8 (by omega)
    exact List.length_pos.mpr hne

/-- C26 (counterexample): a file that holds the byte NUL and a line feed.  The
line is read (the value returned is 2), one byte is left after the leading
blanks, and it is not `#`; `conf_split_line` returns 0 on it, with the empty
string at `argv[0]`, and `conf_if_load` has grown the line buffer to 128 bytes
for it and goes on without a handler. -/
theorem conf_split_line_nul_line :
    ¬ (iobuf_readcleanline (str_iobuf [NUL, LF])).1 < 1 ∧
    skip_blank (iobuf_readcleanline (str_iobuf [NUL, LF])).2.2.data
        ((iobuf_readcleanline (str_iobuf [NUL, LF])).1 - 1).toNat
        ((iobuf_readcleanline (str_iobuf [NUL, LF])).2.1.getD 0) = (0, 1) ∧
    (iobuf_readcleanline (str_iobuf [NUL, LF])).2.2.data 0 ≠ '#' ∧
    (conf_split_line 8
        (buf_bytes (iobuf_readcleanline (str_iobuf [NUL, LF])).2.2.data 0 1 ++ [NUL, NUL])).map
        (fun r => (r.1, r.2.1)) = some (0, [[]]) ∧
    ¬ 1 ≤ 0 ∧
    (conf_if_load_line conf_opts_br line_envs_ok (conf_ctx_init conf_br_init)
        (str_iobuf [NUL, LF]) 0).map line_step.line_size = some (some 128) := by
  decide

/-! ## The stores of `conf_vids_enc` -/

/-- C27 (the code at the failing input): for the table of the bridge file
`long_vid_lines`, whose listing for MSTI 1 does not fit 1024 bytes,
`conf_vids_enc` returns -1 and its last store is the NUL at index 2043 of the
buffer of 1024 bytes.  For the table of the lines `mstid 1`, `vids 10`,
`mstid 2` and MSTI 2, to which no VID maps, it returns 0 after the single store
of a NUL at index 1023, so a buffer that held the listing `10` of MSTI 1 before
the call holds it afterwards, not the empty string. -/
theorem conf_vids_enc_stores_outside :
    (conf_vids_enc 1024 even_vid_table 1).map (fun r => (r.1, r.2.getLast?))
      = some (-1, some (2043, NUL)) ∧
    ¬ 2043 < 1024 ∧
    conf_vids_enc 1024 two_msti_table 2 = some (0, [(1023, NUL)]) ∧
    (conf_vids_enc 1024 two_msti_table 1).map
        (fun r => (r.1, buf_cstr (buf_apply (buf_apply (fun _ => 'x') r.2) [(1023, NUL)]) 1024 0))
      = some (0, "10".toList) := by
  refine ⟨by decide!, by decide, by decide!, by decide!⟩

/-! ## Progress of the line reader and line numbers -/

theorem CONF_FN_OPT_UINT_line {α : Type} (store : α → Nat → α) (env : heap_env)
    (ctx : conf_ctx α) : (CONF_FN_OPT_UINT store env ctx).2.line = ctx.line := by
  unfold CONF_FN_OPT_UINT
  split <;> rfl

theorem CONF_FN_OPT_UINTX_line {α : Type} (store : α → Nat → α) (m : Nat) (env : heap_env)
    (ctx : conf_ctx α) : (CONF_FN_OPT_UINTX store m env ctx).2.line = ctx.line := by
  unfold CONF_FN_OPT_UINTX
  split <;> rfl

theorem CONF_FN_OPT_YESNO_line {α : Type} (store : α → Bool → α) (env : heap_env)
    (ctx : conf_ctx α) : (CONF_FN_OPT_YESNO store env ctx).2.line = ctx.line := by
  unfold CONF_FN_OPT_YESNO
  simp only
  split <;> rfl

/-- No handler of a bridge option touches `ctx->line`. -/
theorem conf_opts_br_line : ∀ o ∈ conf_opts_br, ∀ (env : heap_env) (ctx : conf_ctx conf_br),
    (o.func env ctx).2.line = ctx.line := by
  intro o ho env ctx
  simp only [conf_opts_br, List.mem_cons, List.mem_singleton, List.not_mem_nil, or_false] at ho
  rcases ho with rfl | rfl | rfl | rfl | rfl | rfl | rfl | rfl | rfl | rfl | rfl
  · simp only [conf_opt_br_mode]
    split <;> rfl
  · exact CONF_FN_OPT_UINTX_line _ _ env ctx
  · exact CONF_FN_OPT_UINTX_line _ _ env ctx
  · exact CONF_FN_OPT_UINTX_line _ _ env ctx
  · exact CONF_FN_OPT_UINTX_line _ _ env ctx
  · exact CONF_FN_OPT_UINT_line _ env ctx
  · exact CONF_FN_OPT_UINTX_line _ _ env ctx
  · simp only [conf_opt_br_confid]
    split <;> rfl
  · simp only [conf_opt_br_mstid]
    repeat' split
    all_goals rfl
  · simp only [conf_opt_br_prio]
    repeat' split
    all_goals rfl
  · simp only [conf_opt_br_vids]
    repeat' split
    all_goals rfl

/-- No handler of a port option touches `ctx->line`. -/
theorem conf_opts_prt_line : ∀ o ∈ conf_opts_prt, ∀ (env : heap_env) (ctx : conf_ctx conf_prt),
    (o.func env ctx).2.line = ctx.line := by
  intro o ho env ctx
  simp only [conf_opts_prt, List.mem_cons, List.mem_singleton, List.not_mem_nil, or_false] at ho
  rcases ho with rfl | rfl | rfl | rfl | rfl | rfl | rfl | rfl | rfl | rfl | rfl | rfl | rfl
  · exact CONF_FN_OPT_YESNO_line _ env ctx
  · exact CONF_FN_OPT_YESNO_line _ env ctx
  · simp only [conf_opt_prt_p2p]
    split <;> rfl
  · exact CONF_FN_OPT_YESNO_line _ env ctx
  · exact CONF_FN_OPT_YESNO_line _ env ctx
  · exact CONF_FN_OPT_YESNO_line _ env ctx
  · exact CONF_FN_OPT_YESNO_line _ env ctx
  · exact CONF_FN_OPT_YESNO_line _ env ctx
  · exact CONF_FN_OPT_YESNO_line _ env ctx
  · simp only [conf_opt_prt_mstid]
    repeat' split
    all_goals rfl
  · simp only [conf_opt_prt_prio]
    repeat' split
    all_goals rfl
  · simp only [conf_opt_prt_int_cost]
    repeat' split
    all_goals rfl
  · simp only [conf_opt_prt_ext_cost]
    split <;> rfl

/-- With handlers that leave `ctx->line` alone, the part of the loop body that
follows `conf_split_line` leaves it alone. -/
theorem conf_if_load_opt_line {α : Type} (opts : List (conf_opt α))
    (hline : ∀ o ∈ opts, ∀ (env : heap_env) (ctx : conf_ctx α),
      (o.func env ctx).2.line = ctx.line)
    (env : heap_env) (ctx : conf_ctx α) (argv : List (List Char)) (argc : Int) :
    (conf_if_load_opt opts env ctx argv argc).2.line = ctx.line := by
  unfold conf_if_load_opt
  cases hg : conf_opt_get (argv.getD 0 []) opts with
  | none => rfl
  | some o =>
    have ho := conf_opt_get_mem _ _ _ hg
    simp only
    split
    · rfl
    · split
      · rfl
      · exact hline o ho env _

/-- A turn of the line loop that goes on hands on the `ctx->line` it was
entered with. -/
theorem conf_if_load_line_line {α : Type} (opts : List (conf_opt α))
    (hline : ∀ o ∈ opts, ∀ (env : heap_env) (ctx : conf_ctx α),
      (o.func env ctx).2.line = ctx.line)
    (envs : Nat → line_env) (ctx : conf_ctx α) (iob : iobuf) (ls : Nat) (ctx1 : conf_ctx α)
    (iob1 : iobuf) (ls1 : Nat) (calls : List opt_call)
    (h : conf_if_load_line opts envs ctx iob ls = some (line_step.next ctx1 iob1 ls1 calls)) :
    ctx1.line = ctx.line := by
  simp only [conf_if_load_line] at h
  split at h
  · cases h
  · split at h
    · cases h; rfl
    · split at h
      · cases h; rfl
      · split at h
        · cases h
        · split at h
          · cases h
          · split at h
            · cases h
            · cases h
              exact conf_if_load_opt_line opts hline _ _ _ _

/-- The state in which turn `k + 1` of the line loop is entered: `ctx->line` has
been incremented `k` times and `k` lines of the buffer have been read. -/
theorem conf_if_load_turn_line {α : Type} (opts : List (conf_opt α))
    (hline : ∀ o ∈ opts, ∀ (env : heap_env) (ctx : conf_ctx α),
      (o.func env ctx).2.line = ctx.line)
    (envs : Nat → line_env) :
    ∀ (k : Nat) (ctx : conf_ctx α) (iob : iobuf) (ls : Nat) (c : conf_ctx α) (b : iobuf)
      (l : Nat), conf_if_load_turn opts envs k ctx iob ls = some (c, b, l) →
      c.line = ctx.line + k ∧ b = (iobuf.advance^[k]) iob
  | 0, ctx, iob, ls, c, b, l, h => by
    simp only [conf_if_load_turn, Option.some.injEq, Prod.mk.injEq] at h
    obtain ⟨rfl, rfl, _⟩ := h
    exact ⟨rfl, rfl⟩
  | k + 1, ctx, iob, ls, c, b, l, h => by
    rw [conf_if_load_turn] at h
    cases hl : conf_if_load_line opts envs ctx iob ls with
    | none => simp [hl] at h
    | some st =>
      cases st with
      | stop fnret ctx1 iob1 calls => simp [hl] at h
      | next ctx1 iob1 ls1 calls =>
        simp only [hl] at h
        have h1 := conf_if_load_line_line opts hline envs ctx iob ls ctx1 iob1 ls1 calls hl
        have h2 := (conf_if_load_line_next opts envs ctx iob ls ctx1 iob1 ls1 calls hl).2
        obtain ⟨h3, h4⟩ := conf_if_load_turn_line opts hline envs k _ iob1 ls1 c b l h
        refine ⟨?_, ?_⟩
        · rw [h3]
          show ctx1.line + 1 + k = ctx.line + (k + 1)
          omega
        · rw [h4, h2, Function.iterate_succ_apply]

/-- The state in which a turn of the line loop is entered is a state of the
loop: from it the loop returns what it returns from the start, the handlers
called before aside. -/
theorem conf_if_load_turn_from {α : Type} (opts : List (conf_opt α)) (envs : Nat → line_env) :
    ∀ (k : Nat) (ctx : conf_ctx α) (iob : iobuf) (ls : Nat) (c : conf_ctx α) (b : iobuf)
      (l : Nat), conf_if_load_turn opts envs k ctx iob ls = some (c, b, l) →
      ∃ r r1 pre, conf_if_load_from opts envs c b l = some r1 ∧
        conf_if_load_from opts envs ctx iob ls = some r ∧
        r = (r1.1, r1.2.1, r1.2.2.1, pre ++ r1.2.2.2)
  | 0, ctx, iob, ls, c, b, l, h => by
    simp only [conf_if_load_turn, Option.some.injEq, Prod.mk.injEq] at h
    obtain ⟨rfl, rfl, rfl⟩ := h
    obtain ⟨r, hr⟩ := conf_if_load_from_total opts envs ctx iob ls
    exact ⟨r, r, [], hr, hr, rfl⟩
  | k + 1, ctx, iob, ls, c, b, l, h => by
    rw [conf_if_load_turn] at h
    cases hl : conf_if_load_line opts envs ctx iob ls with
    | none => simp [hl] at h
    | some st =>
      cases st with
      | stop fnret ctx1 iob1 calls => simp [hl] at h
      | next ctx1 iob1 ls1 calls =>
        simp only [hl] at h
        obtain ⟨r, r1, pre, h1, h2, h3⟩ := conf_if_load_turn_from opts envs k _ iob1 ls1 c b l h
        obtain ⟨r2, h4, h5⟩ := conf_if_load_from_next opts envs ctx iob ls ctx1 iob1 ls1 calls hl
        rw [h2] at h4
        have h6 : r2 = r := (Option.some.inj h4).symm
        rw [h6, h3] at h5
        exact ⟨_, r1, calls ++ pre, h1, h5, by simp⟩

theorem huge_line_buf_clean :
    raw_line huge_line_buf.unread = buf_bytes (fun _ => 'a') 0 4294967294 ∧
    clean_line huge_line_buf.unread = buf_bytes (fun _ => 'a') 0 4294967294 := by
  have hu : huge_line_buf.unread = buf_bytes (fun _ => 'a') 0 4294967294 ++ [] := by
    rw [List.append_nil]
    rfl
  rw [hu]
  apply clean_line_run _ _ _ (Or.inl rfl)
  intro c hc
  obtain ⟨i, _, rfl⟩ := buf_bytes_mem _ _ _ _ hc
  decide

/-- C28 (the code at the failing input): on a buffer that holds a single line of 4294967294
bytes `a`, with `pos = 0 < size`, `iobuf_readcleanline` returns -1 and has
moved `pos` to `size`. -/
theorem iobuf_readcleanline_minus_one :
    huge_line_buf.pos < huge_line_buf.size ∧
    (iobuf_readcleanline huge_line_buf).1 = -1 ∧
    (iobuf_readcleanline huge_line_buf).2.2.pos = 4294967294 ∧
    (iobuf_readcleanline huge_line_buf).2.2.pos ≠ huge_line_buf.pos := by
  have hp : huge_line_buf.pos < huge_line_buf.size := by decide
  have hlen : (clean_line huge_line_buf.unread).length = 4294967294 := by
    rw [huge_line_buf_clean.2, buf_bytes_length]
  have hraw : (raw_line huge_line_buf.unread).length = 4294967294 := by
    rw [huge_line_buf_clean.1, buf_bytes_length]
  have hul : huge_line_buf.unread.length = 4294967294 := buf_bytes_length _ _ _
  have hnext : huge_line_buf.next_pos = 4294967294 := by
    simp only [iobuf.next_pos, hraw, hul]
    rfl
  have ht : to_int (4294967294 + 1) = -1 := by decide
  have key := iobuf_readcleanline_eq _ hp
  have h1 : (iobuf_readcleanline huge_line_buf).1
      = to_int ((clean_line huge_line_buf.unread).length + 1) := by rw [key]
  have h2 : (iobuf_readcleanline huge_line_buf).2.2.pos = huge_line_buf.next_pos := by
    rw [key]
  rw [h1, h2, hlen, hnext]
  exact ⟨hp, ht, rfl, by decide⟩

/-- When `pos >= size`, `iobuf_readcleanline` returns -1 and
leaves the buffer as it is; when `pos < size` it moves `pos` forward, keeps
`pos <= size` and leaves `size` alone, and the value it returns is at least 1
provided the line read, without its trailing CR, TAB and SPACE bytes, is
shorter than `INT_MAX` (so that for such lines -1 is returned if and only if
`pos >= size`).  The line loop of `conf_if_load` returns after at most
`size + 1` turns, for every buffer and from every state.  With the bridge
options and with the port options, the turn number `k + 1` of the loop, if it
is reached, is entered with `ctx->line` incremented `k` times and with `k`
lines of the buffer read: the handler of that turn runs with `ctx->line` equal
to the number of the line it handles. -/
theorem line_reader_progress :
    (∀ b : iobuf, b.pos ≥ b.size → iobuf_readcleanline b = (-1, none, b)) ∧
    (∀ b : iobuf, b.pos < b.size →
      b.pos < (iobuf_readcleanline b).2.2.pos ∧
      (iobuf_readcleanline b).2.2.pos ≤ b.size ∧
      (iobuf_readcleanline b).2.2.size = b.size ∧
      ((clean_line b.unread).length < INT_MAX → 1 ≤ (iobuf_readcleanline b).1)) ∧
    (∀ (α : Type) (opts : List (conf_opt α)) (envs : Nat → line_env) (ctx : conf_ctx α)
        (iob : iobuf) (ls : Nat),
      ∃ r, conf_if_load_loop opts envs (iob.size + 1) ctx iob ls = some r) ∧
    (∀ (envs : Nat → line_env) (k : Nat) (ctx : conf_ctx conf_br) (iob : iobuf) (ls : Nat)
        (c : conf_ctx conf_br) (b : iobuf) (l : Nat),
      conf_if_load_turn conf_opts_br envs k ctx iob ls = some (c, b, l) →
        c.line = ctx.line + k ∧ b = (iobuf.advance^[k]) iob) ∧
    (∀ (envs : Nat → line_env) (k : Nat) (ctx : conf_ctx conf_prt) (iob : iobuf) (ls : Nat)
        (c : conf_ctx conf_prt) (b : iobuf) (l : Nat),
      conf_if_load_turn conf_opts_prt envs k ctx iob ls = some (c, b, l) →
        c.line = ctx.line + k ∧ b = (iobuf.advance^[k]) iob) := by
  refine ⟨?_, ?_, ?_, ?_, ?_⟩
  · intro b hb
    simp only [iobuf_readcleanline, if_pos hb]
  · intro b hb
    have hbd := iobuf_next_pos_bounds b hb
    rw [iobuf_readcleanline_eq b hb]
    refine ⟨hbd.1, hbd.2, rfl, fun hl => ?_⟩
    show 1 ≤ to_int ((clean_line b.unread).length + 1)
    rw [to_int_small _ (by omega)]
    omega
  · intro α opts envs ctx iob ls
    exact conf_if_load_loop_total opts envs _ ctx iob ls (by omega)
  · intro envs k ctx iob ls c b l h
    exact conf_if_load_turn_line conf_opts_br conf_opts_br_line envs k ctx iob ls c b l h
  · intro envs k ctx iob ls c b l h
    exact conf_if_load_turn_line conf_opts_prt conf_opts_prt_line envs k ctx iob ls c b l h

/-- On the file `mode rstp`, `# c`, `mstid 1` the third turn of the loop is
entered with `ctx->line = 3` and `pos` at the start of the third line. -/
theorem conf_if_load_turn_sample :
    (conf_if_load_turn conf_opts_br line_envs_ok 2 (conf_ctx_init conf_br_init)
        (str_iobuf "mode rstp\n# c\nmstid 1\n".toList) 0).map
        (fun s => (s.1.line, s.2.1.pos)) = some (3, 14) := by
  decide!

/-! ## The per-VLAN state cache -/

/-- The loop over the VIDs of an entry whose `range` is below 65535: it comes
to an end and stores the state at `vid`, ..., `range`, in order. -/
theorem vlan_state_loop_spec (state range : Nat) (hr : range < 65535) :
    ∀ (n vid fuel : Nat), vid + n = range + 1 → n < fuel →
      vlan_state_loop state range fuel vid
        = some ((List.range' vid n).map (fun v => (v, state)))
  | 0, vid, fuel, h, hf => by
    obtain ⟨f, rfl⟩ : ∃ f, fuel = f + 1 := ⟨fuel - 1, by omega⟩
    rw [vlan_state_loop, if_neg (by omega)]
    rfl
  | n + 1, vid, fuel, h, hf => by
    obtain ⟨f, rfl⟩ : ∃ f, fuel = f + 1 := ⟨fuel - 1, by omega⟩
    have hmod : (vid + 1) % 65536 = vid + 1 := Nat.mod_eq_of_lt (by omega)
    rw [vlan_state_loop, if_pos (by omega), hmod,
      vlan_state_loop_spec state range hr n (vid + 1) f (by omega) (by omega)]
    rfl

/-- An entry whose `vid` lies above its `range`: nothing is stored. -/
theorem vlan_state_loop_empty (state range vid fuel : Nat) (h : range < vid) :
    vlan_state_loop state range (fuel + 1) vid = some [] := by
  rw [vlan_state_loop, if_neg (by omega)]

/-- The stores made for one entry with `vid` and `range` at most 4094. -/
theorem fill_vlan_table_attr_spec (a : vlan_attr) (vid : Nat)
    (ht : NLA_TYPE_MASK a.rta_type = BRIDGE_VLANDB_ENTRY) (hi : a.info_vid = some vid)
    (hv : vid ≤ 4094) (hr : a.range.getD 0 ≤ 4094) :
    fill_vlan_table_attr a
      = some ((List.range' vid
          ((if a.range.getD 0 = 0 then vid else a.range.getD 0) + 1 - vid)).map
          (fun v => (v, a.state.getD VLAN_STATE_UNASSIGNED))) := by
  simp only [fill_vlan_table_attr, ht, hi, ne_eq, not_true_eq_false, if_false]
  generalize hR : (if a.range.getD 0 = 0 then vid else a.range.getD 0) = R
  have hR1 : R ≤ 4094 := by
    rw [← hR]
    split <;> omega
  by_cases hc : vid ≤ R
  · exact vlan_state_loop_spec _ R (by omega) (R + 1 - vid) vid 65537 (by omega) (by omega)
  · have h0 : R + 1 - vid = 0 := by omega
    rw [h0]
    exact vlan_state_loop_empty _ R vid 65536 (by omega)

/-- C29 (counterexample): for a dump entry with `vid = 4095` and no range
attribute, `fill_vlan_table_msg` stores the state at index 4095, which is not
an index of the 4095 elements of `vlan_state`. -/
theorem vlan_state_index_4095 :
    fill_vlan_table_msg 3 3 [⟨BRIDGE_VLANDB_ENTRY, some 4095, some 2, none⟩]
      = some (0, [(4095, 2)]) ∧
    ¬ 4095 < VLAN_STATE_LEN := by
  decide

/-- C29 (amended): for every VLAN dump entry whose `vid` and `range` are at
most 4094 (`range` taken as `vid` when the range attribute is absent or 0),
the loop of `fill_vlan_table_msg` comes to an end and stores the state at
`vlan_state[v]` exactly for the `v` with `vid <= v <= range`, each of them an
index of the 4095-element array; and for a message of the interface asked
for, all of whose entries are such, the function returns 0 with every store
inside the array. -/
theorem vlan_state_stores_in_bounds :
    (∀ (a : vlan_attr) (vid : Nat),
      NLA_TYPE_MASK a.rta_type = BRIDGE_VLANDB_ENTRY → a.info_vid = some vid →
      vid ≤ 4094 → a.range.getD 0 ≤ 4094 →
      ∃ ws, fill_vlan_table_attr a = some ws ∧
        (∀ v st, (v, st) ∈ ws ↔
          (vid ≤ v ∧ v ≤ (if a.range.getD 0 = 0 then vid else a.range.getD 0) ∧
            st = a.state.getD VLAN_STATE_UNASSIGNED)) ∧
        ∀ w ∈ ws, w.1 < VLAN_STATE_LEN) ∧
    (∀ (if_index : Int) (attrs : List vlan_attr),
      (∀ a ∈ attrs, ∀ vid, a.info_vid = some vid → vid ≤ 4094 ∧ a.range.getD 0 ≤ 4094) →
      ∃ ws, fill_vlan_table_msg if_index if_index attrs = some (0, ws) ∧
        ∀ w ∈ ws, w.1 < VLAN_STATE_LEN) := by
  have hattr : ∀ (a : vlan_attr) (vid : Nat),
      NLA_TYPE_MASK a.rta_type = BRIDGE_VLANDB_ENTRY → a.info_vid = some vid →
      vid ≤ 4094 → a.range.getD 0 ≤ 4094 →
      ∃ ws, fill_vlan_table_attr a = some ws ∧
        (∀ v st, (v, st) ∈ ws ↔
          (vid ≤ v ∧ v ≤ (if a.range.getD 0 = 0 then vid else a.range.getD 0) ∧
            st = a.state.getD VLAN_STATE_UNASSIGNED)) ∧
        ∀ w ∈ ws, w.1 < VLAN_STATE_LEN := by
    intro a vid ht hi hv hr
    refine ⟨_, fill_vlan_table_attr_spec a vid ht hi hv hr, ?_, ?_⟩
    · intro v st
      simp only [List.mem_map, List.mem_range'_1, Prod.mk.injEq]
      constructor
      · rintro ⟨x, ⟨hx1, hx2⟩, rfl, rfl⟩
        exact ⟨hx1, by omega, rfl⟩
      · rintro ⟨h1, h2, rfl⟩
        exact ⟨v, ⟨h1, by omega⟩, rfl, rfl⟩
    · intro w hw
      simp only [List.mem_map, List.mem_range'_1] at hw
      obtain ⟨x, ⟨_, hx2⟩, rfl⟩ := hw
      show x < 4095
      have : (if a.range.getD 0 = 0 then vid else a.range.getD 0) ≤ 4094 := by
        split <;> omega
      omega
  refine ⟨hattr, ?_⟩
  intro if_index attrs hall
  have hattrs : ∃ ws, fill_vlan_table_attrs attrs = some ws ∧
      ∀ w ∈ ws, w.1 < VLAN_STATE_LEN := by
    induction attrs with
    | nil => exact ⟨[], rfl, fun w hw => by cases hw⟩
    | cons a rest ih =>
      obtain ⟨ws1, h1, h2⟩ := ih (fun b hb => hall b (List.mem_cons_of_mem _ hb))
      have ha : ∃ ws, fill_vlan_table_attr a = some ws ∧ ∀ w ∈ ws, w.1 < VLAN_STATE_LEN := by
        by_cases ht : NLA_TYPE_MASK a.rta_type = BRIDGE_VLANDB_ENTRY
        · cases hi : a.info_vid with
          | none =>
            refine ⟨[], ?_, fun w hw => by cases hw⟩
            simp only [fill_vlan_table_attr, ht, hi, ne_eq, not_true_eq_false, if_false]
          | some vid =>
            obtain ⟨hv, hr⟩ := hall a (List.mem_cons_self _ _) vid hi
            obtain ⟨ws, h3, _, h4⟩ := hattr a vid ht hi hv hr
            exact ⟨ws, h3, h4⟩
        · refine ⟨[], ?_, fun w hw => by cases hw⟩
          simp only [fill_vlan_table_attr, ne_eq, ht, not_false_eq_true, if_true]
      obtain ⟨ws, h3, h4⟩ := ha
      refine ⟨ws ++ ws1, ?_, ?_⟩
      · simp only [fill_vlan_table_attrs, h3, h1]
      · intro w hw
        rcases List.mem_append.1 hw with h | h
        · exact h4 w h
        · exact h2 w h
  obtain ⟨ws, h1, h2⟩ := hattrs
  refine ⟨ws, ?_, h2⟩
  simp only [fill_vlan_table_msg, ne_eq, not_true_eq_false, if_false, h1]

/-! ## Appending a netlink attribute -/

/-- Stores of a value leave the bytes outside its place alone. -/
theorem mem_store_le_stores_frame : ∀ (w : Nat) (m : byte_mem) (off v i : Nat),
    (i < off ∨ off + w ≤ i) → mem_store m (le_stores w off v) i = m i
  | 0, m, off, v, i, _ => rfl
  | w + 1, m, off, v, i, h => by
    rw [le_stores, mem_store, mem_store_le_stores_frame w _ (off + 1) (v / 256) i (by omega)]
    exact if_neg (by omega)

/-- A value read depends on the bytes of its place only. -/
theorem le_load_congr (m m1 : byte_mem) : ∀ (w off : Nat),
    (∀ i, off ≤ i → i < off + w → m i = m1 i) → le_load m w off = le_load m1 w off
  | 0, _, _ => rfl
  | w + 1, off, h => by
    rw [le_load, le_load, h off (Nat.le_refl _) (by omega),
      le_load_congr m m1 w (off + 1) (fun i h1 h2 => h i (by omega) (by omega))]

/-- A 16-bit value stored is the value read. -/
theorem le_load_store_2 (m : byte_mem) (off v : Nat) (hv : v < 65536) :
    le_load (mem_store m (le_stores 2 off v)) 2 off = v := by
  simp [le_stores, mem_store, le_load]
  omega

/-- A 32-bit value stored is the value read. -/
theorem le_load_store_4 (m : byte_mem) (off v : Nat) (hv : v < 4294967296) :
    le_load (mem_store m (le_stores 4 off v)) 4 off = v := by
  have e2 : ¬ off = off + 1 + 1 := by omega
  have e3 : ¬ off = off + 1 + 1 + 1 := by omega
  simp [le_stores, mem_store, le_load, e2, e3]
  omega

theorem to_u32_small (n : Nat) (h : n < 4294967296) : to_u32 (n : Int) = n := by
  have h1 : ((n : Int) % 4294967296) = (n : Int) := Int.emod_eq_of_lt (by omega) (by omega)
  simp only [to_u32, h1, Int.toNat_ofNat]

theorem to_u16_small (n : Nat) (h : n < 65536) : to_u16 (n : Int) = n := by
  have h1 : ((n : Int) % 65536) = (n : Int) := Int.emod_eq_of_lt (by omega) (by omega)
  simp only [to_u16, h1, Int.toNat_ofNat]

/-- The macros of `addattr_l` on lengths that fit their types. -/
theorem rta_macros_small (alen : Nat) (h : alen ≤ 65531) :
    RTA_LENGTH (alen : Int) = 4 + alen ∧
    to_int (RTA_LENGTH (alen : Int)) = ((4 + alen : Nat) : Int) ∧
    RTA_ALIGN ((4 + alen : Nat) : Int) = (4 + alen + 3) / 4 * 4 ∧
    to_u16 ((4 + alen : Nat) : Int) = 4 + alen ∧
    RTA_LENGTH 0 = 4 := by
  have h1 : RTA_LENGTH (alen : Int) = 4 + alen := by
    have : (4 : Int) + (alen : Int) = ((4 + alen : Nat) : Int) := by push_cast; rfl
    rw [RTA_LENGTH, this, to_size_t_small _ (by unfold SIZE_MAX; omega)]
  refine ⟨h1, ?_, ?_, ?_, ?_⟩
  · rw [h1, to_int_small _ (by unfold INT_MAX; omega)]
  · rw [RTA_ALIGN, to_u32_small _ (by omega), Nat.mod_eq_of_lt (by omega)]
  · exact to_u16_small _ (by omega)
  · decide

/-- The function `addattr_l` on a message and arguments that fit their types:
the bound is compared without wrap-around, and the stores are those of the
16-bit type and length, of the payload, and of the new 32-bit `nlmsg_len`. -/
theorem addattr_l_eq (n : byte_mem) (maxlen type alen : Nat) (data : byte_mem)
    (hlen : 0 < nlmsg_len n ∧ nlmsg_len n ≤ INT_MAX)
    (hmax : maxlen ≤ INT_MAX) (htype : type ≤ 65535) (halen : alen ≤ 65531) :
    addattr_l n (maxlen : Int) (type : Int) data (alen : Int) =
      if (nlmsg_len n + 3) / 4 * 4 + (4 + alen + 3) / 4 * 4 > maxlen then (-1, n)
      else (0, mem_store
        (memcpy
          (mem_store (mem_store n (le_stores 2 ((nlmsg_len n + 3) / 4 * 4 + 2) type))
            (le_stores 2 ((nlmsg_len n + 3) / 4 * 4) (4 + alen)))
          ((nlmsg_len n + 3) / 4 * 4 + 4) data alen)
        (le_stores 4 0 ((nlmsg_len n + 3) / 4 * 4 + (4 + alen + 3) / 4 * 4))) := by
  obtain ⟨m1, m2, m3, m4, m5⟩ := rta_macros_small alen halen
  unfold INT_MAX at hlen hmax
  have hA : NLMSG_ALIGN (nlmsg_len n) = (nlmsg_len n + 3) / 4 * 4 := by
    rw [NLMSG_ALIGN, Nat.mod_eq_of_lt (by omega)]
  have hsum : ((nlmsg_len n + 3) / 4 * 4 + (4 + alen + 3) / 4 * 4) % 4294967296
      = (nlmsg_len n + 3) / 4 * 4 + (4 + alen + 3) / 4 * 4 := Nat.mod_eq_of_lt (by omega)
  have hA4 : 4 ≤ (nlmsg_len n + 3) / 4 * 4 := by omega
  have hcpy : ∀ (m : byte_mem) (d : Nat),
      (if (alen : Int) ≠ 0 then memcpy m d data (to_size_t (alen : Int)) else m)
        = memcpy m d data alen := by
    intro m d
    rw [to_size_t_small _ (by unfold SIZE_MAX; omega)]
    by_cases h0 : (alen : Int) ≠ 0
    · rw [if_pos h0]
    · rw [if_neg h0]
      have : alen = 0 := by omega
      subst this
      funext i
      have hn : ¬ (d ≤ i ∧ i < d + 0) := by omega
      simp only [memcpy, if_neg hn]
  simp only [addattr_l, m2, m3, m4, hA, hsum, to_u32_small maxlen (by omega),
    to_u16_small type (by omega), NLMSG_TAIL, RTA_DATA, m5, hcpy]
  by_cases hc : (nlmsg_len n + 3) / 4 * 4 + (4 + alen + 3) / 4 * 4 > maxlen
  · rw [if_pos hc, if_pos hc]
  · rw [if_neg hc, if_neg hc]
    have hfr : nlmsg_len
        (memcpy
          (mem_store (mem_store n (le_stores 2 ((nlmsg_len n + 3) / 4 * 4 + 2) type))
            (le_stores 2 ((nlmsg_len n + 3) / 4 * 4) (4 + alen)))
          ((nlmsg_len n + 3) / 4 * 4 + 4) data alen) = nlmsg_len n := by
      unfold nlmsg_len
      apply le_load_congr
      intro i _ hi
      have h1 : ¬ ((le_load n 4 0 + 3) / 4 * 4 + 4 ≤ i ∧
          i < (le_load n 4 0 + 3) / 4 * 4 + 4 + alen) := by
        unfold nlmsg_len at hA4
        omega
      simp only [memcpy, if_neg h1]
      rw [mem_store_le_stores_frame 2 _ _ _ i (by unfold nlmsg_len at hA4; omega),
        mem_store_le_stores_frame 2 _ _ _ i (by unfold nlmsg_len at hA4; omega)]
    rw [hfr, hA, hsum]

/-- C30 (counterexample): with a payload of 65532 bytes and room for it,
`addattr_l` returns 0 and stores `rta_len = 0`, not `RTA_LENGTH(alen) = 65536`;
with `type = 65536` it stores `rta_type = 0`; with `maxlen = -1` it returns 0
although the sum exceeds `maxlen`; on a message with `nlmsg_len = 4294967292`
the sum wraps around to 0, the function returns 0 and sets `nlmsg_len` to 0;
on a message with `nlmsg_len = 0` the attribute overwrites the field and
`nlmsg_len` becomes 65544, above `maxlen = 64`. -/
theorem addattr_l_field_overflow :
    ((addattr_l (nl_msg 16) 131072 1 (fun _ => 7) 65532).1 = 0 ∧
      le_load (addattr_l (nl_msg 16) 131072 1 (fun _ => 7) 65532).2 2 16 = 0 ∧
      RTA_LENGTH 65532 = 65536) ∧
    ((addattr_l (nl_msg 16) 64 65536 (fun _ => 7) 4).1 = 0 ∧
      le_load (addattr_l (nl_msg 16) 64 65536 (fun _ => 7) 4).2 2 18 = 0) ∧
    ((addattr_l (nl_msg 16) (-1) 1 (fun _ => 7) 4).1 = 0 ∧ (16 + 8 : Int) > -1) ∧
    ((addattr_l (nl_msg 4294967292) 64 1 (fun _ => 7) 0).1 = 0 ∧
      nlmsg_len (addattr_l (nl_msg 4294967292) 64 1 (fun _ => 7) 0).2 = 0) ∧
    ((addattr_l (nl_msg 0) 64 1 (fun _ => 7) 0).1 = 0 ∧
      nlmsg_len (addattr_l (nl_msg 0) 64 1 (fun _ => 7) 0).2 = 65544) := by
  decide

/-- C30 (amended): for a message with `0 < nlmsg_len <= INT_MAX` and arguments
`0 <= maxlen`, `0 <= type <= 65535`, `0 <= alen <= 65531`: if
`NLMSG_ALIGN(nlmsg_len) + RTA_ALIGN(RTA_LENGTH(alen)) > maxlen`, `addattr_l`
returns -1 and leaves the message as it is; otherwise it returns 0, has
written at the offset `NLMSG_ALIGN(nlmsg_len)` the length `RTA_LENGTH(alen)`,
the type and the `alen` bytes of the payload, has left every other byte behind
the field `nlmsg_len` as it was, and has set `nlmsg_len` to the sum, a
multiple of 4 that is at most `maxlen`. -/
theorem addattr_l_attribute (n : byte_mem) (maxlen type alen : Nat) (data : byte_mem)
    (hlen : 0 < nlmsg_len n ∧ nlmsg_len n ≤ INT_MAX)
    (hmax : maxlen ≤ INT_MAX) (htype : type ≤ 65535) (halen : alen ≤ 65531) :
    NLMSG_ALIGN (nlmsg_len n) = (nlmsg_len n + 3) / 4 * 4 ∧
    RTA_ALIGN (RTA_LENGTH (alen : Int)) = (4 + alen + 3) / 4 * 4 ∧
    ((nlmsg_len n + 3) / 4 * 4 + (4 + alen + 3) / 4 * 4 > maxlen →
      addattr_l n (maxlen : Int) (type : Int) data (alen : Int) = (-1, n)) ∧
    ((nlmsg_len n + 3) / 4 * 4 + (4 + alen + 3) / 4 * 4 ≤ maxlen →
      (addattr_l n (maxlen : Int) (type : Int) data (alen : Int)).1 = 0 ∧
      le_load (addattr_l n (maxlen : Int) (type : Int) data (alen : Int)).2 2
          ((nlmsg_len n + 3) / 4 * 4) = 4 + alen ∧
      le_load (addattr_l n (maxlen : Int) (type : Int) data (alen : Int)).2 2
          ((nlmsg_len n + 3) / 4 * 4 + 2) = type ∧
      (∀ i, i < alen →
        (addattr_l n (maxlen : Int) (type : Int) data (alen : Int)).2
          ((nlmsg_len n + 3) / 4 * 4 + 4 + i) = data i % 256) ∧
      (∀ i, 4 ≤ i → (i < (nlmsg_len n + 3) / 4 * 4 ∨
          (nlmsg_len n + 3) / 4 * 4 + 4 + alen ≤ i) →
        (addattr_l n (maxlen : Int) (type : Int) data (alen : Int)).2 i = n i) ∧
      nlmsg_len (addattr_l n (maxlen : Int) (type : Int) data (alen : Int)).2
        = (nlmsg_len n + 3) / 4 * 4 + (4 + alen + 3) / 4 * 4 ∧
      ((nlmsg_len n + 3) / 4 * 4 + (4 + alen + 3) / 4 * 4) % 4 = 0) := by
  have heq := addattr_l_eq n maxlen type alen data hlen hmax htype halen
  obtain ⟨m1, m2, m3, m4, m5⟩ := rta_macros_small alen halen
  unfold INT_MAX at hlen hmax
  have hA4 : 4 ≤ (nlmsg_len n + 3) / 4 * 4 := by omega
  refine ⟨?_, ?_, ?_, ?_⟩
  · rw [NLMSG_ALIGN, Nat.mod_eq_of_lt (by omega)]
  · rw [m1]
    exact m3
  · intro hc
    rw [heq, if_pos hc]
  · intro hc
    rw [heq, if_neg (by omega)]
    generalize hAdef : (nlmsg_len n + 3) / 4 * 4 = A at *
    generalize hRdef : (4 + alen + 3) / 4 * 4 = R at *
    refine ⟨rfl, ?_, ?_, ?_, ?_, ?_, by omega⟩
    · show le_load (mem_store (memcpy (mem_store (mem_store n (le_stores 2 (A + 2) type))
        (le_stores 2 A (4 + alen))) (A + 4) data alen) (le_stores 4 0 (A + R))) 2 A = 4 + alen
      rw [le_load_congr _ (mem_store (mem_store n (le_stores 2 (A + 2) type))
        (le_stores 2 A (4 + alen))) 2 A, le_load_store_2 _ _ _ (by omega)]
      intro i h1 h2
      rw [mem_store_le_stores_frame 4 _ _ _ i (by omega)]
      exact if_neg (by omega)
    · show le_load (mem_store (memcpy (mem_store (mem_store n (le_stores 2 (A + 2) type))
        (le_stores 2 A (4 + alen))) (A + 4) data alen) (le_stores 4 0 (A + R))) 2 (A + 2) = type
      rw [le_load_congr _ (mem_store n (le_stores 2 (A + 2) type)) 2 (A + 2),
        le_load_store_2 _ _ _ (by omega)]
      intro i h1 h2
      rw [mem_store_le_stores_frame 4 _ _ _ i (by omega)]
      show (if A + 4 ≤ i ∧ i < A + 4 + alen then data (i - (A + 4)) % 256 else _) = _
      rw [if_neg (by omega), mem_store_le_stores_frame 2 _ _ _ i (by omega)]
    · intro i hi
      show mem_store (memcpy (mem_store (mem_store n (le_stores 2 (A + 2) type))
        (le_stores 2 A (4 + alen))) (A + 4) data alen) (le_stores 4 0 (A + R)) (A + 4 + i) = _
      rw [mem_store_le_stores_frame 4 _ _ _ _ (by omega)]
      show (if A + 4 ≤ A + 4 + i ∧ A + 4 + i < A + 4 + alen then
        data (A + 4 + i - (A + 4)) % 256 else _) = _
      rw [if_pos (by omega), Nat.add_sub_cancel_left]
    · intro i h4 hi
      show mem_store (memcpy (mem_store (mem_store n (le_stores 2 (A + 2) type))
        (le_stores 2 A (4 + alen))) (A + 4) data alen) (le_stores 4 0 (A + R)) i = _
      rw [mem_store_le_stores_frame 4 _ _ _ _ (by omega)]
      show (if A + 4 ≤ i ∧ i < A + 4 + alen then data (i - (A + 4)) % 256 else _) = _
      rw [if_neg (by omega), mem_store_le_stores_frame 2 _ _ _ i (by omega),
        mem_store_le_stores_frame 2 _ _ _ i (by omega)]
    · exact le_load_store_4 _ _ _ (by omega)

/-- C30 (witness): the attribute of type 5 with the payload 1, 2, 3 appended to
a message of 17 bytes in a buffer of 64 bytes: it lies at offset 20 and the
message then has 28 bytes. -/
theorem addattr_l_attribute_witness :
    (addattr_l (nl_msg 17) 64 5 (fun i => i + 1) 3).1 = 0 ∧
    nlmsg_len (addattr_l (nl_msg 17) 64 5 (fun i => i + 1) 3).2 = 28 ∧
    (List.range 8).map (fun i => (addattr_l (nl_msg 17) 64 5 (fun i => i + 1) 3).2 (20 + i))
      = [7, 0, 5, 0, 1, 2, 3, 0] ∧
    (∀ i, i < 3 → (addattr_l (nl_msg 17) ((64 : Nat) : Int) ((5 : Nat) : Int)
        (fun i => i + 1) ((3 : Nat) : Int)).2
          ((nlmsg_len (nl_msg 17) + 3) / 4 * 4 + 4 + i) = (fun i => i + 1) i % 256) :=
  ⟨by decide, by decide, by decide,
    ((addattr_l_attribute (nl_msg 17) 64 5 3 (fun i => i + 1) (by decide) (by decide)
      (by decide) (by decide)).2.2.2 (by decide)).2.2.2.1⟩

end Mstpd
